import Mathlib

/-!
Verification of the paged KV-cache block manager and scheduler of the
`cacheflow` package (files `cacheflow/master/block_manager.py`,
`cacheflow/master/scheduler.py`, `cacheflow/sequence.py`).

The Python classes are embedded shallowly: mutable objects become values,
mutation becomes explicit state passing, Python `dict`s become
insertion-ordered association lists, and operations that can raise
(`OutOfMemory`, `DoubleFree`, `KeyError`, `IndexError`, failed `assert`)
return `Option`, with `none` marking the raise.
-/

namespace CacheFlow

/-- Modelled from the spec: the two memory tiers, "device" and "host"
(`Device.GPU` / `Device.CPU`); the defining file `cacheflow/utils.py` is
not under `src/`. -/
inductive Device where
  | GPU
  | CPU
deriving DecidableEq, Repr

/-- Modelled from the spec: a physical block is identified by a
(tier, block_number) pair and carries a `block_size`; the defining file
`cacheflow/block.py` is not under `src/`.  Its mutable `ref_count`
attribute is held externally in a `RefStore`. -/
structure PhysicalTokenBlock where
  device : Device
  block_number : Nat
  block_size : Nat
deriving DecidableEq, Repr

/-- The `ref_count` attributes of all physical blocks of both pools:
`gpu` (resp. `cpu`) holds the count of the GPU (resp. CPU) block of each
block number.  This stands for the per-object mutable attribute of the
Python blocks. -/
structure RefStore where
  gpu : List Nat
  cpu : List Nat
deriving DecidableEq, Repr

def RefStore.get (r : RefStore) (b : PhysicalTokenBlock) : Nat :=
  match b.device with
  | Device.GPU => r.gpu.getD b.block_number 0
  | Device.CPU => r.cpu.getD b.block_number 0

def RefStore.set (r : RefStore) (b : PhysicalTokenBlock) (v : Nat) : RefStore :=
  match b.device with
  | Device.GPU => { r with gpu := r.gpu.set b.block_number v }
  | Device.CPU => { r with cpu := r.cpu.set b.block_number v }

/-- Modelled from the spec: a logical block carries its index, the fixed
`block_size` and the token ids stored so far; the defining file
`cacheflow/block.py` is not under `src/`. -/
structure LogicalTokenBlock where
  block_number : Nat
  block_size : Nat
  token_ids : List Nat
deriving DecidableEq, Repr

def LogicalTokenBlock.num_tokens (b : LogicalTokenBlock) : Nat :=
  b.token_ids.length

/-- `cacheflow/sequence.py`, `SequenceStatus`. -/
inductive SequenceStatus where
  | PENDING
  | RUNNING
  | SWAPPED
  | FINISHED
deriving DecidableEq, Repr

/-- `cacheflow/sequence.py`, `Sequence` (the fields read by the block
manager and the scheduler). -/
structure Sequence where
  seq_id : Nat
  block_size : Nat
  logical_token_blocks : List LogicalTokenBlock
  status : SequenceStatus
deriving DecidableEq, Repr

/-- `Sequence.get_len`: total number of stored tokens. -/
def Sequence.get_len (s : Sequence) : Nat :=
  (s.logical_token_blocks.map (fun b => b.num_tokens)).sum

/-- `Sequence.get_token_ids`. -/
def Sequence.get_token_ids (s : Sequence) : List Nat :=
  (s.logical_token_blocks.map (fun b => b.token_ids)).flatten

/-- `cacheflow/sequence.py`, `SequenceGroup`. -/
structure SequenceGroup where
  group_id : Nat
  seqs : List Sequence
deriving DecidableEq, Repr

/-- `SequenceGroup.num_seqs()` with `status=None`. -/
def SequenceGroup.num_seqs (g : SequenceGroup) : Nat := g.seqs.length

/-- `SequenceGroup.num_seqs(status)` with an explicit status filter. -/
def SequenceGroup.num_seqs_with (g : SequenceGroup) (st : SequenceStatus) : Nat :=
  (g.seqs.filter (fun s => s.status = st)).length

/-! ### Tier allocator (`BlockManager`, block_manager.py lines 10-47) -/

/-- `cacheflow/master/block_manager.py`, class `BlockManager`: a free-list
allocator over one tier.  `free_blocks` is kept in Python list order:
`allocate` pops from the back, `free` appends at the back. -/
structure BlockManager where
  device : Device
  block_size : Nat
  num_blocks : Nat
  free_blocks : List PhysicalTokenBlock
deriving DecidableEq, Repr

/-- `BlockManager.__init__`: the pool is pre-filled with blocks `0..n-1`. -/
def BlockManager.init (device : Device) (block_size num_blocks : Nat) : BlockManager :=
  { device := device, block_size := block_size, num_blocks := num_blocks,
    free_blocks := (List.range num_blocks).map
      (fun i => ⟨device, i, block_size⟩) }

/-- `BlockManager.allocate`: raises OutOfMemory (here `none`) when the free
list is empty; otherwise pops the last free block, sets its ref_count
to 1 and returns it. -/
def BlockManager.allocate (m : BlockManager) (r : RefStore) :
    Option (PhysicalTokenBlock × BlockManager × RefStore) :=
  match m.free_blocks.getLast? with
  | none => none
  | some b =>
      some (b, { m with free_blocks := m.free_blocks.dropLast }, r.set b 1)

/-- `BlockManager.free`: raises DoubleFree (here `none`) when the incoming
ref_count is 0; otherwise decrements it, appending the block back onto
the free list exactly when the count reaches 0. -/
def BlockManager.free (m : BlockManager) (r : RefStore) (b : PhysicalTokenBlock) :
    Option (BlockManager × RefStore) :=
  if r.get b = 0 then none
  else
    let r1 := r.set b (r.get b - 1)
    if r.get b - 1 = 0 then
      some ({ m with free_blocks := m.free_blocks ++ [b] }, r1)
    else
      some (m, r1)

/-- `BlockManager.get_num_free_blocks`. -/
def BlockManager.get_num_free_blocks (m : BlockManager) : Nat :=
  m.free_blocks.length

/-! ### Association lists standing for Python dicts -/

/-- Lookup in an insertion-ordered association list (a Python dict). -/
def alookup {α : Type} : List (Nat × α) → Nat → Option α
  | [], _ => none
  | (k, v) :: rest, k0 => if k = k0 then some v else alookup rest k0

/-- `d[k] = v` on a Python dict: replace in place if the key is present,
otherwise append at the end. -/
def aset {α : Type} : List (Nat × α) → Nat → α → List (Nat × α)
  | [], k0, v0 => [(k0, v0)]
  | (k, v) :: rest, k0, v0 =>
      if k = k0 then (k0, v0) :: rest else (k, v) :: aset rest k0 v0

/-- `del d[k]` on a Python dict. -/
def aerase {α : Type} (l : List (Nat × α)) (k0 : Nat) : List (Nat × α) :=
  l.filter (fun p => p.1 ≠ k0)

/-- Lookup in the block-to-block mapping dict used by the swap loops
(keys are block objects, compared by identity = by value here). -/
def blookup : List (PhysicalTokenBlock × PhysicalTokenBlock) → PhysicalTokenBlock →
    Option PhysicalTokenBlock
  | [], _ => none
  | (k, v) :: rest, k0 => if k = k0 then some v else blookup rest k0

/-! ### Block-space manager (`BlockSpaceManager`, block_manager.py lines 54-235) -/

/-- `cacheflow/master/block_manager.py`, class `BlockSpaceManager`.
`refs` holds every block's `ref_count` attribute; `block_tables` is the
`seq_id -> BlockTable` dict. -/
structure BlockSpaceManager where
  block_size : Nat
  num_total_gpu_blocks : Nat
  num_total_cpu_blocks : Nat
  gpu_allocator : BlockManager
  cpu_allocator : BlockManager
  refs : RefStore
  block_tables : List (Nat × List PhysicalTokenBlock)
deriving DecidableEq, Repr

/-- `BlockSpaceManager.__init__`. -/
def BlockSpaceManager.init (block_size num_gpu_blocks num_cpu_blocks : Nat) :
    BlockSpaceManager :=
  { block_size := block_size,
    num_total_gpu_blocks := num_gpu_blocks,
    num_total_cpu_blocks := num_cpu_blocks,
    gpu_allocator := BlockManager.init Device.GPU block_size num_gpu_blocks,
    cpu_allocator := BlockManager.init Device.CPU block_size num_cpu_blocks,
    refs := { gpu := List.replicate num_gpu_blocks 0,
              cpu := List.replicate num_cpu_blocks 0 },
    block_tables := [] }

/-- `BlockSpaceManager.can_allocate`: `seqs[0]` raises IndexError on an
empty group (`none`). -/
def BlockSpaceManager.can_allocate (m : BlockSpaceManager) (g : SequenceGroup) :
    Option Bool :=
  match g.seqs.head? with
  | none => none
  | some s =>
      some (decide (s.logical_token_blocks.length ≤
        m.gpu_allocator.get_num_free_blocks))

/-- The allocation loop inside `BlockSpaceManager.allocate`: allocate `k`
GPU blocks, setting each one's ref_count to `ns = seq_group.num_seqs()`. -/
def allocLoop : Nat → Nat → BlockManager → RefStore →
    Option (List PhysicalTokenBlock × BlockManager × RefStore)
  | 0, _, a, r => some ([], a, r)
  | k + 1, ns, a, r =>
      match a.allocate r with
      | none => none
      | some (b, a1, r1) =>
          match allocLoop k ns a1 (r1.set b ns) with
          | none => none
          | some (t, a2, r2) => some (b :: t, a2, r2)

/-- `BlockSpaceManager.allocate(seq_group)`: build one table of fresh GPU
blocks with ref_count `num_seqs`, then assign (a copy of) it to every
sibling's slot. -/
def BlockSpaceManager.allocate (m : BlockSpaceManager) (g : SequenceGroup) :
    Option BlockSpaceManager :=
  match g.seqs.head? with
  | none => none
  | some s0 =>
      match allocLoop s0.logical_token_blocks.length g.num_seqs
          m.gpu_allocator m.refs with
      | none => none
      | some (t, a, r) =>
          some { m with
            gpu_allocator := a
            refs := r
            block_tables :=
              g.seqs.foldl (fun tabs s => aset tabs s.seq_id t) m.block_tables }

/-- `BlockSpaceManager.can_append`. -/
def BlockSpaceManager.can_append (m : BlockSpaceManager) (g : SequenceGroup) : Bool :=
  decide (g.num_seqs_with SequenceStatus.RUNNING ≤
    m.gpu_allocator.get_num_free_blocks)

/-- `BlockSpaceManager.append(seq)`: reserve a slot for the next token.
`none` stands for KeyError (unknown seq), IndexError (empty table with no
new logical block), a failed `assert last_block.device == Device.GPU`, and
OutOfMemory / DoubleFree from the allocator. -/
def BlockSpaceManager.append (m : BlockSpaceManager) (s : Sequence) :
    Option (Option (Nat × Nat) × BlockSpaceManager) :=
  match alookup m.block_tables s.seq_id with
  | none => none
  | some bt =>
      if bt.length < s.logical_token_blocks.length then
        match m.gpu_allocator.allocate m.refs with
        | none => none
        | some (b, a1, r1) =>
            some (none, { m with
              gpu_allocator := a1
              refs := r1
              block_tables := aset m.block_tables s.seq_id (bt ++ [b]) })
      else
        match bt.getLast? with
        | none => none
        | some last =>
            if last.device ≠ Device.GPU then none
            else if m.refs.get last = 1 then
              some (none, m)
            else
              match m.gpu_allocator.allocate m.refs with
              | none => none
              | some (nb, a1, r1) =>
                  match a1.free r1 last with
                  | none => none
                  | some (a2, r2) =>
                      some (some (last.block_number, nb.block_number),
                        { m with
                          gpu_allocator := a2
                          refs := r2
                          block_tables :=
                            aset m.block_tables s.seq_id (bt.dropLast ++ [nb]) })

/-- `BlockSpaceManager.fork(parent_seq, child_seq)`: clone the parent's
table into the child's slot and bump the ref_count of each entry. -/
def BlockSpaceManager.fork (m : BlockSpaceManager) (parent child : Sequence) :
    Option BlockSpaceManager :=
  match alookup m.block_tables parent.seq_id with
  | none => none
  | some src =>
      some { m with
        block_tables := aset m.block_tables child.seq_id src,
        refs := src.foldl (fun r b => r.set b (r.get b + 1)) m.refs }

/-- Deduplication keeping first occurrences (the embedding of building a
Python `set` of blocks; only the size of the set is ever consumed). -/
def dedupFirst : List PhysicalTokenBlock → List PhysicalTokenBlock
  | [] => []
  | b :: rest =>
      let t := dedupFirst rest
      if b ∈ t then t else b :: t

/-- Collect the block tables of the non-finished sequences of a group
(`none` on a missing table, Python's KeyError). -/
def liveTables (tabs : List (Nat × List PhysicalTokenBlock)) :
    List Sequence → Option (List (List PhysicalTokenBlock))
  | [] => some []
  | s :: rest =>
      if s.status = SequenceStatus.FINISHED then liveTables tabs rest
      else
        match alookup tabs s.seq_id with
        | none => none
        | some bt =>
            match liveTables tabs rest with
            | none => none
            | some l => some (bt :: l)

/-- `BlockSpaceManager._get_physical_blocks`: the set of blocks referenced
by the group's non-finished sequences. -/
def BlockSpaceManager.get_physical_blocks (m : BlockSpaceManager) (g : SequenceGroup) :
    Option (List PhysicalTokenBlock) :=
  match liveTables m.block_tables g.seqs with
  | none => none
  | some l => some (dedupFirst l.flatten)

/-- `BlockSpaceManager.can_swap_in`. -/
def BlockSpaceManager.can_swap_in (m : BlockSpaceManager) (g : SequenceGroup) :
    Option Bool :=
  match m.get_physical_blocks g with
  | none => none
  | some blocks =>
      some (decide (blocks.length + g.num_seqs_with SequenceStatus.SWAPPED ≤
        m.gpu_allocator.get_num_free_blocks))

/-- `BlockSpaceManager.can_swap_out`. -/
def BlockSpaceManager.can_swap_out (m : BlockSpaceManager) (g : SequenceGroup) :
    Option Bool :=
  match m.get_physical_blocks g with
  | none => none
  | some blocks =>
      some (decide (blocks.length ≤ m.cpu_allocator.get_num_free_blocks))

/-- One iteration of the inner swap loop (shared shape of `swap_in` and
`swap_out`): map block `b` through the dedup dict `mp`, allocating a fresh
destination block on a miss, then release `b` to the source allocator. -/
def swapBlock (dstA srcA : BlockManager) (r : RefStore)
    (mp : List (PhysicalTokenBlock × PhysicalTokenBlock)) (b : PhysicalTokenBlock) :
    Option (PhysicalTokenBlock × BlockManager × BlockManager × RefStore ×
      List (PhysicalTokenBlock × PhysicalTokenBlock)) :=
  match blookup mp b with
  | some nb =>
      let r1 := r.set nb (r.get nb + 1)
      match srcA.free r1 b with
      | none => none
      | some (srcA1, r2) => some (nb, dstA, srcA1, r2, mp)
  | none =>
      match dstA.allocate r with
      | none => none
      | some (nb, dstA1, r1) =>
          match srcA.free r1 b with
          | none => none
          | some (srcA1, r2) => some (nb, dstA1, srcA1, r2, mp ++ [(b, nb)])

/-- The walk of one block table inside `swap_in` / `swap_out`. -/
def swapTable (dstA srcA : BlockManager) (r : RefStore)
    (mp : List (PhysicalTokenBlock × PhysicalTokenBlock)) :
    List PhysicalTokenBlock →
    Option (List PhysicalTokenBlock × BlockManager × BlockManager × RefStore ×
      List (PhysicalTokenBlock × PhysicalTokenBlock))
  | [] => some ([], dstA, srcA, r, mp)
  | b :: rest =>
      match swapBlock dstA srcA r mp b with
      | none => none
      | some (nb, dstA1, srcA1, r1, mp1) =>
          match swapTable dstA1 srcA1 r1 mp1 rest with
          | none => none
          | some (nt, dstA2, srcA2, r2, mp2) =>
              some (nb :: nt, dstA2, srcA2, r2, mp2)

/-- The per-sequence loop of `swap_in` / `swap_out`: finished sequences are
skipped; each live sequence's table is rebuilt on the destination tier and
written back into the table dict. -/
def swapSeqs (dstA srcA : BlockManager) (r : RefStore)
    (mp : List (PhysicalTokenBlock × PhysicalTokenBlock))
    (tabs : List (Nat × List PhysicalTokenBlock)) :
    List Sequence →
    Option (BlockManager × BlockManager × RefStore ×
      List (PhysicalTokenBlock × PhysicalTokenBlock) ×
      List (Nat × List PhysicalTokenBlock))
  | [] => some (dstA, srcA, r, mp, tabs)
  | s :: rest =>
      if s.status = SequenceStatus.FINISHED then
        swapSeqs dstA srcA r mp tabs rest
      else
        match alookup tabs s.seq_id with
        | none => none
        | some bt =>
            match swapTable dstA srcA r mp bt with
            | none => none
            | some (nt, dstA1, srcA1, r1, mp1) =>
                swapSeqs dstA1 srcA1 r1 mp1 (aset tabs s.seq_id nt) rest

/-- `BlockSpaceManager.swap_in(seq_group)`: CPU → GPU; returns the
host-to-device block-number mapping. -/
def BlockSpaceManager.swap_in (m : BlockSpaceManager) (g : SequenceGroup) :
    Option (List (Nat × Nat) × BlockSpaceManager) :=
  match swapSeqs m.gpu_allocator m.cpu_allocator m.refs [] m.block_tables g.seqs with
  | none => none
  | some (dstA, srcA, r, mp, tabs) =>
      some (mp.map (fun p => (p.1.block_number, p.2.block_number)),
        { m with
          gpu_allocator := dstA
          cpu_allocator := srcA
          refs := r
          block_tables := tabs })

/-- `BlockSpaceManager.swap_out(seq_group)`: GPU → CPU; returns the
device-to-host block-number mapping. -/
def BlockSpaceManager.swap_out (m : BlockSpaceManager) (g : SequenceGroup) :
    Option (List (Nat × Nat) × BlockSpaceManager) :=
  match swapSeqs m.cpu_allocator m.gpu_allocator m.refs [] m.block_tables g.seqs with
  | none => none
  | some (dstA, srcA, r, mp, tabs) =>
      some (mp.map (fun p => (p.1.block_number, p.2.block_number)),
        { m with
          cpu_allocator := dstA
          gpu_allocator := srcA
          refs := r
          block_tables := tabs })

/-- `BlockSpaceManager._free_block_table`: release every block of one
table to the allocator of its own tier. -/
def BlockSpaceManager.free_block_table (m : BlockSpaceManager) :
    List PhysicalTokenBlock → Option BlockSpaceManager
  | [] => some m
  | b :: rest =>
      match b.device with
      | Device.GPU =>
          match m.gpu_allocator.free m.refs b with
          | none => none
          | some (a, r) =>
              BlockSpaceManager.free_block_table
                { m with gpu_allocator := a, refs := r } rest
      | Device.CPU =>
          match m.cpu_allocator.free m.refs b with
          | none => none
          | some (a, r) =>
              BlockSpaceManager.free_block_table
                { m with cpu_allocator := a, refs := r } rest

/-- `BlockSpaceManager.free(seq)`. -/
def BlockSpaceManager.free (m : BlockSpaceManager) (s : Sequence) :
    Option BlockSpaceManager :=
  match alookup m.block_tables s.seq_id with
  | none => none
  | some bt =>
      match m.free_block_table bt with
      | none => none
      | some m1 => some { m1 with block_tables := aerase m1.block_tables s.seq_id }

/-- The loop of `BlockSpaceManager.reset` over all stored tables. -/
def freeAllTables (m : BlockSpaceManager) :
    List (Nat × List PhysicalTokenBlock) → Option BlockSpaceManager
  | [] => some m
  | (_, bt) :: rest =>
      match m.free_block_table bt with
      | none => none
      | some m1 => freeAllTables m1 rest

/-- `BlockSpaceManager.reset`. -/
def BlockSpaceManager.reset (m : BlockSpaceManager) : Option BlockSpaceManager :=
  match freeAllTables m m.block_tables with
  | none => none
  | some m1 => some { m1 with block_tables := [] }

/-- `BlockSpaceManager.get_block_table(seq)`. -/
def BlockSpaceManager.get_block_table (m : BlockSpaceManager) (s : Sequence) :
    Option (List Nat) :=
  (alookup m.block_tables s.seq_id).map (fun bt => bt.map (fun b => b.block_number))

/-! ### Scheduler (`Scheduler`, scheduler.py) -/

/-- `scheduler.py` line 10: the batched-token budget
(`_MAX_NUM_BATCHED_TOKENS`; the name here drops the leading underscore). -/
def MAX_NUM_BATCHED_TOKENS : Nat := 2048

/-- The scheduler's mutable state.  The frontend is externalized: the
groups `_fetch_inputs` would pull are a parameter of `step`.  The
`sampling_params` map is not read by `step` and is omitted. -/
structure SchedulerState where
  block_manager : BlockSpaceManager
  running : List SequenceGroup
  swapped : List SequenceGroup
  pending : List SequenceGroup
  num_steps : List (Nat × Nat)
deriving DecidableEq, Repr

/-- `dict.update(mapping)`: fold the items into the dict in order. -/
def dictUpdate (d : List (Nat × Nat)) (items : List (Nat × Nat)) : List (Nat × Nat) :=
  items.foldl (fun acc p => aset acc p.1 p.2) d

/-- The status mutation done by `Scheduler._swap_out`: every RUNNING
sibling becomes SWAPPED. -/
def markSwapped (g : SequenceGroup) : SequenceGroup :=
  { g with seqs := g.seqs.map (fun s =>
      if s.status = SequenceStatus.RUNNING then
        { s with status := SequenceStatus.SWAPPED } else s) }

/-- The status mutation done by `Scheduler._swap_in`: every SWAPPED
sibling becomes RUNNING. -/
def markSwappedRunning (g : SequenceGroup) : SequenceGroup :=
  { g with seqs := g.seqs.map (fun s =>
      if s.status = SequenceStatus.SWAPPED then
        { s with status := SequenceStatus.RUNNING } else s) }

/-- The status mutation done by `Scheduler._allocate`: every sibling
becomes RUNNING. -/
def markAllRunning (g : SequenceGroup) : SequenceGroup :=
  { g with seqs := g.seqs.map (fun s => { s with status := SequenceStatus.RUNNING }) }

namespace Scheduler

/-- `Scheduler._append(seq_group, blocks_to_copy)`: reserve one slot per
non-finished sibling, recording copy-on-write pairs with
`blocks_to_copy[src_block] = dst_block`. -/
def appendGroup (bm : BlockSpaceManager) (b2c : List (Nat × Nat)) :
    List Sequence → Option (BlockSpaceManager × List (Nat × Nat))
  | [] => some (bm, b2c)
  | s :: rest =>
      if s.status = SequenceStatus.FINISHED then appendGroup bm b2c rest
      else
        match bm.append s with
        | none => none
        | some (ret, bm1) =>
            match ret with
            | none => appendGroup bm1 b2c rest
            | some (src, dst) => appendGroup bm1 (aset b2c src dst) rest

/-- `Scheduler._swap_out(seq_group, blocks_to_swap_out)`; the leading
`assert can_swap_out` raises (`none`) when it does not hold. -/
def swapOutGroup (st : SchedulerState) (g : SequenceGroup) (b2so : List (Nat × Nat)) :
    Option (SchedulerState × List (Nat × Nat)) :=
  match st.block_manager.can_swap_out g with
  | some true =>
      match st.block_manager.swap_out g with
      | none => none
      | some (mapping, bm1) =>
          some ({ st with
                  block_manager := bm1
                  swapped := st.swapped ++ [markSwapped g] },
                dictUpdate b2so mapping)
  | _ => none

/-- `Scheduler._swap_in(seq_group, blocks_to_swap_in)`. -/
def swapInGroup (st : SchedulerState) (g : SequenceGroup) (b2si : List (Nat × Nat)) :
    Option (SchedulerState × List (Nat × Nat)) :=
  match st.block_manager.swap_in g with
  | none => none
  | some (mapping, bm1) =>
      some ({ st with
              block_manager := bm1
              running := st.running ++ [markSwappedRunning g] },
            dictUpdate b2si mapping)

/-- `Scheduler._allocate(seq_group)`. -/
def allocateGroup (st : SchedulerState) (g : SequenceGroup) : Option SchedulerState :=
  match st.block_manager.allocate g with
  | none => none
  | some bm1 =>
      some { st with
        block_manager := bm1
        running := st.running ++ [markAllRunning g]
        num_steps := aset st.num_steps g.group_id 0 }

/-- The inner `while not can_append` loop of phase 1 of `step`: swap out the
victim at index `n - 1` of the phase's original running list until the
group `g` (at index `i`) can append.  Returns the new cursor and whether
the loop exited normally (`true`, so `g` is appended) or broke because the
cursor crossed `i` (`false`). -/
def reserveInner (running0 : List SequenceGroup) (g : SequenceGroup) (i : Nat) :
    Nat → SchedulerState → List (Nat × Nat) →
    Option (SchedulerState × List (Nat × Nat) × Nat × Bool)
  | n, st, b2so =>
      if st.block_manager.can_append g then some (st, b2so, n, true)
      else
        match n with
        | 0 => none
        | n0 + 1 =>
            match running0[n0]? with
            | none => none
            | some victim =>
                match swapOutGroup st victim b2so with
                | none => none
                | some (st1, b2so1) =>
                    if i ≥ n0 then some (st1, b2so1, n0, false)
                    else reserveInner running0 g i n0 st1 b2so1

/-- The outer walk of phase 1 of `step` over the running groups, from the
front; `n` plays `victim_idx + 1`.  The walk recurses structurally on the
remaining suffix of the original running list (`phase1` starts it on the
whole list with `i = 0`, so the head of the suffix is `running0[i]`,
matching Python's `for i, seq_group in enumerate(self.running)`). -/
def reserveOuter (running0 : List SequenceGroup) :
    List SequenceGroup → Nat → Nat → SchedulerState →
    List (Nat × Nat) → List (Nat × Nat) →
    Option (SchedulerState × List (Nat × Nat) × List (Nat × Nat) × Nat)
  | [], _, n, st, b2so, b2c => some (st, b2so, b2c, n)
  | g :: rest, i, n, st, b2so, b2c =>
      if i ≥ n then some (st, b2so, b2c, n)
      else
        match reserveInner running0 g i n st b2so with
        | none => none
        | some (st1, b2so1, n1, flag) =>
            if flag then
              match appendGroup st1.block_manager b2c g.seqs with
              | none => none
              | some (bm2, b2c2) =>
                  reserveOuter running0 rest (i + 1) n1
                    { st1 with block_manager := bm2 } b2so1 b2c2
            else
              reserveOuter running0 rest (i + 1) n1 st1 b2so1 b2c

/-- Phase 1 of `Scheduler.step`: reserve slots for the running groups with
age-based preemption, then truncate `running` to the survivors. -/
def phase1 (st : SchedulerState) (b2so b2c : List (Nat × Nat)) :
    Option (SchedulerState × List (Nat × Nat) × List (Nat × Nat)) :=
  match reserveOuter st.running st.running 0 st.running.length st b2so b2c with
  | none => none
  | some (st1, b2so1, b2c1, n) =>
      some ({ st1 with running := st1.running.take n }, b2so1, b2c1)

/-- Phase 2 of `Scheduler.step`: walk `swapped` from the tail; swap a group
in and reserve its slot while `can_swap_in` holds; on the first failure
truncate `swapped` and stop, and clear `swapped` when the walk completes. -/
def phase2Loop (swapped0 : List SequenceGroup) :
    List SequenceGroup → Nat → SchedulerState → List (Nat × Nat) → List (Nat × Nat) →
    Option (SchedulerState × List (Nat × Nat) × List (Nat × Nat))
  | [], _, st, b2si, b2c =>
      some ({ st with swapped := [] }, b2si, b2c)
  | g :: rest, i, st, b2si, b2c =>
      match st.block_manager.can_swap_in g with
      | none => none
      | some false =>
          some ({ st with swapped := swapped0.take (swapped0.length - i) }, b2si, b2c)
      | some true =>
          match swapInGroup st g b2si with
          | none => none
          | some (st1, b2si1) =>
              match appendGroup st1.block_manager b2c (markSwappedRunning g).seqs with
              | none => none
              | some (bm2, b2c2) =>
                  phase2Loop swapped0 rest (i + 1)
                    { st1 with block_manager := bm2 } b2si1 b2c2

/-- Phase 2 of `Scheduler.step`. -/
def phase2 (st : SchedulerState) (b2si b2c : List (Nat × Nat)) :
    Option (SchedulerState × List (Nat × Nat) × List (Nat × Nat)) :=
  phase2Loop st.swapped st.swapped.reverse 0 st b2si b2c

/-- The admission loop of phase 3 of `step` over the pending queue (after
`_fetch_inputs`), carrying the running total of batched tokens. -/
def admitLoop : List SequenceGroup → Nat → SchedulerState →
    Option (SchedulerState × Nat)
  | [], nbt, st => some ({ st with pending := [] }, nbt)
  | g :: rest, nbt, st =>
      match g.seqs.head? with
      | none => none
      | some s0 =>
          let npt := s0.get_len
          match st.block_manager.can_allocate g with
          | none => none
          | some ca =>
              if ca = true ∧ nbt + npt ≤ MAX_NUM_BATCHED_TOKENS then
                match allocateGroup st g with
                | none => none
                | some st1 => admitLoop rest (nbt + npt) st1
              else
                some ({ st with pending := g :: rest }, nbt)

/-- Phase 3 of `Scheduler.step`: only when `swapped` is empty, pull the
frontend inputs into `pending` and admit pending groups in FIFO order. -/
def phase3 (st : SchedulerState) (inputs : List SequenceGroup) (nbt : Nat) :
    Option SchedulerState :=
  if st.swapped = [] then
    let st1 : SchedulerState := { st with pending := st.pending ++ inputs }
    match admitLoop st1.pending nbt st1 with
    | none => none
    | some (st2, _) => some st2
  else
    some st

/-- The per-iteration plan handed to `execute_stage` (scheduler.py,
phase 4 and 5 of `step`). -/
structure StepPlan where
  prompt_tokens : List (Nat × List Nat)
  generation_tokens : List (Nat × Nat)
  context_lens : List (Nat × Nat)
  block_tables : List (Nat × List Nat)
  blocks_to_swap_in : List (Nat × Nat)
  blocks_to_swap_out : List (Nat × Nat)
  blocks_to_copy : List (Nat × Nat)
deriving DecidableEq, Repr

/-- The inner loop of phase 4 of `step` over one group's sequences. -/
def emitSeqs (bm : BlockSpaceManager) (is_prompt : Bool)
    (pt : List (Nat × List Nat)) (gt ct : List (Nat × Nat))
    (bts : List (Nat × List Nat)) :
    List Sequence →
    Option (List (Nat × List Nat) × List (Nat × Nat) × List (Nat × Nat) ×
      List (Nat × List Nat))
  | [] => some (pt, gt, ct, bts)
  | s :: rest =>
      if s.status ≠ SequenceStatus.RUNNING then
        emitSeqs bm is_prompt pt gt ct bts rest
      else
        match bm.get_block_table s with
        | none => none
        | some bt =>
            let bts1 := aset bts s.seq_id bt
            if is_prompt then
              emitSeqs bm is_prompt (aset pt s.seq_id s.get_token_ids) gt ct bts1 rest
            else
              match s.get_token_ids.getLast? with
              | none => none
              | some tok =>
                  emitSeqs bm is_prompt pt (aset gt s.seq_id tok)
                    (aset ct s.seq_id s.get_len) bts1 rest

/-- The outer loop of phase 4 of `step` over the running groups. -/
def emitGroups (bm : BlockSpaceManager) (ns : List (Nat × Nat))
    (pt : List (Nat × List Nat)) (gt ct : List (Nat × Nat))
    (bts : List (Nat × List Nat)) :
    List SequenceGroup →
    Option (List (Nat × List Nat) × List (Nat × Nat) × List (Nat × Nat) ×
      List (Nat × List Nat))
  | [] => some (pt, gt, ct, bts)
  | g :: rest =>
      match alookup ns g.group_id with
      | none => none
      | some k =>
          match emitSeqs bm (decide (k = 0)) pt gt ct bts g.seqs with
          | none => none
          | some (pt1, gt1, ct1, bts1) => emitGroups bm ns pt1 gt1 ct1 bts1 rest

/-- `Scheduler.step`, with the frontend's `get_inputs` result passed as
`inputs`.  `none` marks any raised exception, in particular the
`assert not blocks_to_swap_out` guard before plan emission. -/
def step (st : SchedulerState) (inputs : List SequenceGroup) :
    Option (StepPlan × SchedulerState) :=
  match phase1 st [] [] with
  | none => none
  | some (st1, b2so, b2c1) =>
      match phase2 st1 [] b2c1 with
      | none => none
      | some (st2, b2si, b2c2) =>
          let nbt := (st2.running.map
            (fun g => g.num_seqs_with SequenceStatus.RUNNING)).sum
          match phase3 st2 inputs nbt with
          | none => none
          | some st3 =>
              if b2si ≠ [] ∧ b2so ≠ [] then none
              else
                match emitGroups st3.block_manager st3.num_steps [] [] [] [] st3.running with
                | none => none
                | some (pt, gt, ct, bts) =>
                    some ({ prompt_tokens := pt
                            generation_tokens := gt
                            context_lens := ct
                            block_tables := bts
                            blocks_to_swap_in := b2si
                            blocks_to_swap_out := b2so
                            blocks_to_copy := b2c2 }, st3)

end Scheduler

/-! ### Basic lemmas on the state helpers -/

/-- `b`'s cell exists in the ref store. -/
def RefStore.inRange (r : RefStore) (b : PhysicalTokenBlock) : Prop :=
  match b.device with
  | Device.GPU => b.block_number < r.gpu.length
  | Device.CPU => b.block_number < r.cpu.length

instance (r : RefStore) (b : PhysicalTokenBlock) : Decidable (r.inRange b) := by
  unfold RefStore.inRange
  cases b.device <;> exact Nat.decLt _ _

theorem getD_set_general (l : List Nat) (n n' v : Nat) :
    (l.set n v).getD n' 0 = if n' = n ∧ n < l.length then v else l.getD n' 0 := by
  by_cases h : n' = n
  · subst h
    by_cases h2 : n' < l.length
    · simp [List.getD, List.getElem?_set, h2]
    · simp [List.getD, List.getElem?_set, h2,
        List.set_eq_of_length_le (Nat.le_of_not_lt h2)]
  · have hne : n ≠ n' := fun hc => h hc.symm
    simp [List.getD, List.getElem?_set, h, hne]

theorem RefStore.get_set (r : RefStore) (b : PhysicalTokenBlock) (v : Nat)
    (b' : PhysicalTokenBlock) :
    (r.set b v).get b' =
      if b'.device = b.device ∧ b'.block_number = b.block_number ∧ r.inRange b
      then v else r.get b' := by
  cases b with
  | mk d n s =>
    cases b' with
    | mk d' n' s' =>
      cases d <;> cases d' <;>
        simp only [RefStore.set, RefStore.get, RefStore.inRange] <;>
        first
        | (rw [getD_set_general]; simp)
        | simp

theorem RefStore.inRange_set (r : RefStore) (b : PhysicalTokenBlock) (v : Nat)
    (b' : PhysicalTokenBlock) : (r.set b v).inRange b' ↔ r.inRange b' := by
  cases b with
  | mk d n s =>
    cases b' with
    | mk d' n' s' =>
      cases d <;> cases d' <;> simp [RefStore.set, RefStore.inRange]

theorem RefStore.gpu_length_set (r : RefStore) (b : PhysicalTokenBlock) (v : Nat) :
    (r.set b v).gpu.length = r.gpu.length := by
  cases b with
  | mk d n sz => cases d <;> simp [RefStore.set]

theorem RefStore.cpu_length_set (r : RefStore) (b : PhysicalTokenBlock) (v : Nat) :
    (r.set b v).cpu.length = r.cpu.length := by
  cases b with
  | mk d n sz => cases d <;> simp [RefStore.set]

theorem alookup_aset_self {α : Type} (l : List (Nat × α)) (k : Nat) (v : α) :
    alookup (aset l k v) k = some v := by
  induction l with
  | nil => simp [aset, alookup]
  | cons p rest ih =>
      by_cases h : p.1 = k
      · simp [aset, alookup, h]
      · cases p; simp_all [aset, alookup, h]

theorem alookup_aset_ne {α : Type} (l : List (Nat × α)) (k k' : Nat) (v : α)
    (h : k' ≠ k) : alookup (aset l k v) k' = alookup l k' := by
  induction l with
  | nil =>
      have h2 : k ≠ k' := fun hc => h hc.symm
      simp [aset, alookup, h2]
  | cons p rest ih =>
      cases p with
      | mk pk pv =>
        by_cases hk : pk = k
        · subst hk
          have h2 : pk ≠ k' := fun hc => h hc.symm
          simp [aset, alookup, h2]
        · simp only [aset, if_neg hk, alookup, ih]

theorem keys_aset {α : Type} (l : List (Nat × α)) (k : Nat) (v : α) :
    (aset l k v).map Prod.fst =
      if k ∈ l.map Prod.fst then l.map Prod.fst else l.map Prod.fst ++ [k] := by
  induction l with
  | nil => simp [aset]
  | cons p rest ih =>
      cases p with
      | mk pk pv =>
        by_cases hk : pk = k
        · simp [aset, hk]
        · simp only [aset, if_neg hk, List.map_cons, ih]
          by_cases hmem : k ∈ rest.map Prod.fst <;>
            simp [hmem, Ne.symm hk, hk]

theorem keys_aset_nodup {α : Type} (l : List (Nat × α)) (k : Nat) (v : α)
    (h : (l.map Prod.fst).Nodup) : ((aset l k v).map Prod.fst).Nodup := by
  rw [keys_aset]
  split
  · exact h
  · next hmem =>
      rw [List.nodup_append]
      exact ⟨h, List.nodup_singleton k,
        fun a ha hb => hmem ((List.mem_singleton.mp hb) ▸ ha)⟩

theorem alookup_eq_none_iff {α : Type} (l : List (Nat × α)) (k : Nat) :
    alookup l k = none ↔ k ∉ l.map Prod.fst := by
  induction l with
  | nil => simp [alookup]
  | cons p rest ih =>
      cases p with
      | mk pk pv =>
        by_cases hk : pk = k <;> simp [alookup, hk, ih, Ne.symm]

theorem aerase_of_not_mem {α : Type} (l : List (Nat × α)) (k : Nat)
    (h : k ∉ l.map Prod.fst) : aerase l k = l := by
  induction l with
  | nil => rfl
  | cons p rest ih =>
      cases p with
      | mk pk pv =>
        simp only [List.map_cons, List.mem_cons] at h
        push_neg at h
        have hk : pk ≠ k := fun hc => h.1 hc.symm
        simp only [aerase, List.filter_cons]
        rw [if_pos (by simp [hk])]
        have h2 := ih h.2
        simp only [aerase] at h2
        rw [h2]

theorem aerase_aset_fresh {α : Type} (l : List (Nat × α)) (k : Nat) (v : α)
    (h : k ∉ l.map Prod.fst) : aerase (aset l k v) k = l := by
  induction l with
  | nil => simp [aset, aerase]
  | cons p rest ih =>
      cases p with
      | mk pk pv =>
        simp only [List.map_cons, List.mem_cons] at h
        push_neg at h
        have hk : pk ≠ k := fun hc => h.1 hc.symm
        simp only [aset, if_neg hk, aerase, List.filter_cons]
        rw [if_pos (by simp [hk])]
        have h2 := ih h.2
        simp only [aerase] at h2
        rw [h2]

/-- Total occurrence count of a block across all stored block tables. -/
def tableOccs (tabs : List (Nat × List PhysicalTokenBlock))
    (b : PhysicalTokenBlock) : Nat :=
  (tabs.map (fun p => p.2.count b)).sum

theorem tableOccs_nil (b : PhysicalTokenBlock) : tableOccs [] b = 0 := rfl

theorem tableOccs_aset_fresh (tabs : List (Nat × List PhysicalTokenBlock))
    (k : Nat) (v : List PhysicalTokenBlock) (b : PhysicalTokenBlock)
    (h : k ∉ tabs.map Prod.fst) :
    tableOccs (aset tabs k v) b = tableOccs tabs b + v.count b := by
  induction tabs with
  | nil => simp [aset, tableOccs]
  | cons p rest ih =>
      cases p with
      | mk pk pv =>
        simp only [List.map_cons, List.mem_cons] at h
        push_neg at h
        have hk : pk ≠ k := fun hc => h.1 hc.symm
        simp only [aset, if_neg hk, tableOccs, List.map_cons, List.sum_cons] at ih ⊢
        rw [ih h.2]
        omega

theorem tableOccs_aset (tabs : List (Nat × List PhysicalTokenBlock))
    (k : Nat) (v old : List PhysicalTokenBlock) (b : PhysicalTokenBlock)
    (hnd : (tabs.map Prod.fst).Nodup) (hl : alookup tabs k = some old) :
    tableOccs (aset tabs k v) b + old.count b = tableOccs tabs b + v.count b := by
  induction tabs with
  | nil => simp [alookup] at hl
  | cons p rest ih =>
      cases p with
      | mk pk pv =>
        simp only [List.map_cons, List.nodup_cons] at hnd
        by_cases hk : pk = k
        · subst hk
          simp only [alookup, eq_self_iff_true, if_true, Option.some.injEq] at hl
          subst hl
          simp only [aset, eq_self_iff_true, if_true, tableOccs, List.map_cons,
            List.sum_cons]
          omega
        · simp only [alookup, if_neg hk] at hl
          simp only [aset, if_neg hk, tableOccs, List.map_cons, List.sum_cons]
          have := ih hnd.2 hl
          simp only [tableOccs] at this
          omega

theorem tableOccs_aerase (tabs : List (Nat × List PhysicalTokenBlock))
    (k : Nat) (old : List PhysicalTokenBlock) (b : PhysicalTokenBlock)
    (hnd : (tabs.map Prod.fst).Nodup) (hl : alookup tabs k = some old) :
    tableOccs (aerase tabs k) b + old.count b = tableOccs tabs b := by
  induction tabs with
  | nil => simp [alookup] at hl
  | cons p rest ih =>
      cases p with
      | mk pk pv =>
        simp only [List.map_cons, List.nodup_cons] at hnd
        by_cases hk : pk = k
        · subst hk
          simp only [alookup, eq_self_iff_true, if_true, Option.some.injEq] at hl
          subst hl
          have h2 : aerase rest pk = rest := aerase_of_not_mem rest pk hnd.1
          simp only [aerase] at h2 ⊢
          rw [List.filter_cons_of_neg (by simp)]
          rw [h2]
          simp only [tableOccs, List.map_cons, List.sum_cons]
          omega
        · simp only [alookup, if_neg hk] at hl
          have h2 := ih hnd.2 hl
          simp only [aerase] at h2 ⊢
          rw [List.filter_cons_of_pos (by simp [hk])]
          simp only [tableOccs, List.map_cons, List.sum_cons] at h2 ⊢
          omega

theorem RefStore.get_of_not_inRange (r : RefStore) (b : PhysicalTokenBlock)
    (h : ¬ r.inRange b) : r.get b = 0 := by
  cases b with
  | mk d n s =>
      cases d <;>
        simp only [RefStore.get, RefStore.inRange, not_lt] at h ⊢ <;>
        simp [List.getD, List.getElem?_eq_none h]

theorem RefStore.inRange_of_get_ne_zero (r : RefStore) (b : PhysicalTokenBlock)
    (h : r.get b ≠ 0) : r.inRange b := by
  by_contra hc
  exact h (RefStore.get_of_not_inRange r b hc)

/-! ### C7: the tier allocator's error contract -/

/-- C7: `allocate()` fails iff the free list is empty; on success it
removes the last free block, sets its ref_count to 1 and returns it.
`free(block)` fails iff the incoming ref_count is 0 (the state is
untouched, `none`); otherwise it decrements the count and appends the
block back onto the free list exactly when the new count is 0. -/
theorem blockManager_allocate_free_spec (m : BlockManager) (r : RefStore)
    (b : PhysicalTokenBlock) :
    (m.allocate r = none ↔ m.free_blocks = []) ∧
    (∀ bl, m.free_blocks.getLast? = some bl →
      ∃ m1 r1, m.allocate r = some (bl, m1, r1) ∧
        bl ∈ m.free_blocks ∧
        m1.free_blocks ++ [bl] = m.free_blocks ∧
        r1 = r.set bl 1 ∧
        (r.inRange bl → r1.get bl = 1)) ∧
    (m.free r b = none ↔ r.get b = 0) ∧
    (r.get b ≠ 0 →
      ∃ m1 r1, m.free r b = some (m1, r1) ∧
        r1 = r.set b (r.get b - 1) ∧
        (r.get b = 1 → m1.free_blocks = m.free_blocks ++ [b]) ∧
        (r.get b ≠ 1 → m1 = m)) := by
  refine ⟨?_, ?_, ?_, ?_⟩
  · constructor
    · intro h
      cases hbl : m.free_blocks.getLast? with
      | none => exact List.getLast?_eq_none_iff.mp hbl
      | some bl => simp [BlockManager.allocate, hbl] at h
    · intro h
      simp [BlockManager.allocate, h]
  · intro bl hbl
    have hmem : bl ∈ m.free_blocks := by
      rw [← List.dropLast_append_getLast? bl hbl]
      simp
    refine ⟨{ m with free_blocks := m.free_blocks.dropLast }, r.set bl 1,
      ?_, hmem, ?_, rfl, ?_⟩
    · simp [BlockManager.allocate, hbl]
    · exact (List.dropLast_append_getLast? bl hbl)
    · intro hr
      rw [RefStore.get_set]
      simp [hr]
  · constructor
    · intro h
      by_contra hne
      simp only [BlockManager.free, if_neg hne] at h
      split at h <;> simp at h
    · intro h
      simp [BlockManager.free, h]
  · intro h
    simp only [BlockManager.free, if_neg h]
    by_cases h1 : r.get b - 1 = 0
    · refine ⟨{ m with free_blocks := m.free_blocks ++ [b] },
        r.set b (r.get b - 1), ?_, rfl, ?_, ?_⟩
      · simp [h1]
      · intro _; rfl
      · intro h2; omega
    · refine ⟨m, r.set b (r.get b - 1), ?_, rfl, ?_, ?_⟩
      · simp [h1]
      · intro h2; omega
      · intro _; rfl

/-- Witness for C7 at a concrete allocator: a 2-block GPU pool with block 1
having ref_count 2; `free` decrements to 1 without touching the free
list. -/
theorem blockManager_allocate_free_spec_witness :
    ({ gpu := [0, 2], cpu := [] } : RefStore).get ⟨Device.GPU, 1, 8⟩ ≠ 0 ∧
    ∃ m1 r1,
      BlockManager.free ⟨Device.GPU, 8, 2, [⟨Device.GPU, 0, 8⟩]⟩
        { gpu := [0, 2], cpu := [] } ⟨Device.GPU, 1, 8⟩ = some (m1, r1) ∧
      r1 = RefStore.set { gpu := [0, 2], cpu := [] } ⟨Device.GPU, 1, 8⟩ 1 ∧
      m1 = ⟨Device.GPU, 8, 2, [⟨Device.GPU, 0, 8⟩]⟩ := by
  have h := blockManager_allocate_free_spec ⟨Device.GPU, 8, 2, [⟨Device.GPU, 0, 8⟩]⟩
    { gpu := [0, 2], cpu := [] } ⟨Device.GPU, 1, 8⟩
  have hne : ({ gpu := [0, 2], cpu := [] } : RefStore).get ⟨Device.GPU, 1, 8⟩ ≠ 0 := by
    decide
  obtain ⟨m1, r1, hf, hr, _, hm⟩ := h.2.2.2 hne
  exact ⟨hne, m1, r1, hf, by simpa using hr, hm (by decide)⟩

/-! ### C3: the trichotomy of `BlockSpaceManager.append` -/

/-- C3: for a sequence whose table's last physical block is device-resident
(with a well-formed free list), `append` either (1) allocates one new
device block, appends it to the table and returns `None` when the sequence
has more logical blocks than table entries; or (2) leaves the state
unchanged and returns `None` when the last block's ref_count is 1; or
(3) allocates a new device block, replaces the table's tail, decrements
the old block's ref_count and returns `(old_number, new_number)`. -/
theorem append_trichotomy (m : BlockSpaceManager) (s : Sequence)
    (bt : List PhysicalTokenBlock) (last : PhysicalTokenBlock)
    (hbt : alookup m.block_tables s.seq_id = some bt)
    (hlast : bt.getLast? = some last)
    (hdev : last.device = Device.GPU)
    (hfree : m.gpu_allocator.free_blocks ≠ [])
    (hfree0 : ∀ fb ∈ m.gpu_allocator.free_blocks, m.refs.get fb = 0)
    (href : m.refs.get last ≠ 0) :
    (bt.length < s.logical_token_blocks.length →
      ∃ b m1, m.append s = some (none, m1) ∧
        m.gpu_allocator.free_blocks.getLast? = some b ∧
        alookup m1.block_tables s.seq_id = some (bt ++ [b]) ∧
        m1.gpu_allocator.get_num_free_blocks + 1 =
          m.gpu_allocator.get_num_free_blocks) ∧
    (¬ bt.length < s.logical_token_blocks.length → m.refs.get last = 1 →
      m.append s = some (none, m)) ∧
    (¬ bt.length < s.logical_token_blocks.length → m.refs.get last ≠ 1 →
      ∃ nb m1,
        m.append s = some (some (last.block_number, nb.block_number), m1) ∧
        m.gpu_allocator.free_blocks.getLast? = some nb ∧
        alookup m1.block_tables s.seq_id = some (bt.dropLast ++ [nb]) ∧
        m1.refs.get last + 1 = m.refs.get last ∧
        m1.gpu_allocator.get_num_free_blocks + 1 =
          m.gpu_allocator.get_num_free_blocks) := by
  obtain ⟨b0, hb0⟩ : ∃ b0, m.gpu_allocator.free_blocks.getLast? = some b0 := by
    cases hgl : m.gpu_allocator.free_blocks.getLast? with
    | none => exact absurd (List.getLast?_eq_none_iff.mp hgl) hfree
    | some x => exact ⟨x, rfl⟩
  have hb0mem : b0 ∈ m.gpu_allocator.free_blocks := by
    rw [← List.dropLast_append_getLast? b0 hb0]; simp
  refine ⟨?_, ?_, ?_⟩
  · intro hlt
    refine ⟨b0,
      { m with
        gpu_allocator := { m.gpu_allocator with
          free_blocks := m.gpu_allocator.free_blocks.dropLast }
        refs := m.refs.set b0 1
        block_tables := aset m.block_tables s.seq_id (bt ++ [b0]) },
      ?_, hb0, ?_, ?_⟩
    · simp only [BlockSpaceManager.append, hbt, if_pos hlt,
        BlockManager.allocate, hb0]
    · simp only [BlockSpaceManager.append, hbt, if_pos hlt,
        BlockManager.allocate, hb0]
      exact alookup_aset_self _ _ _
    · simp only [BlockSpaceManager.append, hbt, if_pos hlt,
        BlockManager.allocate, hb0, BlockManager.get_num_free_blocks]
      have := List.length_dropLast m.gpu_allocator.free_blocks
      have hlen : m.gpu_allocator.free_blocks.length ≠ 0 :=
        fun hc => hfree (List.length_eq_zero.mp hc)
      omega
  · intro hge h1
    simp only [BlockSpaceManager.append, hbt, if_neg hge, hlast,
      if_neg (by simp [hdev] : ¬ last.device ≠ Device.GPU), if_pos h1]
  · intro hge h1
    have hcell : ¬ (last.device = b0.device ∧
        last.block_number = b0.block_number ∧ m.refs.inRange b0) := by
      intro hc
      have hgb0 : m.refs.get b0 = 0 := hfree0 b0 hb0mem
      have : m.refs.get last = m.refs.get b0 := by
        cases last with
        | mk d n sz =>
          cases b0 with
          | mk d' n' sz' =>
            simp only at hc
            simp [RefStore.get, hc.1, hc.2.1]
      exact href (this.trans hgb0)
    have hget1 : (m.refs.set b0 1).get last = m.refs.get last := by
      rw [RefStore.get_set, if_neg hcell]
    have hinr : m.refs.inRange last := RefStore.inRange_of_get_ne_zero _ _ href
    have hinr1 : (m.refs.set b0 1).inRange last :=
      (RefStore.inRange_set _ _ _ _).mpr hinr
    have hfr : ({ m.gpu_allocator with
        free_blocks := m.gpu_allocator.free_blocks.dropLast } : BlockManager).free
          (m.refs.set b0 1) last =
        some ({ m.gpu_allocator with
          free_blocks := m.gpu_allocator.free_blocks.dropLast },
          (m.refs.set b0 1).set last ((m.refs.set b0 1).get last - 1)) := by
      rw [BlockManager.free]
      rw [if_neg (by rw [hget1]; exact href)]
      rw [if_neg (by rw [hget1]; omega)]
    refine ⟨b0,
      { m with
        gpu_allocator := { m.gpu_allocator with
          free_blocks := m.gpu_allocator.free_blocks.dropLast }
        refs := (m.refs.set b0 1).set last ((m.refs.set b0 1).get last - 1)
        block_tables := aset m.block_tables s.seq_id (bt.dropLast ++ [b0]) },
      ?_, hb0, ?_, ?_, ?_⟩
    · simp only [BlockSpaceManager.append, hbt, if_neg hge, hlast,
        if_neg (by simp [hdev] : ¬ last.device ≠ Device.GPU), if_neg h1,
        BlockManager.allocate, hb0, hfr]
    · simp only [BlockSpaceManager.append, hbt, if_neg hge, hlast,
        if_neg (by simp [hdev] : ¬ last.device ≠ Device.GPU), if_neg h1,
        BlockManager.allocate, hb0, hfr]
      exact alookup_aset_self _ _ _
    · simp only [BlockSpaceManager.append, hbt, if_neg hge, hlast,
        if_neg (by simp [hdev] : ¬ last.device ≠ Device.GPU), if_neg h1,
        BlockManager.allocate, hb0, hfr]
      rw [RefStore.get_set,
        if_pos ⟨rfl, rfl, ((RefStore.inRange_set _ _ _ _).mpr hinr)⟩, hget1]
      omega
    · simp only [BlockSpaceManager.append, hbt, if_neg hge, hlast,
        if_neg (by simp [hdev] : ¬ last.device ≠ Device.GPU), if_neg h1,
        BlockManager.allocate, hb0, hfr, BlockManager.get_num_free_blocks]
      have := List.length_dropLast m.gpu_allocator.free_blocks
      have hlen : m.gpu_allocator.free_blocks.length ≠ 0 :=
        fun hc => hfree (List.length_eq_zero.mp hc)
      omega

/-- Witness for C3: a manager with one free GPU block and a table whose
last (and only) block is shared (ref_count 2); `append` takes the
copy-on-write branch and returns the pair of block numbers. -/
theorem append_trichotomy_witness :
    (({ gpu := [0, 2], cpu := [] } : RefStore).get ⟨Device.GPU, 1, 8⟩ ≠ 1) ∧
    ∃ (nb : PhysicalTokenBlock) (m1 : BlockSpaceManager),
      BlockSpaceManager.append
        { block_size := 8, num_total_gpu_blocks := 2, num_total_cpu_blocks := 0,
          gpu_allocator := ⟨Device.GPU, 8, 2, [⟨Device.GPU, 0, 8⟩]⟩,
          cpu_allocator := ⟨Device.CPU, 8, 0, []⟩,
          refs := { gpu := [0, 2], cpu := [] },
          block_tables := [(1, [⟨Device.GPU, 1, 8⟩])] }
        ⟨1, 8, [⟨0, 8, [5]⟩], SequenceStatus.RUNNING⟩ =
        some (some (1, nb.block_number), m1) := by
  refine ⟨by decide, ?_⟩
  obtain ⟨nb, m1, h, -⟩ :=
    (append_trichotomy
      { block_size := 8, num_total_gpu_blocks := 2, num_total_cpu_blocks := 0,
        gpu_allocator := ⟨Device.GPU, 8, 2, [⟨Device.GPU, 0, 8⟩]⟩,
        cpu_allocator := ⟨Device.CPU, 8, 0, []⟩,
        refs := { gpu := [0, 2], cpu := [] },
        block_tables := [(1, [⟨Device.GPU, 1, 8⟩])] }
      ⟨1, 8, [⟨0, 8, [5]⟩], SequenceStatus.RUNNING⟩
      [⟨Device.GPU, 1, 8⟩] ⟨Device.GPU, 1, 8⟩
      (by decide) (by decide) (by decide) (by decide)
      (by decide) (by decide)).2.2 (by decide) (by decide)
  exact ⟨nb, m1, h⟩

/-! ### C4: `BlockSpaceManager.allocate` over a group -/

/-- Two block values denote the same ref-count cell (same Python object
identity for pool blocks). -/
def sameCell (b b' : PhysicalTokenBlock) : Prop :=
  b.device = b'.device ∧ b.block_number = b'.block_number

instance (b b' : PhysicalTokenBlock) : Decidable (sameCell b b') := by
  unfold sameCell
  exact instDecidableAnd

theorem RefStore.get_congr (r : RefStore) (b b' : PhysicalTokenBlock)
    (h : sameCell b b') : r.get b = r.get b' := by
  cases b with
  | mk d n s =>
    cases b' with
    | mk d' n' s' =>
      obtain ⟨h1, h2⟩ := h
      simp only at h1 h2
      subst h1; subst h2; rfl

theorem RefStore.inRange_congr (r : RefStore) (b b' : PhysicalTokenBlock)
    (h : sameCell b b') : r.inRange b ↔ r.inRange b' := by
  cases b with
  | mk d n s =>
    cases b' with
    | mk d' n' s' =>
      obtain ⟨h1, h2⟩ := h
      simp only at h1 h2
      subst h1; subst h2
      exact Iff.rfl

theorem allocLoop_spec (k : Nat) : ∀ (ns : Nat) (a : BlockManager) (r : RefStore),
    k ≤ a.free_blocks.length →
    ∃ t r2, allocLoop k ns a r =
        some (t,
          { a with free_blocks := a.free_blocks.take (a.free_blocks.length - k) },
          r2) ∧
      t = (a.free_blocks.drop (a.free_blocks.length - k)).reverse ∧
      (∀ b', (∀ bt ∈ t, ¬ sameCell bt b') → r2.get b' = r.get b') ∧
      (∀ bt ∈ t, r.inRange bt → r2.get bt = ns) ∧
      r2.gpu.length = r.gpu.length ∧
      r2.cpu.length = r.cpu.length := by
  induction k with
  | zero =>
      intro ns a r _
      refine ⟨[], r, ?_, by simp, fun b' _ => rfl, by simp, rfl, rfl⟩
      simp [allocLoop, List.take_length]
  | succ k ih =>
      intro ns a r hk
      have hne : a.free_blocks ≠ [] := by
        intro hc; rw [hc] at hk; simp at hk
      obtain ⟨b0, hb0⟩ : ∃ b0, a.free_blocks.getLast? = some b0 := by
        cases hgl : a.free_blocks.getLast? with
        | none => exact absurd (List.getLast?_eq_none_iff.mp hgl) hne
        | some x => exact ⟨x, rfl⟩
      have hsplit : a.free_blocks.dropLast ++ [b0] = a.free_blocks :=
        List.dropLast_append_getLast? b0 hb0
      have hlen : a.free_blocks.dropLast.length + 1 = a.free_blocks.length := by
        have := List.length_dropLast a.free_blocks
        have : a.free_blocks.length ≠ 0 :=
          fun hc => hne (List.length_eq_zero.mp hc)
        omega
      have hk1 : k ≤ a.free_blocks.dropLast.length := by omega
      obtain ⟨t', r2, hrec, ht', hout, hin, hlg2, hlc2⟩ :=
        ih ns { a with free_blocks := a.free_blocks.dropLast }
          ((r.set b0 1).set b0 ns) hk1
      have hrange_pres : ∀ b, ((r.set b0 1).set b0 ns).inRange b ↔ r.inRange b := by
        intro b
        rw [RefStore.inRange_set, RefStore.inRange_set]
      refine ⟨b0 :: t', r2, ?_, ?_, ?_, ?_, ?_, ?_⟩
      · simp only [allocLoop, BlockManager.allocate, hb0]
        rw [hrec]
        have htake : a.free_blocks.dropLast.take
            (a.free_blocks.dropLast.length - k) =
            a.free_blocks.take (a.free_blocks.length - (k + 1)) := by
          conv_rhs => rw [← hsplit]
          rw [List.take_append_of_le_length
            (by simp only [List.length_append, List.length_cons,
              List.length_nil]; omega)]
          congr 1
          simp only [List.length_append, List.length_cons, List.length_nil]
          omega
        rw [htake]
      · rw [ht']
        have hdrop : a.free_blocks.drop (a.free_blocks.length - (k + 1)) =
            a.free_blocks.dropLast.drop (a.free_blocks.dropLast.length - k)
              ++ [b0] := by
          conv_lhs => rw [← hsplit]
          rw [List.drop_append_of_le_length
            (by simp only [List.length_append, List.length_cons,
              List.length_nil]; omega)]
          congr 2
          simp only [List.length_append, List.length_cons, List.length_nil]
          omega
        rw [hdrop, List.reverse_append]
        simp
      · intro b' hb'
        have hnc : ¬ sameCell b0 b' := hb' b0 (List.mem_cons_self _ _)
        rw [hout b' (fun bt hbt => hb' bt (List.mem_cons_of_mem _ hbt))]
        rw [RefStore.get_set, RefStore.get_set]
        rw [if_neg, if_neg]
        · intro hc; exact hnc ⟨hc.1.symm, hc.2.1.symm⟩
        · intro hc
          exact hnc ⟨hc.1.symm, hc.2.1.symm⟩
      · intro bt hbt hr
        rcases List.mem_cons.mp hbt with hbt0 | hbt'
        · subst hbt0
          by_cases hcell : ∃ bt' ∈ t', sameCell bt' bt
          · obtain ⟨bt', hmem', hsc⟩ := hcell
            have := hin bt' hmem' (by
              rw [hrange_pres]
              rw [RefStore.inRange_congr r bt' bt hsc]
              exact hr)
            rw [← RefStore.get_congr r2 bt' bt hsc]
            exact this
          · push_neg at hcell
            rw [hout bt hcell]
            rw [RefStore.get_set]
            rw [if_pos ⟨rfl, rfl, (RefStore.inRange_set _ _ _ _).mpr hr⟩]
        · exact hin bt hbt' ((hrange_pres bt).mpr hr)
      · rw [hlg2, RefStore.gpu_length_set, RefStore.gpu_length_set]
      · rw [hlc2, RefStore.cpu_length_set, RefStore.cpu_length_set]

theorem alookup_foldl_aset (seqs : List Sequence)
    (tabs : List (Nat × List PhysicalTokenBlock))
    (t : List PhysicalTokenBlock) (sid : Nat) :
    alookup (seqs.foldl (fun tabs s => aset tabs s.seq_id t) tabs) sid =
      if sid ∈ seqs.map Sequence.seq_id then some t else alookup tabs sid := by
  induction seqs generalizing tabs with
  | nil => simp
  | cons s rest ih =>
      simp only [List.foldl_cons, ih, List.map_cons, List.mem_cons]
      by_cases hrest : sid ∈ rest.map Sequence.seq_id
      · simp [hrest]
      · by_cases h : sid = s.seq_id
        · simp [hrest, h, alookup_aset_self]
        · simp [hrest, h, alookup_aset_ne tabs s.seq_id sid t h]

/-- C4: for a group sharing one prompt, `allocate` allocates exactly one
distinct device block per prompt logical block, sets each block's
ref_count to the number of siblings, and installs the same table (same
blocks, same order) for every sibling. -/
theorem allocate_group_spec (m : BlockSpaceManager) (g : SequenceGroup)
    (s0 : Sequence)
    (hhead : g.seqs.head? = some s0)
    (hk : s0.logical_token_blocks.length ≤ m.gpu_allocator.get_num_free_blocks)
    (hnd : m.gpu_allocator.free_blocks.Nodup)
    (hdev : ∀ fb ∈ m.gpu_allocator.free_blocks, fb.device = Device.GPU)
    (hrange : ∀ fb ∈ m.gpu_allocator.free_blocks, m.refs.inRange fb) :
    ∃ t m1, m.allocate g = some m1 ∧
      t.length = s0.logical_token_blocks.length ∧
      t.Nodup ∧
      (∀ b ∈ t, b.device = Device.GPU) ∧
      (∀ s ∈ g.seqs, alookup m1.block_tables s.seq_id = some t) ∧
      (∀ b ∈ t, m1.refs.get b = g.num_seqs) ∧
      m1.gpu_allocator.get_num_free_blocks + s0.logical_token_blocks.length =
        m.gpu_allocator.get_num_free_blocks := by
  obtain ⟨t, r2, hrec, ht, _, hin, _, _⟩ :=
    allocLoop_spec s0.logical_token_blocks.length g.num_seqs
      m.gpu_allocator m.refs hk
  have hsub : ∀ b ∈ t, b ∈ m.gpu_allocator.free_blocks := by
    intro b hb
    rw [ht] at hb
    rw [List.mem_reverse] at hb
    exact List.mem_of_mem_drop hb
  refine ⟨t,
    { m with
      gpu_allocator := { m.gpu_allocator with
        free_blocks := m.gpu_allocator.free_blocks.take
          (m.gpu_allocator.free_blocks.length - s0.logical_token_blocks.length) }
      refs := r2
      block_tables := g.seqs.foldl (fun tabs s => aset tabs s.seq_id t)
        m.block_tables },
    ?_, ?_, ?_, ?_, ?_, ?_, ?_⟩
  · simp only [BlockSpaceManager.allocate, hhead, hrec]
  · rw [ht]
    simp only [List.length_reverse, List.length_drop]
    simp only [BlockManager.get_num_free_blocks] at hk
    omega
  · rw [ht]
    exact List.nodup_reverse.mpr (List.Sublist.nodup (List.drop_sublist _ _) hnd)
  · intro b hb
    exact hdev b (hsub b hb)
  · intro s hs
    simp only [alookup_foldl_aset]
    rw [if_pos (List.mem_map.mpr ⟨s, hs, rfl⟩)]
  · intro b hb
    exact hin b hb (hrange b (hsub b hb))
  · simp only [BlockManager.get_num_free_blocks, List.length_take] at hk ⊢
    omega

/-- Witness for C4: a fresh 2-block manager and a 2-sibling group with a
one-block prompt. -/
theorem allocate_group_spec_witness :
    (1 ≤ (BlockSpaceManager.init 8 2 2).gpu_allocator.get_num_free_blocks) ∧
    ∃ (t : List PhysicalTokenBlock) (m1 : BlockSpaceManager),
      (BlockSpaceManager.init 8 2 2).allocate
        ⟨0, [⟨1, 8, [⟨0, 8, [1, 2]⟩], SequenceStatus.PENDING⟩,
             ⟨2, 8, [⟨0, 8, [1, 2]⟩], SequenceStatus.PENDING⟩]⟩ = some m1 ∧
      t.length = 1 ∧
      (∀ b ∈ t, m1.refs.get b =
        (⟨0, [⟨1, 8, [⟨0, 8, [1, 2]⟩], SequenceStatus.PENDING⟩,
              ⟨2, 8, [⟨0, 8, [1, 2]⟩], SequenceStatus.PENDING⟩]⟩ :
          SequenceGroup).num_seqs) := by
  refine ⟨by decide, ?_⟩
  obtain ⟨t, m1, halloc, hlen, _, _, _, href, _⟩ :=
    allocate_group_spec (BlockSpaceManager.init 8 2 2)
      ⟨0, [⟨1, 8, [⟨0, 8, [1, 2]⟩], SequenceStatus.PENDING⟩,
           ⟨2, 8, [⟨0, 8, [1, 2]⟩], SequenceStatus.PENDING⟩]⟩
      ⟨1, 8, [⟨0, 8, [1, 2]⟩], SequenceStatus.PENDING⟩
      (by decide) (by decide) (by decide) (by decide) (by decide)
  exact ⟨t, m1, halloc, hlen, href⟩

/-! ### C6: `fork` and the `fork` + `free(child)` round trip -/

theorem set_getD_self (l : List Nat) (n : Nat) : l.set n (l.getD n 0) = l := by
  by_cases h : n < l.length
  · rw [List.getD_eq_getElem l 0 h]
    apply List.ext_getElem
    · simp
    · intro i h1 h2
      rw [List.getElem_set]
      split
      · next he => subst he; rfl
      · rfl
  · exact List.set_eq_of_length_le (Nat.le_of_not_lt h)

theorem RefStore.set_get_self (r : RefStore) (b : PhysicalTokenBlock) :
    r.set b (r.get b) = r := by
  cases b with
  | mk d n s =>
      cases d <;>
        simp only [RefStore.set, RefStore.get, set_getD_self]

theorem RefStore.set_set_same (r : RefStore) (b : PhysicalTokenBlock) (v w : Nat) :
    (r.set b v).set b w = r.set b w := by
  cases b with
  | mk d n s =>
      cases d <;> simp only [RefStore.set, List.set_set]

theorem RefStore.set_comm (r : RefStore) (b b' : PhysicalTokenBlock) (v w : Nat)
    (h : ¬ sameCell b b') : (r.set b v).set b' w = (r.set b' w).set b v := by
  cases b with
  | mk d n s =>
    cases b' with
    | mk d' n' s' =>
      cases d <;> cases d' <;>
        simp only [RefStore.set]
      · have hnn : n ≠ n' := fun hc => h ⟨rfl, hc⟩
        rw [List.set_comm _ _ _ hnn]
      · have hnn : n ≠ n' := fun hc => h ⟨rfl, hc⟩
        rw [List.set_comm _ _ _ hnn]

theorem sameCell_symm {b b' : PhysicalTokenBlock}
    (h : sameCell b b') : sameCell b' b :=
  ⟨h.1.symm, h.2.symm⟩

/-- Folding the ref-count increments of `fork` commutes with a `set` on a
cell disjoint from the list. -/
theorem foldl_incr_set_comm (src : List PhysicalTokenBlock) :
    ∀ (r : RefStore) (b : PhysicalTokenBlock) (v : Nat),
    (∀ x ∈ src, ¬ sameCell x b) →
    src.foldl (fun r x => r.set x (r.get x + 1)) (r.set b v) =
      (src.foldl (fun r x => r.set x (r.get x + 1)) r).set b v := by
  induction src with
  | nil => intro r b v _; rfl
  | cons x rest ih =>
      intro r b v hdisj
      have hx : ¬ sameCell x b := hdisj x (List.mem_cons_self _ _)
      simp only [List.foldl_cons]
      have hget : (r.set b v).get x = r.get x := by
        rw [RefStore.get_set, if_neg]
        intro hc
        exact hx ⟨hc.1, hc.2.1⟩
      rw [hget, RefStore.set_comm _ _ _ _ _ (fun hc => hx (sameCell_symm hc))]
      exact ih (r.set x (r.get x + 1)) b v
        (fun y hy => hdisj y (List.mem_cons_of_mem _ hy))

/-- Folding the ref-count increments over cells disjoint from `b` leaves
`b`'s count unchanged. -/
theorem foldl_incr_get_disjoint (src : List PhysicalTokenBlock) :
    ∀ (r : RefStore) (b : PhysicalTokenBlock),
    (∀ x ∈ src, ¬ sameCell x b) →
    (src.foldl (fun r x => r.set x (r.get x + 1)) r).get b = r.get b := by
  induction src with
  | nil => intro r b _; rfl
  | cons x rest ih =>
      intro r b hdisj
      have hx : ¬ sameCell x b := hdisj x (List.mem_cons_self _ _)
      simp only [List.foldl_cons]
      rw [ih _ b (fun y hy => hdisj y (List.mem_cons_of_mem _ hy))]
      rw [RefStore.get_set, if_neg]
      intro hc
      exact hx ⟨hc.1.symm, hc.2.1.symm⟩

/-- The `fork` increments do not change which cells are in range. -/
theorem foldl_incr_inRange (src : List PhysicalTokenBlock) :
    ∀ (r : RefStore) (b : PhysicalTokenBlock),
    (src.foldl (fun r x => r.set x (r.get x + 1)) r).inRange b ↔ r.inRange b := by
  induction src with
  | nil => intro r b; exact Iff.rfl
  | cons x rest ih =>
      intro r b
      simp only [List.foldl_cons]
      rw [ih]
      exact RefStore.inRange_set r x (r.get x + 1) b

/-- Freeing each block of a table undoes the matching `fork` increments:
no count reaches 0, so neither allocator is touched. -/
theorem free_block_table_undoes_incr (src : List PhysicalTokenBlock) :
    ∀ (m0 : BlockSpaceManager),
    src.Pairwise (fun a b => ¬ sameCell a b) →
    (∀ b ∈ src, m0.refs.get b ≠ 0) →
    (∀ b ∈ src, m0.refs.inRange b) →
    BlockSpaceManager.free_block_table
      { m0 with refs := src.foldl (fun r x => r.set x (r.get x + 1)) m0.refs }
      src = some m0 := by
  induction src with
  | nil =>
      intro m0 _ _ _
      rfl
  | cons b rest ih =>
      intro m0 hpw hpos hrange
      have hdisj : ∀ x ∈ rest, ¬ sameCell x b := by
        intro x hx hc
        exact (List.pairwise_cons.mp hpw).1 x hx (sameCell_symm hc)
      have hpw' : rest.Pairwise (fun a b => ¬ sameCell a b) :=
        (List.pairwise_cons.mp hpw).2
      have hposb : m0.refs.get b ≠ 0 := hpos b (List.mem_cons_self _ _)
      have hrb : m0.refs.inRange b := hrange b (List.mem_cons_self _ _)
      have hfold : (b :: rest).foldl (fun r x => r.set x (r.get x + 1)) m0.refs =
          (rest.foldl (fun r x => r.set x (r.get x + 1)) m0.refs).set b
            (m0.refs.get b + 1) := by
        simp only [List.foldl_cons]
        exact foldl_incr_set_comm rest m0.refs b (m0.refs.get b + 1) hdisj
      set r2 := rest.foldl (fun r x => r.set x (r.get x + 1)) m0.refs with hr2
      have hr2get : r2.get b = m0.refs.get b :=
        foldl_incr_get_disjoint rest m0.refs b hdisj
      have hr2range : r2.inRange b := by
        rw [hr2, foldl_incr_inRange]
        exact hrb
      have hgetF : (r2.set b (m0.refs.get b + 1)).get b = m0.refs.get b + 1 := by
        rw [RefStore.get_set,
          if_pos ⟨rfl, rfl, (foldl_incr_inRange rest m0.refs b).mpr hrb⟩]
      have hback : (r2.set b (m0.refs.get b + 1)).set b (m0.refs.get b) = r2 := by
        rw [RefStore.set_set_same, ← hr2get, RefStore.set_get_self]
      have hfree : ∀ a : BlockManager,
          a.free (r2.set b (m0.refs.get b + 1)) b = some (a, r2) := by
        intro a
        simp only [BlockManager.free, hgetF, Nat.add_sub_cancel]
        rw [if_neg (by omega), if_neg hposb, hback]
      have hrec := ih m0 hpw'
        (fun x hx => hpos x (List.mem_cons_of_mem _ hx))
        (fun x hx => hrange x (List.mem_cons_of_mem _ hx))
      cases hbd : b.device with
      | GPU =>
          simp only [BlockSpaceManager.free_block_table, hfold, hbd, hfree]
          exact hrec
      | CPU =>
          simp only [BlockSpaceManager.free_block_table, hfold, hbd, hfree]
          exact hrec

/-- The `fork` increments add exactly one to each listed cell. -/
theorem foldl_incr_get_mem (src : List PhysicalTokenBlock) :
    ∀ (r : RefStore) (b : PhysicalTokenBlock),
    src.Pairwise (fun a b => ¬ sameCell a b) → b ∈ src → r.inRange b →
    (src.foldl (fun r x => r.set x (r.get x + 1)) r).get b = r.get b + 1 := by
  induction src with
  | nil => intro r b _ hb _; simp at hb
  | cons x rest ih =>
      intro r b hpw hb hr
      have hhead := (List.pairwise_cons.mp hpw).1
      have htail := (List.pairwise_cons.mp hpw).2
      simp only [List.foldl_cons]
      rcases List.mem_cons.mp hb with hbx | hbr
      · subst hbx
        rw [foldl_incr_get_disjoint rest _ b
          (fun y hy hc => hhead y hy (sameCell_symm hc))]
        rw [RefStore.get_set, if_pos ⟨rfl, rfl, hr⟩]
      · have hxb : ¬ sameCell x b := hhead b hbr
        have hget : (r.set x (r.get x + 1)).get b = r.get b := by
          rw [RefStore.get_set, if_neg]
          intro hc
          exact hxb ⟨hc.1.symm, hc.2.1.symm⟩
        rw [ih _ b htail hbr ((RefStore.inRange_set r x (r.get x + 1) b).mpr hr),
          hget]

/-- C6: `fork(parent, child)` allocates nothing and cannot raise
OutOfMemory; it installs the parent's table for the child and adds one to
the ref_count of every block of that table; and `fork` immediately
followed by `free(child)` restores the manager exactly (in particular
every ref_count and both free lists). -/
theorem fork_then_free_child (m : BlockSpaceManager) (parent child : Sequence)
    (src : List PhysicalTokenBlock)
    (hsrc : alookup m.block_tables parent.seq_id = some src)
    (hpw : src.Pairwise (fun a b => ¬ sameCell a b))
    (hfresh : child.seq_id ∉ m.block_tables.map Prod.fst)
    (hrange : ∀ b ∈ src, m.refs.inRange b)
    (hpos : ∀ b ∈ src, m.refs.get b ≠ 0) :
    ∃ m1, m.fork parent child = some m1 ∧
      alookup m1.block_tables child.seq_id = some src ∧
      (∀ b ∈ src, m1.refs.get b = m.refs.get b + 1) ∧
      m1.gpu_allocator = m.gpu_allocator ∧
      m1.cpu_allocator = m.cpu_allocator ∧
      m1.free child = some m := by
  refine ⟨{ m with
      block_tables := aset m.block_tables child.seq_id src
      refs := src.foldl (fun r x => r.set x (r.get x + 1)) m.refs },
    ?_, ?_, ?_, rfl, rfl, ?_⟩
  · simp only [BlockSpaceManager.fork, hsrc]
  · exact alookup_aset_self _ _ _
  · intro b hb
    exact foldl_incr_get_mem src m.refs b hpw hb (hrange b hb)
  · have hmain := free_block_table_undoes_incr src
      { m with block_tables := aset m.block_tables child.seq_id src }
      hpw hpos hrange
    simp only [BlockSpaceManager.free, alookup_aset_self]
    rw [hmain]
    simp only [aerase_aset_fresh m.block_tables child.seq_id src hfresh]

/-- Witness for C6: one parent with a single one-block table, a fresh
child; `fork` then `free(child)` restores the original manager. -/
theorem fork_then_free_child_witness :
    ∃ m1,
      BlockSpaceManager.fork
        { block_size := 8, num_total_gpu_blocks := 1, num_total_cpu_blocks := 0,
          gpu_allocator := ⟨Device.GPU, 8, 1, []⟩,
          cpu_allocator := ⟨Device.CPU, 8, 0, []⟩,
          refs := { gpu := [1], cpu := [] },
          block_tables := [(1, [⟨Device.GPU, 0, 8⟩])] }
        ⟨1, 8, [⟨0, 8, [5]⟩], SequenceStatus.RUNNING⟩
        ⟨2, 8, [⟨0, 8, [5]⟩], SequenceStatus.RUNNING⟩ = some m1 ∧
      m1.free ⟨2, 8, [⟨0, 8, [5]⟩], SequenceStatus.RUNNING⟩ =
        some { block_size := 8, num_total_gpu_blocks := 1,
               num_total_cpu_blocks := 0,
               gpu_allocator := ⟨Device.GPU, 8, 1, []⟩,
               cpu_allocator := ⟨Device.CPU, 8, 0, []⟩,
               refs := { gpu := [1], cpu := [] },
               block_tables := [(1, [⟨Device.GPU, 0, 8⟩])] } := by
  obtain ⟨m1, hfork, _, _, _, _, hfree⟩ :=
    fork_then_free_child
      { block_size := 8, num_total_gpu_blocks := 1, num_total_cpu_blocks := 0,
        gpu_allocator := ⟨Device.GPU, 8, 1, []⟩,
        cpu_allocator := ⟨Device.CPU, 8, 0, []⟩,
        refs := { gpu := [1], cpu := [] },
        block_tables := [(1, [⟨Device.GPU, 0, 8⟩])] }
      ⟨1, 8, [⟨0, 8, [5]⟩], SequenceStatus.RUNNING⟩
      ⟨2, 8, [⟨0, 8, [5]⟩], SequenceStatus.RUNNING⟩
      [⟨Device.GPU, 0, 8⟩]
      (by decide) (by decide) (by decide) (by decide) (by decide)
  exact ⟨m1, hfork, hfree⟩

/-! ### C2: the global ref-count / free-list invariant -/

/-- `b` is a block of `m`'s GPU pool. -/
def PoolG (m : BlockSpaceManager) (b : PhysicalTokenBlock) : Prop :=
  b.device = Device.GPU ∧ b.block_number < m.gpu_allocator.num_blocks ∧
    b.block_size = m.block_size

/-- `b` is a block of `m`'s CPU pool. -/
def PoolC (m : BlockSpaceManager) (b : PhysicalTokenBlock) : Prop :=
  b.device = Device.CPU ∧ b.block_number < m.cpu_allocator.num_blocks ∧
    b.block_size = m.block_size

/-- `b` is a block of one of `m`'s pools. -/
def PoolBlock (m : BlockSpaceManager) (b : PhysicalTokenBlock) : Prop :=
  PoolG m b ∨ PoolC m b

/-- `b` sits on the free list of its own tier's allocator. -/
def onFreeList (m : BlockSpaceManager) (b : PhysicalTokenBlock) : Prop :=
  match b.device with
  | Device.GPU => b ∈ m.gpu_allocator.free_blocks
  | Device.CPU => b ∈ m.cpu_allocator.free_blocks

/-- Pool blocks with the same cell are equal. -/
theorem poolBlock_cell_eq {m : BlockSpaceManager} {b b' : PhysicalTokenBlock}
    (hb : PoolBlock m b) (hb' : PoolBlock m b') (hc : sameCell b b') : b = b' := by
  cases b with
  | mk d n s =>
    cases b' with
    | mk d' n' s' =>
      obtain ⟨h1, h2⟩ := hc
      simp only at h1 h2
      subst h1; subst h2
      rcases hb with ⟨_, _, h3⟩ | ⟨_, _, h3⟩ <;>
        rcases hb' with ⟨_, _, h4⟩ | ⟨_, _, h4⟩ <;>
        simp only at h3 h4 <;>
        rw [show s = s' from h3.trans h4.symm]

/-- The state invariant of the block-space manager (spec §8, items 1-2,
plus the structural facts they presuppose). -/
structure Valid (m : BlockSpaceManager) : Prop where
  gpuRefLen : m.refs.gpu.length = m.gpu_allocator.num_blocks
  cpuRefLen : m.refs.cpu.length = m.cpu_allocator.num_blocks
  gpuFreePool : ∀ b ∈ m.gpu_allocator.free_blocks, PoolG m b
  cpuFreePool : ∀ b ∈ m.cpu_allocator.free_blocks, PoolC m b
  gpuFreeNodup : m.gpu_allocator.free_blocks.Nodup
  cpuFreeNodup : m.cpu_allocator.free_blocks.Nodup
  tablesPool : ∀ p ∈ m.block_tables, ∀ b ∈ p.2, PoolBlock m b
  keysNodup : (m.block_tables.map Prod.fst).Nodup
  refOcc : ∀ b, PoolBlock m b → m.refs.get b = tableOccs m.block_tables b
  freeIff : ∀ b, PoolBlock m b → (onFreeList m b ↔ m.refs.get b = 0)

theorem Valid.inRange {m : BlockSpaceManager} (v : Valid m)
    {b : PhysicalTokenBlock} (hb : PoolBlock m b) : m.refs.inRange b := by
  rcases hb with ⟨hd, hn, _⟩ | ⟨hd, hn, _⟩ <;>
    · unfold RefStore.inRange
      rw [hd]
      first
      | (rw [v.gpuRefLen]; exact hn)
      | (rw [v.cpuRefLen]; exact hn)

/-- The block-space manager operations named by the invariant claim. -/
inductive BsmOp where
  | alloc (g : SequenceGroup)
  | app (s : Sequence)
  | fork (parent child : Sequence)
  | swapIn (g : SequenceGroup)
  | swapOut (g : SequenceGroup)
  | freeSeq (s : Sequence)
  | reset
deriving Repr

/-- Run one operation (dropping any returned value). -/
def applyOp (m : BlockSpaceManager) : BsmOp → Option BlockSpaceManager
  | BsmOp.alloc g => m.allocate g
  | BsmOp.app s => (m.append s).map (fun p => p.2)
  | BsmOp.fork p c => m.fork p c
  | BsmOp.swapIn g => (m.swap_in g).map (fun p => p.2)
  | BsmOp.swapOut g => (m.swap_out g).map (fun p => p.2)
  | BsmOp.freeSeq s => m.free s
  | BsmOp.reset => m.reset

/-- The sequences of a group a swap operation touches (the non-finished
ones). -/
def liveSeqs (g : SequenceGroup) : List Sequence :=
  g.seqs.filter (fun s => s.status ≠ SequenceStatus.FINISHED)

/-- Caller obligations under which each operation keeps the invariant:
freshness of the sequence ids being installed, and, for the swaps, that
the group's live tables are resident on the source tier with no two live
siblings sharing one `seq_id`. -/
def OpOk (m : BlockSpaceManager) : BsmOp → Prop
  | BsmOp.alloc g => g.seqs ≠ [] ∧ (g.seqs.map Sequence.seq_id).Nodup ∧
      ∀ s ∈ g.seqs, s.seq_id ∉ m.block_tables.map Prod.fst
  | BsmOp.app _ => True
  | BsmOp.fork _ c => c.seq_id ∉ m.block_tables.map Prod.fst
  | BsmOp.swapIn g => ((liveSeqs g).map Sequence.seq_id).Nodup ∧
      ∀ s ∈ liveSeqs g, ∀ bt, alookup m.block_tables s.seq_id = some bt →
        ∀ b ∈ bt, b.device = Device.CPU
  | BsmOp.swapOut g => ((liveSeqs g).map Sequence.seq_id).Nodup ∧
      ∀ s ∈ liveSeqs g, ∀ bt, alookup m.block_tables s.seq_id = some bt →
        ∀ b ∈ bt, b.device = Device.GPU
  | BsmOp.freeSeq _ => True
  | BsmOp.reset => True

theorem inRange_of_pool {m : BlockSpaceManager}
    (hg : m.refs.gpu.length = m.gpu_allocator.num_blocks)
    (hc : m.refs.cpu.length = m.cpu_allocator.num_blocks)
    {b : PhysicalTokenBlock} (hb : PoolBlock m b) : m.refs.inRange b := by
  rcases hb with ⟨hd, hn, _⟩ | ⟨hd, hn, _⟩ <;>
    · unfold RefStore.inRange
      rw [hd]
      omega

/-- Releasing a list `L` of pool blocks one by one (the
`_free_block_table` walk): with `F` the reference counts that must remain,
the walk succeeds, brings every pool block's count down to `F`, and leaves
a block on its tier's free list iff `F` vanishes on it. -/
theorem free_block_table_spec (L : List PhysicalTokenBlock) :
    ∀ (m : BlockSpaceManager) (F : PhysicalTokenBlock → Nat),
    (∀ b ∈ L, PoolBlock m b) →
    (∀ b, PoolBlock m b → m.refs.get b = F b + L.count b) →
    (∀ b, PoolBlock m b → (onFreeList m b ↔ F b + L.count b = 0)) →
    (∀ b ∈ m.gpu_allocator.free_blocks, PoolG m b) →
    (∀ b ∈ m.cpu_allocator.free_blocks, PoolC m b) →
    m.gpu_allocator.free_blocks.Nodup →
    m.cpu_allocator.free_blocks.Nodup →
    m.refs.gpu.length = m.gpu_allocator.num_blocks →
    m.refs.cpu.length = m.cpu_allocator.num_blocks →
    ∃ m', m.free_block_table L = some m' ∧
      m'.block_tables = m.block_tables ∧
      m'.block_size = m.block_size ∧
      m'.gpu_allocator.num_blocks = m.gpu_allocator.num_blocks ∧
      m'.cpu_allocator.num_blocks = m.cpu_allocator.num_blocks ∧
      m'.refs.gpu.length = m.refs.gpu.length ∧
      m'.refs.cpu.length = m.refs.cpu.length ∧
      (∀ b, PoolBlock m b → m'.refs.get b = F b) ∧
      (∀ b, PoolBlock m b → (onFreeList m' b ↔ F b = 0)) ∧
      (∀ b ∈ m'.gpu_allocator.free_blocks, PoolG m b) ∧
      (∀ b ∈ m'.cpu_allocator.free_blocks, PoolC m b) ∧
      m'.gpu_allocator.free_blocks.Nodup ∧
      m'.cpu_allocator.free_blocks.Nodup := by
  induction L with
  | nil =>
      intro m F _ hcount hff hgp hcp hgnd hcnd hglen hclen
      exact ⟨m, rfl, rfl, rfl, rfl, rfl, rfl, rfl,
        (by intro b hb; have := hcount b hb; simpa using this),
        (by intro b hb; have := hff b hb; simpa using this),
        hgp, hcp, hgnd, hcnd⟩
  | cons b L' ih =>
      intro m F hL hcount hff hgp hcp hgnd hcnd hglen hclen
      have hb : PoolBlock m b := hL b (List.mem_cons_self _ _)
      have hcnt_b : (b :: L').count b = L'.count b + 1 := by
        simp [List.count_cons]
      have hpos : m.refs.get b ≠ 0 := by
        rw [hcount b hb, hcnt_b]; omega
      have hnotfree : ¬ onFreeList m b := by
        rw [hff b hb, hcnt_b]; omega
      have hinr : m.refs.inRange b := inRange_of_pool hglen hclen hb
      have hget1 : (m.refs.set b (m.refs.get b - 1)).get b = m.refs.get b - 1 := by
        rw [RefStore.get_set, if_pos ⟨rfl, rfl, hinr⟩]
      have hgetne : ∀ b', ¬ sameCell b b' →
          (m.refs.set b (m.refs.get b - 1)).get b' = m.refs.get b' := by
        intro b' hne
        rw [RefStore.get_set, if_neg]
        intro hcond
        exact hne ⟨hcond.1.symm, hcond.2.1.symm⟩
      have hL2 : ∀ b' ∈ L', PoolBlock m b' :=
        fun b' hb' => hL b' (List.mem_cons_of_mem _ hb')
      have hcnt1 : ∀ b', PoolBlock m b' →
          (m.refs.set b (m.refs.get b - 1)).get b' = F b' + L'.count b' := by
        intro b' hb'
        by_cases hbb : b' = b
        · subst hbb
          rw [hget1, hcount b' hb', hcnt_b]
          omega
        · have hncell : ¬ sameCell b b' :=
            fun hc => hbb (poolBlock_cell_eq hb hb' hc).symm
          rw [hgetne b' hncell, hcount b' hb', List.count_cons_of_ne hbb L']
      have hglen1 : (m.refs.set b (m.refs.get b - 1)).gpu.length =
          m.refs.gpu.length := RefStore.gpu_length_set _ _ _
      have hclen1 : (m.refs.set b (m.refs.get b - 1)).cpu.length =
          m.refs.cpu.length := RefStore.cpu_length_set _ _ _
      cases hdev : b.device with
      | GPU =>
        have hbg : PoolG m b := by
          rcases hb with hx | hx
          · exact hx
          · exact absurd (hdev.symm.trans hx.1) (by decide)
        have hnotmem : b ∉ m.gpu_allocator.free_blocks := by
          intro hmem
          apply hnotfree
          unfold onFreeList
          rw [hdev]
          exact hmem
        by_cases hzero : m.refs.get b - 1 = 0
        · -- the count reaches 0: the block returns to the GPU free list
          have hffx : ∀ b', PoolBlock m b' →
              (onFreeList { m with
                  gpu_allocator := { m.gpu_allocator with
                    free_blocks := m.gpu_allocator.free_blocks ++ [b] }
                  refs := m.refs.set b (m.refs.get b - 1) } b' ↔
                F b' + L'.count b' = 0) := by
            intro b' hb'
            have hmem_old := hff b' hb'
            simp only [onFreeList] at hmem_old ⊢
            cases hdev' : b'.device with
            | GPU =>
                simp only [hdev'] at hmem_old ⊢
                by_cases hbb : b' = b
                · subst hbb
                  have hval : F b' + L'.count b' = 0 := by
                    have h9 := hcount b' hb'
                    rw [hcnt_b] at h9
                    omega
                  exact iff_of_true
                    (List.mem_append.mpr (Or.inr (List.mem_singleton.mpr rfl)))
                    hval
                · rw [List.count_cons_of_ne hbb L'] at hmem_old
                  rw [List.mem_append, List.mem_singleton, or_iff_left hbb]
                  exact hmem_old
            | CPU =>
                simp only [hdev'] at hmem_old ⊢
                have hbb : b' ≠ b := by
                  intro hc
                  subst hc
                  rw [hdev] at hdev'
                  exact absurd hdev' (by decide)
                rw [List.count_cons_of_ne hbb L'] at hmem_old
                exact hmem_old
          have hgpx : ∀ b' ∈ m.gpu_allocator.free_blocks ++ [b], PoolG m b' := by
            intro b' hb'
            rcases List.mem_append.mp hb' with h | h
            · exact hgp b' h
            · rw [List.mem_singleton] at h
              subst h
              exact hbg
          have hgndx : (m.gpu_allocator.free_blocks ++ [b]).Nodup := by
            rw [List.nodup_append]
            exact ⟨hgnd, List.nodup_singleton b,
              fun a ha hb2 => hnotmem ((List.mem_singleton.mp hb2) ▸ ha)⟩
          obtain ⟨m2, hrec, htab, hbs, hng, hnc2, hlg, hlc, hcnt2, hff2,
              hgp2, hcp2, hgnd2, hcnd2⟩ :=
            ih { m with
                gpu_allocator := { m.gpu_allocator with
                  free_blocks := m.gpu_allocator.free_blocks ++ [b] }
                refs := m.refs.set b (m.refs.get b - 1) } F
              hL2 hcnt1 hffx hgpx hcp hgndx hcnd
              (by rw [hglen1]; exact hglen) (by rw [hclen1]; exact hclen)
          refine ⟨m2, ?_, htab, hbs, hng, hnc2,
            hlg.trans hglen1, hlc.trans hclen1,
            hcnt2, hff2, hgp2, hcp2, hgnd2, hcnd2⟩
          simp only [BlockSpaceManager.free_block_table, hdev,
            BlockManager.free, if_neg hpos, if_pos hzero]
          exact hrec
        · -- the count stays positive: the free lists are untouched
          have hffx : ∀ b', PoolBlock m b' →
              (onFreeList { m with
                  refs := m.refs.set b (m.refs.get b - 1) } b' ↔
                F b' + L'.count b' = 0) := by
            intro b' hb'
            have hmem_old := hff b' hb'
            by_cases hbb : b' = b
            · subst hbb
              have hne2 : ¬ (F b' + L'.count b' = 0) := by
                have h9 := hcount b' hb'
                rw [hcnt_b] at h9
                omega
              exact iff_of_false hnotfree hne2
            · rw [List.count_cons_of_ne hbb L'] at hmem_old
              exact hmem_old
          obtain ⟨m2, hrec, htab, hbs, hng, hnc2, hlg, hlc, hcnt2, hff2,
              hgp2, hcp2, hgnd2, hcnd2⟩ :=
            ih { m with refs := m.refs.set b (m.refs.get b - 1) } F
              hL2 hcnt1 hffx hgp hcp hgnd hcnd
              (by rw [hglen1]; exact hglen) (by rw [hclen1]; exact hclen)
          refine ⟨m2, ?_, htab, hbs, hng, hnc2,
            hlg.trans hglen1, hlc.trans hclen1,
            hcnt2, hff2, hgp2, hcp2, hgnd2, hcnd2⟩
          simp only [BlockSpaceManager.free_block_table, hdev,
            BlockManager.free, if_neg hpos, if_neg hzero]
          exact hrec
      | CPU =>
        have hbg : PoolC m b := by
          rcases hb with hx | hx
          · exact absurd (hdev.symm.trans hx.1) (by decide)
          · exact hx
        have hnotmem : b ∉ m.cpu_allocator.free_blocks := by
          intro hmem
          apply hnotfree
          unfold onFreeList
          rw [hdev]
          exact hmem
        by_cases hzero : m.refs.get b - 1 = 0
        · -- the count reaches 0: the block returns to the CPU free list
          have hffx : ∀ b', PoolBlock m b' →
              (onFreeList { m with
                  cpu_allocator := { m.cpu_allocator with
                    free_blocks := m.cpu_allocator.free_blocks ++ [b] }
                  refs := m.refs.set b (m.refs.get b - 1) } b' ↔
                F b' + L'.count b' = 0) := by
            intro b' hb'
            have hmem_old := hff b' hb'
            simp only [onFreeList] at hmem_old ⊢
            cases hdev' : b'.device with
            | CPU =>
                simp only [hdev'] at hmem_old ⊢
                by_cases hbb : b' = b
                · subst hbb
                  have hval : F b' + L'.count b' = 0 := by
                    have h9 := hcount b' hb'
                    rw [hcnt_b] at h9
                    omega
                  exact iff_of_true
                    (List.mem_append.mpr (Or.inr (List.mem_singleton.mpr rfl)))
                    hval
                · rw [List.count_cons_of_ne hbb L'] at hmem_old
                  rw [List.mem_append, List.mem_singleton, or_iff_left hbb]
                  exact hmem_old
            | GPU =>
                simp only [hdev'] at hmem_old ⊢
                have hbb : b' ≠ b := by
                  intro hc
                  subst hc
                  rw [hdev] at hdev'
                  exact absurd hdev' (by decide)
                rw [List.count_cons_of_ne hbb L'] at hmem_old
                exact hmem_old
          have hcpx : ∀ b' ∈ m.cpu_allocator.free_blocks ++ [b], PoolC m b' := by
            intro b' hb'
            rcases List.mem_append.mp hb' with h | h
            · exact hcp b' h
            · rw [List.mem_singleton] at h
              subst h
              exact hbg
          have hcndx : (m.cpu_allocator.free_blocks ++ [b]).Nodup := by
            rw [List.nodup_append]
            exact ⟨hcnd, List.nodup_singleton b,
              fun a ha hb2 => hnotmem ((List.mem_singleton.mp hb2) ▸ ha)⟩
          obtain ⟨m2, hrec, htab, hbs, hng, hnc2, hlg, hlc, hcnt2, hff2,
              hgp2, hcp2, hgnd2, hcnd2⟩ :=
            ih { m with
                cpu_allocator := { m.cpu_allocator with
                  free_blocks := m.cpu_allocator.free_blocks ++ [b] }
                refs := m.refs.set b (m.refs.get b - 1) } F
              hL2 hcnt1 hffx hgp hcpx hgnd hcndx
              (by rw [hglen1]; exact hglen) (by rw [hclen1]; exact hclen)
          refine ⟨m2, ?_, htab, hbs, hng, hnc2,
            hlg.trans hglen1, hlc.trans hclen1,
            hcnt2, hff2, hgp2, hcp2, hgnd2, hcnd2⟩
          simp only [BlockSpaceManager.free_block_table, hdev,
            BlockManager.free, if_neg hpos, if_pos hzero]
          exact hrec
        · -- the count stays positive: the free lists are untouched
          have hffx : ∀ b', PoolBlock m b' →
              (onFreeList { m with
                  refs := m.refs.set b (m.refs.get b - 1) } b' ↔
                F b' + L'.count b' = 0) := by
            intro b' hb'
            have hmem_old := hff b' hb'
            by_cases hbb : b' = b
            · subst hbb
              have hne2 : ¬ (F b' + L'.count b' = 0) := by
                have h9 := hcount b' hb'
                rw [hcnt_b] at h9
                omega
              exact iff_of_false hnotfree hne2
            · rw [List.count_cons_of_ne hbb L'] at hmem_old
              exact hmem_old
          obtain ⟨m2, hrec, htab, hbs, hng, hnc2, hlg, hlc, hcnt2, hff2,
              hgp2, hcp2, hgnd2, hcnd2⟩ :=
            ih { m with refs := m.refs.set b (m.refs.get b - 1) } F
              hL2 hcnt1 hffx hgp hcp hgnd hcnd
              (by rw [hglen1]; exact hglen) (by rw [hclen1]; exact hclen)
          refine ⟨m2, ?_, htab, hbs, hng, hnc2,
            hlg.trans hglen1, hlc.trans hclen1,
            hcnt2, hff2, hgp2, hcp2, hgnd2, hcnd2⟩
          simp only [BlockSpaceManager.free_block_table, hdev,
            BlockManager.free, if_neg hpos, if_neg hzero]
          exact hrec

theorem alookup_mem {α : Type} (l : List (Nat × α)) (k : Nat) (v : α)
    (h : alookup l k = some v) : (k, v) ∈ l := by
  induction l with
  | nil => simp [alookup] at h
  | cons p rest ih =>
      cases p with
      | mk pk pv =>
        by_cases hk : pk = k
        · subst hk
          simp only [alookup, eq_self_iff_true, if_true, Option.some.injEq] at h
          subst h
          exact List.mem_cons_self _ _
        · simp only [alookup, if_neg hk] at h
          exact List.mem_cons_of_mem _ (ih h)

theorem poolG_congr {m m' : BlockSpaceManager}
    (hn : m'.gpu_allocator.num_blocks = m.gpu_allocator.num_blocks)
    (hs : m'.block_size = m.block_size) (b : PhysicalTokenBlock) :
    PoolG m' b ↔ PoolG m b := by
  unfold PoolG
  rw [hn, hs]

theorem poolC_congr {m m' : BlockSpaceManager}
    (hn : m'.cpu_allocator.num_blocks = m.cpu_allocator.num_blocks)
    (hs : m'.block_size = m.block_size) (b : PhysicalTokenBlock) :
    PoolC m' b ↔ PoolC m b := by
  unfold PoolC
  rw [hn, hs]

theorem poolBlock_congr {m m' : BlockSpaceManager}
    (hg : m'.gpu_allocator.num_blocks = m.gpu_allocator.num_blocks)
    (hc : m'.cpu_allocator.num_blocks = m.cpu_allocator.num_blocks)
    (hs : m'.block_size = m.block_size) (b : PhysicalTokenBlock) :
    PoolBlock m' b ↔ PoolBlock m b := by
  unfold PoolBlock
  rw [poolG_congr hg hs, poolC_congr hc hs]

theorem keys_aerase_sublist {α : Type} (l : List (Nat × α)) (k : Nat) :
    ((aerase l k).map Prod.fst).Sublist (l.map Prod.fst) :=
  List.Sublist.map Prod.fst (List.filter_sublist l)

/-- C2, case `free(seq)`. -/
theorem valid_free_seq (m m' : BlockSpaceManager) (s : Sequence)
    (v : Valid m) (h : m.free s = some m') : Valid m' := by
  cases hbt : alookup m.block_tables s.seq_id with
  | none => simp [BlockSpaceManager.free, hbt] at h
  | some bt =>
    have hmem := alookup_mem _ _ _ hbt
    have hLpool : ∀ b ∈ bt, PoolBlock m b := v.tablesPool (s.seq_id, bt) hmem
    obtain ⟨m2, hrec, htab, hbs, hng, hnc, hlg, hlc, hcnt, hff, hgp, hcp,
        hgnd, hcnd⟩ :=
      free_block_table_spec bt m
        (fun b => tableOccs (aerase m.block_tables s.seq_id) b)
        hLpool
        (by
          intro b hb
          rw [v.refOcc b hb,
            ← tableOccs_aerase m.block_tables s.seq_id bt b v.keysNodup hbt])
        (by
          intro b hb
          rw [v.freeIff b hb, v.refOcc b hb,
            ← tableOccs_aerase m.block_tables s.seq_id bt b v.keysNodup hbt])
        v.gpuFreePool v.cpuFreePool v.gpuFreeNodup v.cpuFreeNodup
        v.gpuRefLen v.cpuRefLen
    have hm' : m' = { m2 with block_tables := aerase m2.block_tables s.seq_id } := by
      simp only [BlockSpaceManager.free, hbt, hrec] at h
      injection h with h
      exact h.symm
    subst hm'
    refine ⟨?_, ?_, ?_, ?_, hgnd, hcnd, ?_, ?_, ?_, ?_⟩
    · show m2.refs.gpu.length = m2.gpu_allocator.num_blocks
      rw [hlg, v.gpuRefLen, ← hng]
    · show m2.refs.cpu.length = m2.cpu_allocator.num_blocks
      rw [hlc, v.cpuRefLen, ← hnc]
    · intro b hb
      exact (poolG_congr hng hbs b).mpr (hgp b hb)
    · intro b hb
      exact (poolC_congr hnc hbs b).mpr (hcp b hb)
    · intro p hp b hb
      have hp2 : p ∈ m.block_tables := by
        have hp3 : p ∈ aerase m2.block_tables s.seq_id := hp
        rw [htab] at hp3
        exact List.mem_of_mem_filter hp3
      exact (poolBlock_congr hng hnc hbs b).mpr (v.tablesPool p hp2 b hb)
    · show ((aerase m2.block_tables s.seq_id).map Prod.fst).Nodup
      rw [htab]
      exact List.Nodup.sublist (keys_aerase_sublist _ _) v.keysNodup
    · intro b hb
      have hbm := (poolBlock_congr hng hnc hbs b).mp hb
      show m2.refs.get b = tableOccs (aerase m2.block_tables s.seq_id) b
      rw [htab]
      exact hcnt b hbm
    · intro b hb
      have hbm := (poolBlock_congr hng hnc hbs b).mp hb
      show onFreeList m2 b ↔ m2.refs.get b = 0
      rw [hcnt b hbm]
      exact hff b hbm

theorem tableOccs_cons (k : Nat) (bt : List PhysicalTokenBlock)
    (rest : List (Nat × List PhysicalTokenBlock)) (b : PhysicalTokenBlock) :
    tableOccs ((k, bt) :: rest) b = bt.count b + tableOccs rest b := by
  simp [tableOccs]

/-- The `reset` walk over a list of tables, with `F` the counts that must
remain at the end. -/
theorem freeAllTables_spec (TS : List (Nat × List PhysicalTokenBlock)) :
    ∀ (m : BlockSpaceManager) (F : PhysicalTokenBlock → Nat),
    (∀ p ∈ TS, ∀ b ∈ p.2, PoolBlock m b) →
    (∀ b, PoolBlock m b → m.refs.get b = F b + tableOccs TS b) →
    (∀ b, PoolBlock m b → (onFreeList m b ↔ F b + tableOccs TS b = 0)) →
    (∀ b ∈ m.gpu_allocator.free_blocks, PoolG m b) →
    (∀ b ∈ m.cpu_allocator.free_blocks, PoolC m b) →
    m.gpu_allocator.free_blocks.Nodup →
    m.cpu_allocator.free_blocks.Nodup →
    m.refs.gpu.length = m.gpu_allocator.num_blocks →
    m.refs.cpu.length = m.cpu_allocator.num_blocks →
    ∃ m', freeAllTables m TS = some m' ∧
      m'.block_tables = m.block_tables ∧
      m'.block_size = m.block_size ∧
      m'.gpu_allocator.num_blocks = m.gpu_allocator.num_blocks ∧
      m'.cpu_allocator.num_blocks = m.cpu_allocator.num_blocks ∧
      m'.refs.gpu.length = m.refs.gpu.length ∧
      m'.refs.cpu.length = m.refs.cpu.length ∧
      (∀ b, PoolBlock m b → m'.refs.get b = F b) ∧
      (∀ b, PoolBlock m b → (onFreeList m' b ↔ F b = 0)) ∧
      (∀ b ∈ m'.gpu_allocator.free_blocks, PoolG m b) ∧
      (∀ b ∈ m'.cpu_allocator.free_blocks, PoolC m b) ∧
      m'.gpu_allocator.free_blocks.Nodup ∧
      m'.cpu_allocator.free_blocks.Nodup := by
  induction TS with
  | nil =>
      intro m F _ hcount hff hgp hcp hgnd hcnd hglen hclen
      refine ⟨m, rfl, rfl, rfl, rfl, rfl, rfl, rfl, ?_, ?_, hgp, hcp, hgnd, hcnd⟩
      · intro b hb
        have := hcount b hb
        simpa [tableOccs] using this
      · intro b hb
        have := hff b hb
        simpa [tableOccs] using this
  | cons p rest ih =>
      intro m F hpool hcount hff hgp hcp hgnd hcnd hglen hclen
      cases p with
      | mk k bt =>
        obtain ⟨m2, hrec, htab, hbs, hng, hnc, hlg, hlc, hcnt, hff2, hgp2,
            hcp2, hgnd2, hcnd2⟩ :=
          free_block_table_spec bt m (fun b => F b + tableOccs rest b)
            (hpool (k, bt) (List.mem_cons_self _ _))
            (by
              intro b hb
              show m.refs.get b = F b + tableOccs rest b + bt.count b
              rw [hcount b hb, tableOccs_cons]
              omega)
            (by
              intro b hb
              show onFreeList m b ↔ F b + tableOccs rest b + bt.count b = 0
              rw [hff b hb, tableOccs_cons]
              constructor <;> (intro hx; omega))
            hgp hcp hgnd hcnd hglen hclen
        have hpoolc : ∀ b, PoolBlock m2 b ↔ PoolBlock m b :=
          poolBlock_congr hng hnc hbs
        obtain ⟨m3, hrec3, htab3, hbs3, hng3, hnc3, hlg3, hlc3, hcnt3, hff3,
            hgp3, hcp3, hgnd3, hcnd3⟩ :=
          ih m2 F
            (by
              intro p2 hp2 b hb
              rw [hpoolc]
              exact hpool p2 (List.mem_cons_of_mem _ hp2) b hb)
            (by
              intro b hb
              exact hcnt b ((hpoolc b).mp hb))
            (by
              intro b hb
              exact hff2 b ((hpoolc b).mp hb))
            (by
              intro b hb
              exact ((poolG_congr hng hbs b).mpr (hgp2 b hb)))
            (by
              intro b hb
              exact ((poolC_congr hnc hbs b).mpr (hcp2 b hb)))
            hgnd2 hcnd2
            (by rw [hlg, hglen, ← hng])
            (by rw [hlc, hclen, ← hnc])
        refine ⟨m3, ?_, htab3.trans htab, hbs3.trans hbs,
          hng3.trans hng, hnc3.trans hnc,
          hlg3.trans hlg, hlc3.trans hlc, ?_, ?_, ?_, ?_, hgnd3, hcnd3⟩
        · simp only [freeAllTables, hrec]
          exact hrec3
        · intro b hb
          exact hcnt3 b ((hpoolc b).mpr hb)
        · intro b hb
          exact hff3 b ((hpoolc b).mpr hb)
        · intro b hb
          exact (poolG_congr hng hbs b).mp (hgp3 b hb)
        · intro b hb
          exact (poolC_congr hnc hbs b).mp (hcp3 b hb)

/-- C2, case `reset`. -/
theorem valid_reset (m m' : BlockSpaceManager) (v : Valid m)
    (h : m.reset = some m') : Valid m' := by
  obtain ⟨m2, hrec, htab, hbs, hng, hnc, hlg, hlc, hcnt, hff, hgp, hcp,
      hgnd, hcnd⟩ :=
    freeAllTables_spec m.block_tables m (fun _ => 0)
      v.tablesPool
      (by
        intro b hb
        show m.refs.get b = 0 + tableOccs m.block_tables b
        rw [v.refOcc b hb]
        omega)
      (by
        intro b hb
        show onFreeList m b ↔ 0 + tableOccs m.block_tables b = 0
        rw [v.freeIff b hb, v.refOcc b hb]
        omega)
      v.gpuFreePool v.cpuFreePool v.gpuFreeNodup v.cpuFreeNodup
      v.gpuRefLen v.cpuRefLen
  have hm' : m' = { m2 with block_tables := [] } := by
    simp only [BlockSpaceManager.reset, hrec] at h
    injection h with h
    exact h.symm
  subst hm'
  refine ⟨?_, ?_, ?_, ?_, hgnd, hcnd, ?_, ?_, ?_, ?_⟩
  · show m2.refs.gpu.length = m2.gpu_allocator.num_blocks
    rw [hlg, v.gpuRefLen, ← hng]
  · show m2.refs.cpu.length = m2.cpu_allocator.num_blocks
    rw [hlc, v.cpuRefLen, ← hnc]
  · intro b hb
    exact (poolG_congr hng hbs b).mpr (hgp b hb)
  · intro b hb
    exact (poolC_congr hnc hbs b).mpr (hcp b hb)
  · intro p hp b hb
    exact absurd hp (List.not_mem_nil p)
  · show (([] : List (Nat × List PhysicalTokenBlock)).map Prod.fst).Nodup
    simp
  · intro b hb
    have hbm := (poolBlock_congr hng hnc hbs b).mp hb
    show m2.refs.get b = tableOccs [] b
    rw [hcnt b hbm, tableOccs_nil]
  · intro b hb
    have hbm := (poolBlock_congr hng hnc hbs b).mp hb
    show onFreeList m2 b ↔ m2.refs.get b = 0
    rw [hcnt b hbm]
    exact (hff b hbm).trans (by simp)

theorem foldl_incr_gpu_length (src : List PhysicalTokenBlock) :
    ∀ (r : RefStore),
    (src.foldl (fun r x => r.set x (r.get x + 1)) r).gpu.length = r.gpu.length := by
  induction src with
  | nil => intro r; rfl
  | cons x rest ih =>
      intro r
      simp only [List.foldl_cons]
      rw [ih, RefStore.gpu_length_set]

theorem foldl_incr_cpu_length (src : List PhysicalTokenBlock) :
    ∀ (r : RefStore),
    (src.foldl (fun r x => r.set x (r.get x + 1)) r).cpu.length = r.cpu.length := by
  induction src with
  | nil => intro r; rfl
  | cons x rest ih =>
      intro r
      simp only [List.foldl_cons]
      rw [ih, RefStore.cpu_length_set]

/-- The `fork` increments add the occurrence count of each cell. -/
theorem foldl_incr_get_count (src : List PhysicalTokenBlock) :
    ∀ (r : RefStore) (b : PhysicalTokenBlock),
    (∀ x ∈ src, r.inRange x) →
    (∀ x ∈ src, sameCell x b → x = b) →
    (src.foldl (fun r x => r.set x (r.get x + 1)) r).get b =
      r.get b + src.count b := by
  induction src with
  | nil => intro r b _ _; simp
  | cons x rest ih =>
      intro r b hrange hcell
      have hrange' : ∀ y ∈ rest, (r.set x (r.get x + 1)).inRange y :=
        fun y hy => (RefStore.inRange_set _ _ _ _).mpr
          (hrange y (List.mem_cons_of_mem _ hy))
      have hcell' : ∀ y ∈ rest, sameCell y b → y = b :=
        fun y hy => hcell y (List.mem_cons_of_mem _ hy)
      simp only [List.foldl_cons]
      rw [ih _ b hrange' hcell']
      by_cases hxb : x = b
      · subst hxb
        rw [RefStore.get_set,
          if_pos ⟨rfl, rfl, hrange x (List.mem_cons_self _ _)⟩,
          List.count_cons_self]
        omega
      · have hnc : ¬ sameCell x b := fun hc => hxb (hcell x (List.mem_cons_self _ _) hc)
        rw [RefStore.get_set, if_neg, List.count_cons_of_ne (fun hc => hxb hc.symm)]
        intro hcond
        exact hnc ⟨hcond.1.symm, hcond.2.1.symm⟩

theorem aset_mem {α : Type} (l : List (Nat × α)) (k : Nat) (v : α)
    (p : Nat × α) (h : p ∈ aset l k v) : p = (k, v) ∨ p ∈ l := by
  induction l with
  | nil =>
      simp only [aset, List.mem_singleton] at h
      exact Or.inl h
  | cons q rest ih =>
      cases q with
      | mk qk qv =>
        by_cases hk : qk = k
        · subst hk
          simp only [aset, eq_self_iff_true, if_true, List.mem_cons] at h
          rcases h with h1 | h1
          · exact Or.inl h1
          · exact Or.inr (List.mem_cons_of_mem _ h1)
        · simp only [aset, if_neg hk, List.mem_cons] at h
          rcases h with h1 | h1
          · exact Or.inr (by rw [h1]; exact List.mem_cons_self _ _)
          · rcases ih h1 with h2 | h2
            · exact Or.inl h2
            · exact Or.inr (List.mem_cons_of_mem _ h2)

theorem count_le_tableOccs (tabs : List (Nat × List PhysicalTokenBlock))
    (k : Nat) (bt : List PhysicalTokenBlock) (b : PhysicalTokenBlock)
    (h : (k, bt) ∈ tabs) : bt.count b ≤ tableOccs tabs b := by
  induction tabs with
  | nil => simp at h
  | cons q rest ih =>
      rcases List.mem_cons.mp h with h1 | h1
      · cases q with
        | mk qk qv =>
          injection h1 with h2 h3
          subst h2; subst h3
          rw [tableOccs_cons]
          omega
      · cases q with
        | mk qk qv =>
          rw [tableOccs_cons]
          have := ih h1
          omega

/-- C2, case `fork`. -/
theorem valid_fork (m m' : BlockSpaceManager) (pSeq c : Sequence)
    (v : Valid m) (hok : c.seq_id ∉ m.block_tables.map Prod.fst)
    (h : m.fork pSeq c = some m') : Valid m' := by
  cases hsrc : alookup m.block_tables pSeq.seq_id with
  | none => simp [BlockSpaceManager.fork, hsrc] at h
  | some src =>
    have hm' : m' = { m with
        block_tables := aset m.block_tables c.seq_id src
        refs := src.foldl (fun r b => r.set b (r.get b + 1)) m.refs } := by
      simp only [BlockSpaceManager.fork, hsrc] at h
      injection h with h
      exact h.symm
    subst hm'
    have hsrcpool : ∀ b ∈ src, PoolBlock m b :=
      v.tablesPool _ (alookup_mem _ _ _ hsrc)
    have hoccs : ∀ b, tableOccs (aset m.block_tables c.seq_id src) b =
        tableOccs m.block_tables b + src.count b :=
      fun b => tableOccs_aset_fresh m.block_tables c.seq_id src b hok
    have hrefs : ∀ b, PoolBlock m b →
        (src.foldl (fun r x => r.set x (r.get x + 1)) m.refs).get b =
          m.refs.get b + src.count b := by
      intro b hb
      exact foldl_incr_get_count src m.refs b
        (fun x hx => v.inRange (hsrcpool x hx))
        (fun x hx hc => poolBlock_cell_eq (hsrcpool x hx) hb hc)
    refine ⟨?_, ?_, v.gpuFreePool, v.cpuFreePool, v.gpuFreeNodup,
      v.cpuFreeNodup, ?_, ?_, ?_, ?_⟩
    · show (src.foldl (fun r x => r.set x (r.get x + 1)) m.refs).gpu.length =
        m.gpu_allocator.num_blocks
      rw [foldl_incr_gpu_length]
      exact v.gpuRefLen
    · show (src.foldl (fun r x => r.set x (r.get x + 1)) m.refs).cpu.length =
        m.cpu_allocator.num_blocks
      rw [foldl_incr_cpu_length]
      exact v.cpuRefLen
    · intro p hp b hb
      rcases aset_mem _ _ _ p hp with h1 | h1
      · rw [h1] at hb
        exact hsrcpool b hb
      · exact v.tablesPool p h1 b hb
    · exact keys_aset_nodup _ _ _ v.keysNodup
    · intro b hb
      show (src.foldl (fun r x => r.set x (r.get x + 1)) m.refs).get b =
        tableOccs (aset m.block_tables c.seq_id src) b
      rw [hrefs b hb, hoccs b, v.refOcc b hb]
    · intro b hb
      show onFreeList m b ↔
        (src.foldl (fun r x => r.set x (r.get x + 1)) m.refs).get b = 0
      rw [hrefs b hb]
      by_cases hcnt : src.count b = 0
      · rw [hcnt]
        rw [Nat.add_zero]
        exact v.freeIff b hb
      · have hocc_ge : src.count b ≤ tableOccs m.block_tables b :=
          count_le_tableOccs m.block_tables pSeq.seq_id src b
            (alookup_mem _ _ _ hsrc)
        have hpos : m.refs.get b ≠ 0 := by
          rw [v.refOcc b hb]
          omega
        refine iff_of_false ?_ (by omega)
        intro hmem
        exact hpos ((v.freeIff b hb).mp hmem)

theorem allocLoop_le_of_some (k : Nat) :
    ∀ (ns : Nat) (a : BlockManager) (r : RefStore)
      (t : List PhysicalTokenBlock) (a2 : BlockManager) (r2 : RefStore),
    allocLoop k ns a r = some (t, a2, r2) → k ≤ a.free_blocks.length := by
  induction k with
  | zero => intro ns a r t a2 r2 _; exact Nat.zero_le _
  | succ k ih =>
      intro ns a r t a2 r2 h
      simp only [allocLoop] at h
      split at h
      · exact absurd h (by simp)
      · next b a1 r1 hb =>
          have hne : a.free_blocks ≠ [] := by
            intro hc
            simp [BlockManager.allocate, hc] at hb
          have ha1 : a1.free_blocks = a.free_blocks.dropLast := by
            cases hgl : a.free_blocks.getLast? with
            | none => exact absurd (List.getLast?_eq_none_iff.mp hgl) hne
            | some bl =>
                simp only [BlockManager.allocate, hgl, Option.some.injEq,
                  Prod.mk.injEq] at hb
                rw [← hb.2.1]
          split at h
          · exact absurd h (by simp)
          · next t2 a3 r3 hrec =>
              have := ih ns a1 (r1.set b ns) t2 a3 r3 hrec
              rw [ha1, List.length_dropLast] at this
              have hlen : a.free_blocks.length ≠ 0 :=
                fun hc => hne (List.length_eq_zero.mp hc)
              omega

theorem foldl_aset_mem (seqs : List Sequence) :
    ∀ (tabs : List (Nat × List PhysicalTokenBlock))
      (t : List PhysicalTokenBlock) (p : Nat × List PhysicalTokenBlock),
    p ∈ seqs.foldl (fun tabs s => aset tabs s.seq_id t) tabs →
    p.2 = t ∨ p ∈ tabs := by
  induction seqs with
  | nil => intro tabs t p h; exact Or.inr h
  | cons s rest ih =>
      intro tabs t p h
      simp only [List.foldl_cons] at h
      rcases ih _ t p h with h1 | h1
      · exact Or.inl h1
      · rcases aset_mem _ _ _ p h1 with h2 | h2
        · rw [h2]
          exact Or.inl rfl
        · exact Or.inr h2

theorem keys_foldl_aset_nodup (seqs : List Sequence) :
    ∀ (tabs : List (Nat × List PhysicalTokenBlock)) (t : List PhysicalTokenBlock),
    (tabs.map Prod.fst).Nodup →
    ((seqs.foldl (fun tabs s => aset tabs s.seq_id t) tabs).map Prod.fst).Nodup := by
  induction seqs with
  | nil => intro tabs t h; exact h
  | cons s rest ih =>
      intro tabs t h
      simp only [List.foldl_cons]
      exact ih _ t (keys_aset_nodup _ _ _ h)

theorem tableOccs_foldl_aset_fresh (seqs : List Sequence) :
    ∀ (tabs : List (Nat × List PhysicalTokenBlock))
      (t : List PhysicalTokenBlock) (b : PhysicalTokenBlock),
    (seqs.map Sequence.seq_id).Nodup →
    (∀ s ∈ seqs, s.seq_id ∉ tabs.map Prod.fst) →
    tableOccs (seqs.foldl (fun tabs s => aset tabs s.seq_id t) tabs) b =
      tableOccs tabs b + seqs.length * t.count b := by
  induction seqs with
  | nil => intro tabs t b _ _; simp
  | cons s rest ih =>
      intro tabs t b hnd hfresh
      simp only [List.map_cons, List.nodup_cons] at hnd
      simp only [List.foldl_cons]
      have hfresh' : ∀ s2 ∈ rest, s2.seq_id ∉ (aset tabs s.seq_id t).map Prod.fst := by
        intro s2 hs2
        rw [keys_aset]
        split
        · exact hfresh s2 (List.mem_cons_of_mem _ hs2)
        · intro hc
          rcases List.mem_append.mp hc with h1 | h1
          · exact hfresh s2 (List.mem_cons_of_mem _ hs2) h1
          · rw [List.mem_singleton] at h1
            exact hnd.1 (h1 ▸ List.mem_map.mpr ⟨s2, hs2, rfl⟩)
      rw [ih _ t b hnd.2 hfresh',
        tableOccs_aset_fresh tabs s.seq_id t b
          (hfresh s (List.mem_cons_self _ _))]
      simp only [List.length_cons]
      ring

/-- C2, case `allocate(group)`. -/
theorem valid_alloc (m m' : BlockSpaceManager) (g : SequenceGroup)
    (v : Valid m)
    (hne : g.seqs ≠ [])
    (hnd : (g.seqs.map Sequence.seq_id).Nodup)
    (hfresh : ∀ s ∈ g.seqs, s.seq_id ∉ m.block_tables.map Prod.fst)
    (h : m.allocate g = some m') : Valid m' := by
  cases hhead : g.seqs.head? with
  | none =>
      rw [List.head?_eq_none_iff] at hhead
      exact absurd hhead hne
  | some s0 =>
    simp only [BlockSpaceManager.allocate, hhead] at h
    split at h
    · exact absurd h (by simp)
    · next t0 a0 r0 hrec =>
          have hk : s0.logical_token_blocks.length ≤
              m.gpu_allocator.free_blocks.length :=
            allocLoop_le_of_some _ _ _ _ _ _ _ hrec
          obtain ⟨t, r2, hrec2, ht, hout, hin, hlg, hlc⟩ :=
            allocLoop_spec s0.logical_token_blocks.length g.num_seqs
              m.gpu_allocator m.refs hk
          rw [hrec] at hrec2
          injection hrec2 with hrec2
          obtain ⟨he1, he2, he3⟩ : t0 = t ∧
              a0 = { m.gpu_allocator with
                free_blocks := m.gpu_allocator.free_blocks.take
                  (m.gpu_allocator.free_blocks.length -
                    s0.logical_token_blocks.length) } ∧ r0 = r2 := by
            have h1 := congrArg Prod.fst hrec2
            have h2 := congrArg (fun p => p.2.1) hrec2
            have h3 := congrArg (fun p => p.2.2) hrec2
            exact ⟨h1, h2, h3⟩
          rw [he1, he2, he3] at h
          injection h with h
          subst h
          -- names for the pieces
          have htpool : ∀ b ∈ t, PoolG m b := by
            intro b hb
            rw [ht] at hb
            rw [List.mem_reverse] at hb
            exact v.gpuFreePool b (List.mem_of_mem_drop hb)
          have htdrop : ∀ b, b ∈ t ↔
              b ∈ m.gpu_allocator.free_blocks.drop
                (m.gpu_allocator.free_blocks.length -
                  s0.logical_token_blocks.length) := by
            intro b
            rw [ht, List.mem_reverse]
          have htnodup : t.Nodup := by
            rw [ht]
            exact List.nodup_reverse.mpr
              (List.Sublist.nodup (List.drop_sublist _ _) v.gpuFreeNodup)
          have hdisj : ∀ b ∈ t, b ∉ m.gpu_allocator.free_blocks.take
              (m.gpu_allocator.free_blocks.length -
                s0.logical_token_blocks.length) := by
            intro b hb hbtake
            have hbd := (htdrop b).mp hb
            have hnd2 := v.gpuFreeNodup
            rw [← List.take_append_drop
              (m.gpu_allocator.free_blocks.length -
                s0.logical_token_blocks.length) m.gpu_allocator.free_blocks,
              List.nodup_append] at hnd2
            exact hnd2.2.2 hbtake hbd
          have hnotint : ∀ b, PoolBlock m b → b ∉ t →
              (∀ bt ∈ t, ¬ sameCell bt b) := by
            intro b hb hbt bt hbtmem hc
            exact hbt (poolBlock_cell_eq (Or.inl (htpool bt hbtmem)) hb hc ▸ hbtmem)
          have hoccs : ∀ b, tableOccs (g.seqs.foldl
              (fun tabs s => aset tabs s.seq_id t) m.block_tables) b =
              tableOccs m.block_tables b + g.seqs.length * t.count b :=
            fun b => tableOccs_foldl_aset_fresh g.seqs m.block_tables t b hnd hfresh
          have hlen_ne : g.seqs.length ≠ 0 :=
            fun hc => hne (List.length_eq_zero.mp hc)
          refine ⟨?_, ?_, ?_, ?_, ?_, v.cpuFreeNodup, ?_, ?_, ?_, ?_⟩
          · show r2.gpu.length = m.gpu_allocator.num_blocks
            rw [hlg, v.gpuRefLen]
          · show r2.cpu.length = m.cpu_allocator.num_blocks
            rw [hlc, v.cpuRefLen]
          · intro b hb
            have : b ∈ m.gpu_allocator.free_blocks := List.mem_of_mem_take hb
            exact v.gpuFreePool b this
          · exact v.cpuFreePool
          · exact List.Sublist.nodup (List.take_sublist _ _) v.gpuFreeNodup
          · intro p hp b hb
            rcases foldl_aset_mem g.seqs m.block_tables t p hp with h1 | h1
            · rw [h1] at hb
              exact Or.inl (htpool b hb)
            · exact v.tablesPool p h1 b hb
          · exact keys_foldl_aset_nodup g.seqs m.block_tables t v.keysNodup
          · intro b hb
            show r2.get b = tableOccs (g.seqs.foldl
              (fun tabs s => aset tabs s.seq_id t) m.block_tables) b
            rw [hoccs b]
            by_cases hbt : b ∈ t
            · have hcnt1 : t.count b = 1 := List.count_eq_one_of_mem htnodup hbt
              have hGpool : PoolG m b := htpool b hbt
              have hzero : m.refs.get b = 0 := by
                have hmem : onFreeList m b := by
                  unfold onFreeList
                  rw [hGpool.1]
                  exact List.mem_of_mem_drop ((htdrop b).mp hbt)
                exact (v.freeIff b hb).mp hmem
              have hocc0 : tableOccs m.block_tables b = 0 := by
                rw [← v.refOcc b hb]
                exact hzero
              rw [hin b hbt (v.inRange hb), hocc0, hcnt1]
              simp [SequenceGroup.num_seqs]
            · rw [hout b (hnotint b hb hbt), v.refOcc b hb,
                List.count_eq_zero_of_not_mem hbt]
              ring
          · intro b hb
            show onFreeList { m with
                gpu_allocator := { m.gpu_allocator with
                  free_blocks := m.gpu_allocator.free_blocks.take
                    (m.gpu_allocator.free_blocks.length -
                      s0.logical_token_blocks.length) }
                refs := r2
                block_tables := g.seqs.foldl
                  (fun tabs s => aset tabs s.seq_id t) m.block_tables } b ↔
              r2.get b = 0
            by_cases hbt : b ∈ t
            · have hGpool : PoolG m b := htpool b hbt
              refine iff_of_false ?_ ?_
              · unfold onFreeList
                rw [hGpool.1]
                exact fun hmem => hdisj b hbt hmem
              · rw [hin b hbt (v.inRange hb)]
                simp only [SequenceGroup.num_seqs]
                exact hlen_ne
            · rw [hout b (hnotint b hb hbt)]
              have hIff := v.freeIff b hb
              unfold onFreeList at hIff ⊢
              cases hdev : b.device with
              | GPU =>
                  rw [hdev] at hIff
                  constructor
                  · intro hmem
                    exact hIff.mp (List.mem_of_mem_take hmem)
                  · intro hzero
                    have hmem := hIff.mpr hzero
                    rw [← List.take_append_drop
                      (m.gpu_allocator.free_blocks.length -
                        s0.logical_token_blocks.length)
                      m.gpu_allocator.free_blocks] at hmem
                    rcases List.mem_append.mp hmem with h1 | h1
                    · exact h1
                    · exact absurd ((htdrop b).mpr h1) hbt
              | CPU =>
                  rw [hdev] at hIff
                  exact hIff

theorem mem_keys_of_alookup {α : Type} (l : List (Nat × α)) (k : Nat) (v : α)
    (h : alookup l k = some v) : k ∈ l.map Prod.fst :=
  List.mem_map.mpr ⟨(k, v), alookup_mem l k v h, rfl⟩

theorem keys_aset_of_mem {α : Type} (l : List (Nat × α)) (k : Nat) (v : α)
    (h : k ∈ l.map Prod.fst) : (aset l k v).map Prod.fst = l.map Prod.fst := by
  rw [keys_aset, if_pos h]

/-- C2, case `append(seq)`.  The new state after a successful `append`
keeps the invariant (any of the three branches). -/
theorem valid_append (m m' : BlockSpaceManager) (s : Sequence)
    (ret : Option (Nat × Nat)) (v : Valid m)
    (h : m.append s = some (ret, m')) : Valid m' := by
  cases hbt : alookup m.block_tables s.seq_id with
  | none => simp [BlockSpaceManager.append, hbt] at h
  | some bt =>
    have hbtmem := alookup_mem _ _ _ hbt
    have hbtpool : ∀ b ∈ bt, PoolBlock m b := v.tablesPool _ hbtmem
    have hkeysmem : s.seq_id ∈ m.block_tables.map Prod.fst :=
      mem_keys_of_alookup _ _ _ hbt
    simp only [BlockSpaceManager.append, hbt] at h
    split at h
    · -- branch 1: the sequence rolled over; allocate a fresh block
      split at h
      · exact absurd h (by simp)
      · next b0 a1 r1 halloc =>
          injection h with h
          have hm' : m' = { m with
              gpu_allocator := a1
              refs := r1
              block_tables := aset m.block_tables s.seq_id (bt ++ [b0]) } :=
            (congrArg Prod.snd h).symm
          cases hgl : m.gpu_allocator.free_blocks.getLast? with
          | none => simp [BlockManager.allocate, hgl] at halloc
          | some bl =>
            simp only [BlockManager.allocate, hgl, Option.some.injEq,
              Prod.mk.injEq] at halloc
            obtain ⟨hb0, ha1, hr1⟩ := halloc
            subst hb0
            subst hm'
            subst ha1
            subst hr1
            have hblmem : bl ∈ m.gpu_allocator.free_blocks := by
              rw [← List.dropLast_append_getLast? bl hgl]
              simp
            have hblpool : PoolG m bl := v.gpuFreePool bl hblmem
            have hblon : onFreeList m bl := by
              unfold onFreeList
              rw [hblpool.1]
              exact hblmem
            have hblzero : m.refs.get bl = 0 :=
              (v.freeIff bl (Or.inl hblpool)).mp hblon
            have hcnt0 : bt.count bl = 0 := by
              have h1 := count_le_tableOccs m.block_tables s.seq_id bt bl hbtmem
              have h2 := v.refOcc bl (Or.inl hblpool)
              omega
            have hsplitF := List.dropLast_append_getLast? bl hgl
            have hblnotdl : bl ∉ m.gpu_allocator.free_blocks.dropLast := by
              intro hc
              have hnd2 := v.gpuFreeNodup
              rw [← hsplitF, List.nodup_append] at hnd2
              exact hnd2.2.2 hc (List.mem_singleton.mpr rfl)
            refine ⟨?_, ?_, ?_, v.cpuFreePool, ?_, v.cpuFreeNodup, ?_, ?_, ?_, ?_⟩
            · show (m.refs.set bl 1).gpu.length = m.gpu_allocator.num_blocks
              rw [RefStore.gpu_length_set]
              exact v.gpuRefLen
            · show (m.refs.set bl 1).cpu.length = m.cpu_allocator.num_blocks
              rw [RefStore.cpu_length_set]
              exact v.cpuRefLen
            · intro b hb
              exact v.gpuFreePool b
                (List.Sublist.mem hb (List.dropLast_sublist _))
            · exact List.Sublist.nodup (List.dropLast_sublist _) v.gpuFreeNodup
            · intro p hp b hb
              rcases aset_mem _ _ _ p hp with h1 | h1
              · rw [h1] at hb
                rcases List.mem_append.mp hb with h2 | h2
                · exact hbtpool b h2
                · rw [List.mem_singleton] at h2
                  subst h2
                  exact Or.inl hblpool
              · exact v.tablesPool p h1 b hb
            · show ((aset m.block_tables s.seq_id (bt ++ [bl])).map Prod.fst).Nodup
              rw [keys_aset_of_mem _ _ _ hkeysmem]
              exact v.keysNodup
            · intro b hb
              show (m.refs.set bl 1).get b =
                tableOccs (aset m.block_tables s.seq_id (bt ++ [bl])) b
              have hocc := tableOccs_aset m.block_tables s.seq_id (bt ++ [bl])
                bt b v.keysNodup hbt
              by_cases hbb : b = bl
              · subst hbb
                rw [RefStore.get_set, if_pos ⟨rfl, rfl, v.inRange hb⟩]
                have hcnew : (bt ++ [b]).count b = 1 := by
                  rw [List.count_append]
                  simp [hcnt0]
                have hoccb : tableOccs m.block_tables b = 0 := by
                  have := v.refOcc b hb
                  omega
                omega
              · have hnc : ¬ (b.device = bl.device ∧
                    b.block_number = bl.block_number ∧ m.refs.inRange bl) := by
                  intro hc
                  exact hbb (poolBlock_cell_eq hb (Or.inl hblpool) ⟨hc.1, hc.2.1⟩)
                rw [RefStore.get_set, if_neg hnc]
                have hcnew : (bt ++ [bl]).count b = bt.count b := by
                  rw [List.count_append]
                  simp [List.count_singleton, fun hc : b = bl => hbb hc]
                have := v.refOcc b hb
                omega
            · intro b hb
              show onFreeList { m with
                  gpu_allocator := { m.gpu_allocator with
                    free_blocks := m.gpu_allocator.free_blocks.dropLast }
                  refs := m.refs.set bl 1
                  block_tables := aset m.block_tables s.seq_id (bt ++ [bl]) } b ↔
                (m.refs.set bl 1).get b = 0
              by_cases hbb : b = bl
              · subst hbb
                refine iff_of_false ?_ ?_
                · unfold onFreeList
                  rw [hblpool.1]
                  exact hblnotdl
                · rw [RefStore.get_set, if_pos ⟨rfl, rfl, v.inRange hb⟩]
                  omega
              · have hnc : ¬ (b.device = bl.device ∧
                    b.block_number = bl.block_number ∧ m.refs.inRange bl) := by
                  intro hc
                  exact hbb (poolBlock_cell_eq hb (Or.inl hblpool) ⟨hc.1, hc.2.1⟩)
                rw [RefStore.get_set, if_neg hnc]
                have hIff := v.freeIff b hb
                unfold onFreeList at hIff ⊢
                cases hdev : b.device with
                | GPU =>
                    rw [hdev] at hIff
                    rw [← hIff]
                    constructor
                    · intro hmem
                      exact List.Sublist.mem hmem (List.dropLast_sublist _)
                    · intro hmem
                      rw [← hsplitF, List.mem_append, List.mem_singleton] at hmem
                      rcases hmem with h1 | h1
                      · exact h1
                      · exact absurd h1 hbb
                | CPU =>
                    rw [hdev] at hIff
                    exact hIff
    · -- the last block exists
      split at h
      · exact absurd h (by simp)
      · next last hlast =>
          split at h
          · exact absurd h (by simp)
          · next hdevne =>
            have hdev : last.device = Device.GPU := by
              by_contra hc
              exact hdevne hc
            have hlastmem : last ∈ bt := by
              rw [← List.dropLast_append_getLast? last hlast]
              simp
            have hlastpool : PoolBlock m last := hbtpool last hlastmem
            have hlastcnt : 1 ≤ bt.count last := by
              have := List.count_pos_iff.mpr hlastmem
              omega
            have hlastpos : m.refs.get last ≠ 0 := by
              have h1 := count_le_tableOccs m.block_tables s.seq_id bt last hbtmem
              have h2 := v.refOcc last hlastpool
              omega
            split at h
            · -- ref_count 1: in place, state unchanged
              injection h with h
              have hm' : m' = m := (congrArg Prod.snd h).symm
              subst hm'
              exact v
            · -- shared: copy on write
              next h1 =>
                split at h
                · exact absurd h (by simp)
                · next nb a1 r1 halloc =>
                    split at h
                    · exact absurd h (by simp)
                    · next a2 r2 hfree =>
                        injection h with h
                        have hm' : m' = { m with
                            gpu_allocator := a2
                            refs := r2
                            block_tables := aset m.block_tables s.seq_id
                              (bt.dropLast ++ [nb]) } :=
                          (congrArg Prod.snd h).symm
                        cases hgl : m.gpu_allocator.free_blocks.getLast? with
                        | none => simp [BlockManager.allocate, hgl] at halloc
                        | some bl =>
                          simp only [BlockManager.allocate, hgl, Option.some.injEq,
                            Prod.mk.injEq] at halloc
                          obtain ⟨hb0, ha1, hr1⟩ := halloc
                          subst hb0
                          subst ha1
                          subst hr1
                          have hblmem : bl ∈ m.gpu_allocator.free_blocks := by
                            rw [← List.dropLast_append_getLast? bl hgl]
                            simp
                          have hblpool : PoolG m bl := v.gpuFreePool bl hblmem
                          have hblon : onFreeList m bl := by
                            unfold onFreeList
                            rw [hblpool.1]
                            exact hblmem
                          have hblzero : m.refs.get bl = 0 :=
                            (v.freeIff bl (Or.inl hblpool)).mp hblon
                          have hcnt0 : bt.count bl = 0 := by
                            have hc1 := count_le_tableOccs m.block_tables
                              s.seq_id bt bl hbtmem
                            have hc2 := v.refOcc bl (Or.inl hblpool)
                            omega
                          have hnlast : bl ≠ last := by
                            intro hc
                            rw [hc] at hblzero
                            exact hlastpos hblzero
                          have hncell : ¬ sameCell bl last := by
                            intro hc
                            exact hnlast
                              (poolBlock_cell_eq (Or.inl hblpool) hlastpool hc)
                          have hget_last : (m.refs.set bl 1).get last =
                              m.refs.get last := by
                            rw [RefStore.get_set, if_neg]
                            intro hc
                            exact hncell ⟨hc.1.symm, hc.2.1.symm⟩
                          have hge2 : 2 ≤ m.refs.get last := by
                            rcases Nat.lt_or_ge (m.refs.get last) 2 with hx | hx
                            · exfalso
                              have hcase : m.refs.get last = 0 ∨
                                  m.refs.get last = 1 := by omega
                              rcases hcase with h0 | h0
                              · exact hlastpos h0
                              · exact h1 h0
                            · exact hx
                          obtain ⟨ha2, hr2⟩ : a2 = { m.gpu_allocator with
                              free_blocks := m.gpu_allocator.free_blocks.dropLast }
                              ∧ r2 = (m.refs.set bl 1).set last
                                (m.refs.get last - 1) := by
                            simp only [BlockManager.free, hget_last] at hfree
                            rw [if_neg hlastpos, if_neg (by omega)] at hfree
                            injection hfree with hfree
                            exact ⟨(congrArg Prod.fst hfree).symm,
                                   (congrArg Prod.snd hfree).symm⟩
                          subst ha2
                          subst hr2
                          subst hm'
                          have hbtsplit : bt.dropLast ++ [last] = bt :=
                            List.dropLast_append_getLast? last hlast
                          have hinr_last : m.refs.inRange last := v.inRange hlastpool
                          have hinr_bl : m.refs.inRange bl :=
                            v.inRange (Or.inl hblpool)
                          have hr2last : ((m.refs.set bl 1).set last
                              (m.refs.get last - 1)).get last =
                              m.refs.get last - 1 := by
                            rw [RefStore.get_set, if_pos ⟨rfl, rfl,
                              (RefStore.inRange_set _ _ _ _).mpr hinr_last⟩]
                          have hr2bl : ((m.refs.set bl 1).set last
                              (m.refs.get last - 1)).get bl = 1 := by
                            rw [RefStore.get_set, if_neg
                              (fun hc => hncell ⟨hc.1, hc.2.1⟩),
                              RefStore.get_set, if_pos ⟨rfl, rfl, hinr_bl⟩]
                          have hr2other : ∀ b, PoolBlock m b → b ≠ last → b ≠ bl →
                              ((m.refs.set bl 1).set last
                                (m.refs.get last - 1)).get b = m.refs.get b := by
                            intro b hb hbl1 hbl2
                            rw [RefStore.get_set, if_neg, RefStore.get_set, if_neg]
                            · intro hc
                              exact hbl2 (poolBlock_cell_eq hb (Or.inl hblpool)
                                ⟨hc.1, hc.2.1⟩)
                            · intro hc
                              exact hbl1 (poolBlock_cell_eq hb hlastpool
                                ⟨hc.1, hc.2.1⟩)
                          have hcnt_last : bt.count last =
                              bt.dropLast.count last + 1 := by
                            conv_lhs => rw [← hbtsplit]
                            rw [List.count_append]
                            simp
                          have hcnew_last : (bt.dropLast ++ [bl]).count last =
                              bt.dropLast.count last := by
                            rw [List.count_append]
                            simp [List.count_singleton, hnlast,
                              fun hc : last = bl => hnlast hc.symm]
                          have hdlcnt_bl : bt.dropLast.count bl = 0 := by
                            have hsub : bt.dropLast.count bl ≤ bt.count bl := by
                              conv_rhs => rw [← hbtsplit]
                              rw [List.count_append]
                              omega
                            omega
                          have hcnew_bl : (bt.dropLast ++ [bl]).count bl = 1 := by
                            rw [List.count_append, hdlcnt_bl]
                            simp
                          have hlastFL : last ∉ m.gpu_allocator.free_blocks := by
                            intro hc
                            have : onFreeList m last := by
                              unfold onFreeList
                              rw [hdev]
                              exact hc
                            exact hlastpos ((v.freeIff last hlastpool).mp this)
                          have hsplitF := List.dropLast_append_getLast? bl hgl
                          have hblnotdl : bl ∉ m.gpu_allocator.free_blocks.dropLast := by
                            intro hc
                            have hnd2 := v.gpuFreeNodup
                            rw [← hsplitF, List.nodup_append] at hnd2
                            exact hnd2.2.2 hc (List.mem_singleton.mpr rfl)
                          refine ⟨?_, ?_, ?_, v.cpuFreePool, ?_, v.cpuFreeNodup,
                            ?_, ?_, ?_, ?_⟩
                          · show ((m.refs.set bl 1).set last
                                (m.refs.get last - 1)).gpu.length =
                              m.gpu_allocator.num_blocks
                            rw [RefStore.gpu_length_set, RefStore.gpu_length_set]
                            exact v.gpuRefLen
                          · show ((m.refs.set bl 1).set last
                                (m.refs.get last - 1)).cpu.length =
                              m.cpu_allocator.num_blocks
                            rw [RefStore.cpu_length_set, RefStore.cpu_length_set]
                            exact v.cpuRefLen
                          · intro b hb
                            exact v.gpuFreePool b
                              (List.Sublist.mem hb (List.dropLast_sublist _))
                          · exact List.Sublist.nodup (List.dropLast_sublist _)
                              v.gpuFreeNodup
                          · intro p hp b hb
                            rcases aset_mem _ _ _ p hp with hp1 | hp1
                            · rw [hp1] at hb
                              rcases List.mem_append.mp hb with h2 | h2
                              · exact hbtpool b
                                  (List.Sublist.mem h2 (List.dropLast_sublist _))
                              · rw [List.mem_singleton] at h2
                                subst h2
                                exact Or.inl hblpool
                            · exact v.tablesPool p hp1 b hb
                          · show ((aset m.block_tables s.seq_id
                                (bt.dropLast ++ [bl])).map Prod.fst).Nodup
                            rw [keys_aset_of_mem _ _ _ hkeysmem]
                            exact v.keysNodup
                          · intro b hb
                            show ((m.refs.set bl 1).set last
                                (m.refs.get last - 1)).get b =
                              tableOccs (aset m.block_tables s.seq_id
                                (bt.dropLast ++ [bl])) b
                            have hocc := tableOccs_aset m.block_tables s.seq_id
                              (bt.dropLast ++ [bl]) bt b v.keysNodup hbt
                            by_cases hbb : b = last
                            · subst hbb
                              rw [hr2last]
                              have hro := v.refOcc b hb
                              rw [hcnew_last] at hocc
                              omega
                            · by_cases hbb2 : b = bl
                              · subst hbb2
                                rw [hr2bl]
                                have hro := v.refOcc b (Or.inl hblpool)
                                rw [hcnew_bl] at hocc
                                omega
                              · rw [hr2other b hb hbb hbb2]
                                have hro := v.refOcc b hb
                                have hceq : (bt.dropLast ++ [bl]).count b =
                                    bt.count b := by
                                  conv_rhs => rw [← hbtsplit]
                                  rw [List.count_append, List.count_append]
                                  simp [List.count_singleton,
                                    fun hc : b = bl => hbb2 hc,
                                    fun hc : b = last => hbb hc]
                                rw [hceq] at hocc
                                omega
                          · intro b hb
                            show onFreeList { m with
                                gpu_allocator := { m.gpu_allocator with
                                  free_blocks :=
                                    m.gpu_allocator.free_blocks.dropLast }
                                refs := (m.refs.set bl 1).set last
                                  (m.refs.get last - 1)
                                block_tables := aset m.block_tables s.seq_id
                                  (bt.dropLast ++ [bl]) } b ↔
                              ((m.refs.set bl 1).set last
                                (m.refs.get last - 1)).get b = 0
                            by_cases hbb : b = last
                            · subst hbb
                              refine iff_of_false ?_ ?_
                              · unfold onFreeList
                                rw [hdev]
                                intro hc
                                exact hlastFL
                                  (List.Sublist.mem hc (List.dropLast_sublist _))
                              · rw [hr2last]
                                omega
                            · by_cases hbb2 : b = bl
                              · subst hbb2
                                refine iff_of_false ?_ ?_
                                · unfold onFreeList
                                  rw [hblpool.1]
                                  exact hblnotdl
                                · rw [hr2bl]
                                  omega
                              · rw [hr2other b hb hbb hbb2]
                                have hIff := v.freeIff b hb
                                unfold onFreeList at hIff ⊢
                                cases hdev2 : b.device with
                                | GPU =>
                                    rw [hdev2] at hIff
                                    rw [← hIff]
                                    constructor
                                    · intro hmem
                                      exact List.Sublist.mem hmem
                                        (List.dropLast_sublist _)
                                    · intro hmem
                                      rw [← hsplitF, List.mem_append,
                                        List.mem_singleton] at hmem
                                      rcases hmem with h2 | h2
                                      · exact h2
                                      · exact absurd h2 hbb2
                                | CPU =>
                                    rw [hdev2] at hIff
                                    exact hIff

/-! ### The swap loops: characterization and invariant preservation -/

theorem blookup_mem (mp : List (PhysicalTokenBlock × PhysicalTokenBlock))
    (k v : PhysicalTokenBlock) (h : blookup mp k = some v) : (k, v) ∈ mp := by
  induction mp with
  | nil => simp [blookup] at h
  | cons p rest ih =>
      cases p with
      | mk pk pv =>
        by_cases hk : pk = k
        · subst hk
          simp only [blookup, eq_self_iff_true, if_true, Option.some.injEq] at h
          subst h
          exact List.mem_cons_self _ _
        · simp only [blookup, if_neg hk] at h
          exact List.mem_cons_of_mem _ (ih h)

theorem blookup_eq_none_iff (mp : List (PhysicalTokenBlock × PhysicalTokenBlock))
    (k : PhysicalTokenBlock) : blookup mp k = none ↔ k ∉ mp.map Prod.fst := by
  induction mp with
  | nil => simp [blookup]
  | cons p rest ih =>
      cases p with
      | mk pk pv =>
        by_cases hk : pk = k <;> simp [blookup, hk, ih, Ne.symm]

theorem blookup_append_some (mp new : List (PhysicalTokenBlock × PhysicalTokenBlock))
    (k v : PhysicalTokenBlock) (h : blookup mp k = some v) :
    blookup (mp ++ new) k = some v := by
  induction mp with
  | nil => simp [blookup] at h
  | cons p rest ih =>
      cases p with
      | mk pk pv =>
        by_cases hk : pk = k
        · subst hk
          simp only [blookup, eq_self_iff_true, if_true, Option.some.injEq] at h
          simp [blookup, h]
        · simp only [blookup, if_neg hk] at h ⊢
          exact ih h

theorem blookup_append_singleton
    (mp : List (PhysicalTokenBlock × PhysicalTokenBlock))
    (k v : PhysicalTokenBlock) (h : blookup mp k = none) :
    blookup (mp ++ [(k, v)]) k = some v := by
  induction mp with
  | nil => simp [blookup]
  | cons p rest ih =>
      cases p with
      | mk pk pv =>
        by_cases hk : pk = k
        · subst hk
          simp [blookup] at h
        · simp only [blookup, if_neg hk] at h ⊢
          exact ih h

/-- The evolving state of the `swap_in` / `swap_out` loops. -/
structure SwapState where
  dstA : BlockManager
  srcA : BlockManager
  r : RefStore
  mp : List (PhysicalTokenBlock × PhysicalTokenBlock)

/-- The pool context of a swap: which blocks belong to the destination and
source pools, with cells determining pool blocks uniquely. -/
structure PoolCtx where
  PD : PhysicalTokenBlock → Prop
  PS : PhysicalTokenBlock → Prop
  cellD : ∀ b b', PD b → PD b' → sameCell b b' → b = b'
  cellS : ∀ b b', PS b → PS b' → sameCell b b' → b = b'
  disj : ∀ b b', PD b → PS b' → ¬ sameCell b b'

/-- Invariant carried through the swap loops. -/
structure SwapInv (ctx : PoolCtx) (S : SwapState) : Prop where
  dstPool : ∀ b ∈ S.dstA.free_blocks, ctx.PD b
  srcPool : ∀ b ∈ S.srcA.free_blocks, ctx.PS b
  dstNodup : S.dstA.free_blocks.Nodup
  srcNodup : S.srcA.free_blocks.Nodup
  ffD : ∀ b, ctx.PD b → (b ∈ S.dstA.free_blocks ↔ S.r.get b = 0)
  ffS : ∀ b, ctx.PS b → (b ∈ S.srcA.free_blocks ↔ S.r.get b = 0)
  mpTyped : ∀ p ∈ S.mp, ctx.PS p.1 ∧ ctx.PD p.2
  mpKeysNodup : (S.mp.map Prod.fst).Nodup
  mpValsNodup : (S.mp.map Prod.snd).Nodup
  mpValsPos : ∀ p ∈ S.mp, S.r.get p.2 ≠ 0
  inrD : ∀ b, ctx.PD b → S.r.inRange b
  inrS : ∀ b, ctx.PS b → S.r.inRange b

theorem inRange_congr_len {r r' : RefStore}
    (hg : r'.gpu.length = r.gpu.length) (hc : r'.cpu.length = r.cpu.length)
    (b : PhysicalTokenBlock) : r'.inRange b ↔ r.inRange b := by
  cases b with
  | mk d n sz =>
      cases d <;> unfold RefStore.inRange <;> simp only [hg, hc]

/-- Full characterization of a successful `BlockManager.free`. -/
theorem free_char (a : BlockManager) (r : RefStore) (b : PhysicalTokenBlock)
    (a' : BlockManager) (r' : RefStore)
    (h : a.free r b = some (a', r')) :
    r.get b ≠ 0 ∧ r' = r.set b (r.get b - 1) ∧
      ((r.get b = 1 ∧ a' = { a with free_blocks := a.free_blocks ++ [b] }) ∨
       (r.get b ≠ 1 ∧ a' = a)) := by
  by_cases h0 : r.get b = 0
  · simp [BlockManager.free, h0] at h
  · simp only [BlockManager.free, if_neg h0] at h
    by_cases h1 : r.get b - 1 = 0
    · rw [if_pos h1] at h
      injection h with h
      exact ⟨h0, (congrArg Prod.snd h).symm,
        Or.inl ⟨by omega, (congrArg Prod.fst h).symm⟩⟩
    · rw [if_neg h1] at h
      injection h with h
      exact ⟨h0, (congrArg Prod.snd h).symm,
        Or.inr ⟨by omega, (congrArg Prod.fst h).symm⟩⟩

/-- Full characterization of a successful `BlockManager.allocate`. -/
theorem allocate_char (a : BlockManager) (r : RefStore)
    (b : PhysicalTokenBlock) (a' : BlockManager) (r' : RefStore)
    (h : a.allocate r = some (b, a', r')) :
    a.free_blocks.getLast? = some b ∧
    a' = { a with free_blocks := a.free_blocks.dropLast } ∧
    r' = r.set b 1 ∧ b ∈ a.free_blocks := by
  cases hgl : a.free_blocks.getLast? with
  | none => simp [BlockManager.allocate, hgl] at h
  | some bl =>
      simp only [BlockManager.allocate, hgl, Option.some.injEq,
        Prod.mk.injEq] at h
      obtain ⟨h1, h2, h3⟩ := h
      subst h1
      refine ⟨rfl, h2.symm, h3.symm, ?_⟩
      rw [← List.dropLast_append_getLast? bl hgl]
      simp

theorem RefStore.get_set_ne (r : RefStore) (b : PhysicalTokenBlock) (v : Nat)
    (b' : PhysicalTokenBlock) (h : ¬ sameCell b' b) :
    (r.set b v).get b' = r.get b' := by
  rw [RefStore.get_set, if_neg]
  intro hc
  exact h ⟨hc.1, hc.2.1⟩

theorem RefStore.get_set_self_of_inRange (r : RefStore) (b : PhysicalTokenBlock)
    (v : Nat) (h : r.inRange b) : (r.set b v).get b = v := by
  rw [RefStore.get_set, if_pos ⟨rfl, rfl, h⟩]

/-- Two distinct blocks of the two pools of a swap occupy distinct cells. -/
theorem pool_cell_distinct (ctx : PoolCtx) {b b' : PhysicalTokenBlock}
    (h1 : ctx.PD b ∨ ctx.PS b) (h2 : ctx.PD b' ∨ ctx.PS b')
    (hne : b ≠ b') : ¬ sameCell b b' := by
  intro hc
  rcases h1 with h1 | h1 <;> rcases h2 with h2 | h2
  · exact hne (ctx.cellD _ _ h1 h2 hc)
  · exact ctx.disj _ _ h1 h2 hc
  · exact ctx.disj _ _ h2 h1 (sameCell_symm hc)
  · exact hne (ctx.cellS _ _ h1 h2 hc)

/-- Reference counts after one swap step, in the normal form
`(r.set nb w).set b (r.get b - 1)`, evaluated at any pool block. -/
theorem swap_refs_get (ctx : PoolCtx) (r : RefStore) (b nb : PhysicalTokenBlock)
    (w : Nat) (hb : ctx.PS b) (hnb : ctx.PD nb)
    (hinrb : r.inRange b) (hinrn : r.inRange nb)
    (b' : PhysicalTokenBlock) (hb' : ctx.PD b' ∨ ctx.PS b') :
    ((r.set nb w).set b (r.get b - 1)).get b' =
      if b' = b then r.get b - 1 else if b' = nb then w else r.get b' := by
  by_cases hbb : b' = b
  · subst hbb
    rw [if_pos rfl]
    exact RefStore.get_set_self_of_inRange _ _ _
      ((RefStore.inRange_set r nb w b').mpr hinrb)
  · rw [if_neg hbb,
      RefStore.get_set_ne _ _ _ _ (pool_cell_distinct ctx hb' (Or.inr hb) hbb)]
    by_cases hbn : b' = nb
    · subst hbn
      rw [if_pos rfl]
      exact RefStore.get_set_self_of_inRange _ _ _ hinrn
    · rw [if_neg hbn,
        RefStore.get_set_ne _ _ _ _ (pool_cell_distinct ctx hb' (Or.inl hnb) hbn)]

theorem getLast?_nodup_not_mem_dropLast {l : List PhysicalTokenBlock}
    {b : PhysicalTokenBlock} (hnd : l.Nodup) (h : l.getLast? = some b) :
    b ∉ l.dropLast := by
  rw [← List.dropLast_append_getLast? b h] at hnd
  rcases List.nodup_append.mp hnd with ⟨_, _, hdisj⟩
  intro hc
  exact hdisj hc (by simp)

/-- Full characterization of a successful `swapBlock` step under the loop
invariant: the invariant is preserved, the result block is a destination
pool block recorded in the mapping, the mapping only grows, and exactly
one reference moves from the source block to its image. -/
theorem swapBlock_char (ctx : PoolCtx) (S : SwapState) (b : PhysicalTokenBlock)
    (nb : PhysicalTokenBlock) (dstA' srcA' : BlockManager) (r' : RefStore)
    (mp' : List (PhysicalTokenBlock × PhysicalTokenBlock))
    (hinv : SwapInv ctx S) (hbS : ctx.PS b)
    (h : swapBlock S.dstA S.srcA S.r S.mp b = some (nb, dstA', srcA', r', mp')) :
    SwapInv ctx ⟨dstA', srcA', r', mp'⟩ ∧
    ctx.PD nb ∧
    blookup mp' b = some nb ∧
    (∀ k v, blookup S.mp k = some v → blookup mp' k = some v) ∧
    (∃ new, mp' = S.mp ++ new) ∧
    (∀ b', ctx.PD b' ∨ ctx.PS b' →
      r'.get b' + (if b' = b then 1 else 0) =
      S.r.get b' + (if b' = nb then 1 else 0)) ∧
    r'.gpu.length = S.r.gpu.length ∧ r'.cpu.length = S.r.cpu.length ∧
    dstA'.num_blocks = S.dstA.num_blocks ∧
    srcA'.num_blocks = S.srcA.num_blocks ∧
    (∀ p ∈ mp', p ∈ S.mp ∨ S.r.get p.2 = 0) := by
  have hinrb : S.r.inRange b := hinv.inrS b hbS
  unfold swapBlock at h
  split at h
  next nb0 hlk =>
    simp only [] at h
    split at h
    next heq => exact absurd h (by simp)
    next srcA1 r2 heq =>
      simp only [Option.some.injEq, Prod.mk.injEq] at h
      obtain ⟨he1, he2, he3, he4, he5⟩ := h
      subst he1; subst he2; subst he3; subst he4; subst he5
      have hmem : (b, nb0) ∈ S.mp := blookup_mem _ _ _ hlk
      have hPDnb : ctx.PD nb0 := (hinv.mpTyped _ hmem).2
      have hinrn : S.r.inRange nb0 := hinv.inrD _ hPDnb
      have hncell : ¬ sameCell b nb0 :=
        fun hc => ctx.disj _ _ hPDnb hbS (sameCell_symm hc)
      have hnbb : b ≠ nb0 := by
        intro hc
        exact hncell ⟨by rw [hc], by rw [hc]⟩
      have hnb0pos : S.r.get nb0 ≠ 0 := hinv.mpValsPos _ hmem
      have hfc := free_char _ _ _ _ _ heq
      have hr1b : (S.r.set nb0 (S.r.get nb0 + 1)).get b = S.r.get b :=
        RefStore.get_set_ne _ _ _ _ hncell
      have hgb0 : S.r.get b ≠ 0 := by
        have := hfc.1
        rw [hr1b] at this
        exact this
      have hr2 : r2 = (S.r.set nb0 (S.r.get nb0 + 1)).set b (S.r.get b - 1) := by
        rw [hfc.2.1, hr1b]
      have hget : ∀ b', ctx.PD b' ∨ ctx.PS b' →
          r2.get b' = if b' = b then S.r.get b - 1
            else if b' = nb0 then S.r.get nb0 + 1 else S.r.get b' := by
        intro b' hb'
        rw [hr2]
        exact swap_refs_get ctx S.r b nb0 _ hbS hPDnb hinrb hinrn b' hb'
      have hglen : r2.gpu.length = S.r.gpu.length := by
        rw [hr2]
        simp [RefStore.gpu_length_set]
      have hclen : r2.cpu.length = S.r.cpu.length := by
        rw [hr2]
        simp [RefStore.cpu_length_set]
      have hbnotfree : b ∉ S.srcA.free_blocks := by
        intro hc
        exact hgb0 ((hinv.ffS b hbS).mp hc)
      have hsrcfb : (S.r.get b = 1 ∧
            srcA1.free_blocks = S.srcA.free_blocks ++ [b]) ∨
          (S.r.get b ≠ 1 ∧ srcA1.free_blocks = S.srcA.free_blocks) := by
        rcases hfc.2.2 with ⟨h1, h2⟩ | ⟨h1, h2⟩
        · rw [hr1b] at h1
          exact Or.inl ⟨h1, by rw [h2]⟩
        · rw [hr1b] at h1
          exact Or.inr ⟨h1, by rw [h2]⟩
      have hmemsrc : ∀ b', b' ∈ srcA1.free_blocks ↔
          (b' ∈ S.srcA.free_blocks ∨ (S.r.get b = 1 ∧ b' = b)) := by
        intro b'
        rcases hsrcfb with ⟨h1, h2⟩ | ⟨h1, h2⟩ <;> rw [h2]
        · simp [List.mem_append, h1]
        · simp [List.mem_append, h1]
      have hsrcnum : srcA1.num_blocks = S.srcA.num_blocks := by
        rcases hfc.2.2 with ⟨_, h2⟩ | ⟨_, h2⟩ <;> rw [h2]
      refine ⟨?_, hPDnb, hlk, fun k v hv => hv, ⟨[], by simp⟩, ?_,
        hglen, hclen, rfl, hsrcnum, fun p hp => Or.inl hp⟩
      · refine ⟨hinv.dstPool, ?_, hinv.dstNodup, ?_, ?_, ?_,
          hinv.mpTyped, hinv.mpKeysNodup, hinv.mpValsNodup, ?_, ?_, ?_⟩
        · -- srcPool
          intro b' hb'
          rcases (hmemsrc b').mp hb' with h1 | ⟨_, h1⟩
          · exact hinv.srcPool _ h1
          · rw [h1]; exact hbS
        · -- srcNodup
          rcases hsrcfb with ⟨_, h2⟩ | ⟨_, h2⟩ <;> rw [h2]
          · refine List.nodup_append.mpr ⟨hinv.srcNodup, List.nodup_singleton _, ?_⟩
            intro a ha hc
            rw [List.mem_singleton.mp hc] at ha
            exact hbnotfree ha
          · exact hinv.srcNodup
        · -- ffD
          intro b'' hPD''
          have hne : b'' ≠ b := by
            intro hc
            exact ctx.disj _ _ hPD'' hbS ⟨by rw [hc], by rw [hc]⟩
          by_cases hsc : b'' = nb0
          · subst hsc
            rw [hget b'' (Or.inl hPD''), if_neg hne, if_pos rfl]
            constructor
            · intro hc
              exact absurd ((hinv.ffD b'' hPD'').mp hc) hnb0pos
            · intro hc
              omega
          · rw [hget b'' (Or.inl hPD''), if_neg hne, if_neg hsc]
            exact hinv.ffD b'' hPD''
        · -- ffS
          intro b'' hPS''
          have hne2 : b'' ≠ nb0 := by
            intro hc
            exact ctx.disj nb0 nb0 hPDnb (hc ▸ hPS'') ⟨rfl, rfl⟩
          by_cases hsc : b'' = b
          · subst hsc
            rw [hget b'' (Or.inr hPS''), if_pos rfl]
            rcases hsrcfb with ⟨h1, _⟩ | ⟨h1, _⟩
            · refine iff_of_true ((hmemsrc b'').mpr (Or.inr ⟨h1, rfl⟩)) (by omega)
            · refine iff_of_false ?_ (by omega)
              intro hc
              rcases (hmemsrc b'').mp hc with h2 | ⟨h2, _⟩
              · exact hbnotfree h2
              · exact h1 h2
          · rw [hget b'' (Or.inr hPS''), if_neg hsc, if_neg hne2]
            have h1 : b'' ∈ srcA1.free_blocks ↔ b'' ∈ S.srcA.free_blocks := by
              rw [hmemsrc b'']
              simp [hsc]
            rw [h1]
            exact hinv.ffS b'' hPS''
        · -- mpValsPos
          intro p hp
          have hPD2 : ctx.PD p.2 := (hinv.mpTyped p hp).2
          have hne : p.2 ≠ b := by
            intro hc
            exact ctx.disj _ _ hPD2 hbS ⟨by rw [hc], by rw [hc]⟩
          rw [hget p.2 (Or.inl hPD2), if_neg hne]
          by_cases hsc : p.2 = nb0
          · rw [if_pos hsc]
            omega
          · rw [if_neg hsc]
            exact hinv.mpValsPos p hp
        · -- inrD
          intro b0 h0
          exact (inRange_congr_len hglen hclen b0).mpr (hinv.inrD b0 h0)
        · -- inrS
          intro b0 h0
          exact (inRange_congr_len hglen hclen b0).mpr (hinv.inrS b0 h0)
      · -- count equation
        intro b' hb'
        rw [hget b' hb']
        by_cases h1 : b' = b
        · subst h1
          rw [if_pos rfl, if_pos rfl, if_neg hnbb]
          omega
        · rw [if_neg h1, if_neg h1]
          by_cases h2 : b' = nb0
          · subst h2
            rw [if_pos rfl, if_pos rfl]
          · rw [if_neg h2, if_neg h2]
  next hlk =>
    split at h
    next heq1 => exact absurd h (by simp)
    next nb0 dstA1 r1 heq1 =>
      split at h
      next heq2 => exact absurd h (by simp)
      next srcA1 r2 heq2 =>
        simp only [Option.some.injEq, Prod.mk.injEq] at h
        obtain ⟨he1, he2, he3, he4, he5⟩ := h
        subst he1; subst he2; subst he3; subst he4; subst he5
        have hac := allocate_char _ _ _ _ _ heq1
        obtain ⟨hgl0, hdst1, hr1, hmemf⟩ := hac
        have hPDnb : ctx.PD nb0 := hinv.dstPool _ hmemf
        have hinrn : S.r.inRange nb0 := hinv.inrD _ hPDnb
        have hge0 : S.r.get nb0 = 0 := (hinv.ffD _ hPDnb).mp hmemf
        have hncell : ¬ sameCell b nb0 :=
          fun hc => ctx.disj _ _ hPDnb hbS (sameCell_symm hc)
        have hnbb : b ≠ nb0 := by
          intro hc
          exact hncell ⟨by rw [hc], by rw [hc]⟩
        have hfc := free_char _ _ _ _ _ heq2
        have hr1b : r1.get b = S.r.get b := by
          rw [hr1]
          exact RefStore.get_set_ne _ _ _ _ hncell
        have hgb0 : S.r.get b ≠ 0 := by
          have := hfc.1
          rw [hr1b] at this
          exact this
        have hr2 : r2 = (S.r.set nb0 1).set b (S.r.get b - 1) := by
          rw [hfc.2.1, hr1b, hr1]
        have hget : ∀ b', ctx.PD b' ∨ ctx.PS b' →
            r2.get b' = if b' = b then S.r.get b - 1
              else if b' = nb0 then 1 else S.r.get b' := by
          intro b' hb'
          rw [hr2]
          exact swap_refs_get ctx S.r b nb0 1 hbS hPDnb hinrb hinrn b' hb'
        have hglen : r2.gpu.length = S.r.gpu.length := by
          rw [hr2]
          simp [RefStore.gpu_length_set]
        have hclen : r2.cpu.length = S.r.cpu.length := by
          rw [hr2]
          simp [RefStore.cpu_length_set]
        have hbkeys : b ∉ S.mp.map Prod.fst := (blookup_eq_none_iff _ _).mp hlk
        have hnbvals : nb0 ∉ S.mp.map Prod.snd := by
          intro hc
          obtain ⟨p, hp, hpe⟩ := List.mem_map.mp hc
          have := hinv.mpValsPos p hp
          rw [hpe] at this
          exact this hge0
        have hdstfb : dstA1.free_blocks = S.dstA.free_blocks.dropLast := by
          rw [hdst1]
        have hfreeeq : S.dstA.free_blocks =
            S.dstA.free_blocks.dropLast ++ [nb0] :=
          (List.dropLast_append_getLast? nb0 hgl0).symm
        have hnotdl : nb0 ∉ S.dstA.free_blocks.dropLast :=
          getLast?_nodup_not_mem_dropLast hinv.dstNodup hgl0
        have hbnotfree : b ∉ S.srcA.free_blocks := by
          intro hc
          exact hgb0 ((hinv.ffS b hbS).mp hc)
        have hsrcfb : (S.r.get b = 1 ∧
              srcA1.free_blocks = S.srcA.free_blocks ++ [b]) ∨
            (S.r.get b ≠ 1 ∧ srcA1.free_blocks = S.srcA.free_blocks) := by
          rcases hfc.2.2 with ⟨h1, h2⟩ | ⟨h1, h2⟩
          · rw [hr1b] at h1
            exact Or.inl ⟨h1, by rw [h2]⟩
          · rw [hr1b] at h1
            exact Or.inr ⟨h1, by rw [h2]⟩
        have hmemsrc : ∀ b', b' ∈ srcA1.free_blocks ↔
            (b' ∈ S.srcA.free_blocks ∨ (S.r.get b = 1 ∧ b' = b)) := by
          intro b'
          rcases hsrcfb with ⟨h1, h2⟩ | ⟨h1, h2⟩ <;> rw [h2]
          · simp [List.mem_append, h1]
          · simp [List.mem_append, h1]
        have hsrcnum : srcA1.num_blocks = S.srcA.num_blocks := by
          rcases hfc.2.2 with ⟨_, h2⟩ | ⟨_, h2⟩ <;> rw [h2]
        have hdstnum : dstA1.num_blocks = S.dstA.num_blocks := by
          rw [hdst1]
        refine ⟨?_, hPDnb, blookup_append_singleton _ _ _ hlk,
          fun k v hv => blookup_append_some _ _ _ _ hv,
          ⟨[(b, nb0)], rfl⟩, ?_, hglen, hclen, hdstnum, hsrcnum, ?_⟩
        · refine ⟨?_, ?_, ?_, ?_, ?_, ?_, ?_, ?_, ?_, ?_, ?_, ?_⟩
          · -- dstPool
            intro b' hb'
            rw [hdstfb] at hb'
            exact hinv.dstPool _ ((List.dropLast_sublist _).subset hb')
          · -- srcPool
            intro b' hb'
            rcases (hmemsrc b').mp hb' with h1 | ⟨_, h1⟩
            · exact hinv.srcPool _ h1
            · rw [h1]; exact hbS
          · -- dstNodup
            rw [hdstfb]
            exact hinv.dstNodup.sublist (List.dropLast_sublist _)
          · -- srcNodup
            rcases hsrcfb with ⟨_, h2⟩ | ⟨_, h2⟩ <;> rw [h2]
            · refine List.nodup_append.mpr
                ⟨hinv.srcNodup, List.nodup_singleton _, ?_⟩
              intro a ha hc
              rw [List.mem_singleton.mp hc] at ha
              exact hbnotfree ha
            · exact hinv.srcNodup
          · -- ffD
            intro b'' hPD''
            have hne : b'' ≠ b := by
              intro hc
              exact ctx.disj _ _ hPD'' hbS ⟨by rw [hc], by rw [hc]⟩
            by_cases hsc : b'' = nb0
            · subst hsc
              rw [hget b'' (Or.inl hPD''), if_neg hne, if_pos rfl, hdstfb]
              exact iff_of_false hnotdl (by omega)
            · have h1 : b'' ∈ dstA1.free_blocks ↔ b'' ∈ S.dstA.free_blocks := by
                rw [hdstfb]
                conv_rhs => rw [hfreeeq]
                simp [List.mem_append, hsc]
              rw [h1, hget b'' (Or.inl hPD''), if_neg hne, if_neg hsc]
              exact hinv.ffD b'' hPD''
          · -- ffS
            intro b'' hPS''
            have hne2 : b'' ≠ nb0 := by
              intro hc
              exact ctx.disj nb0 nb0 hPDnb (hc ▸ hPS'') ⟨rfl, rfl⟩
            by_cases hsc : b'' = b
            · subst hsc
              rw [hget b'' (Or.inr hPS''), if_pos rfl]
              rcases hsrcfb with ⟨h1, _⟩ | ⟨h1, _⟩
              · refine iff_of_true ((hmemsrc b'').mpr (Or.inr ⟨h1, rfl⟩))
                  (by omega)
              · refine iff_of_false ?_ (by omega)
                intro hc
                rcases (hmemsrc b'').mp hc with h2 | ⟨h2, _⟩
                · exact hbnotfree h2
                · exact h1 h2
            · rw [hget b'' (Or.inr hPS''), if_neg hsc, if_neg hne2]
              have h1 : b'' ∈ srcA1.free_blocks ↔ b'' ∈ S.srcA.free_blocks := by
                rw [hmemsrc b'']
                simp [hsc]
              rw [h1]
              exact hinv.ffS b'' hPS''
          · -- mpTyped
            intro p hp
            rcases List.mem_append.mp hp with h1 | h1
            · exact hinv.mpTyped p h1
            · rw [List.mem_singleton.mp h1]
              exact ⟨hbS, hPDnb⟩
          · -- mpKeysNodup
            have hmk : (S.mp ++ [(b, nb0)]).map Prod.fst =
                S.mp.map Prod.fst ++ [b] := by simp
            rw [hmk]
            refine List.nodup_append.mpr
              ⟨hinv.mpKeysNodup, List.nodup_singleton _, ?_⟩
            intro a ha hc
            rw [List.mem_singleton.mp hc] at ha
            exact hbkeys ha
          · -- mpValsNodup
            have hmv : (S.mp ++ [(b, nb0)]).map Prod.snd =
                S.mp.map Prod.snd ++ [nb0] := by simp
            rw [hmv]
            refine List.nodup_append.mpr
              ⟨hinv.mpValsNodup, List.nodup_singleton _, ?_⟩
            intro a ha hc
            rw [List.mem_singleton.mp hc] at ha
            exact hnbvals ha
          · -- mpValsPos
            intro p hp
            rcases List.mem_append.mp hp with h1 | h1
            · have hPD2 : ctx.PD p.2 := (hinv.mpTyped p h1).2
              have hne : p.2 ≠ b := by
                intro hc
                exact ctx.disj _ _ hPD2 hbS ⟨by rw [hc], by rw [hc]⟩
              have hne2 : p.2 ≠ nb0 := by
                intro hc
                exact hnbvals (hc ▸ List.mem_map_of_mem Prod.snd h1)
              rw [hget p.2 (Or.inl hPD2), if_neg hne, if_neg hne2]
              exact hinv.mpValsPos p h1
            · rw [List.mem_singleton.mp h1]
              rw [hget nb0 (Or.inl hPDnb), if_neg (Ne.symm hnbb), if_pos rfl]
              omega
          · -- inrD
            intro b0 h0
            exact (inRange_congr_len hglen hclen b0).mpr (hinv.inrD b0 h0)
          · -- inrS
            intro b0 h0
            exact (inRange_congr_len hglen hclen b0).mpr (hinv.inrS b0 h0)
        · -- count equation
          intro b' hb'
          rw [hget b' hb']
          by_cases h1 : b' = b
          · subst h1
            rw [if_pos rfl, if_pos rfl, if_neg hnbb]
            omega
          · rw [if_neg h1, if_neg h1]
            by_cases h2 : b' = nb0
            · subst h2
              rw [if_pos rfl, if_pos rfl]
              omega
            · rw [if_neg h2, if_neg h2]
        · intro p hp
          rcases List.mem_append.mp hp with h1 | h1
          · exact Or.inl h1
          · rw [List.mem_singleton.mp h1]
            exact Or.inr hge0

theorem count_cons_ite (a b : PhysicalTokenBlock) (l : List PhysicalTokenBlock) :
    (b :: l).count a = l.count a + (if a = b then 1 else 0) := by
  by_cases h : a = b
  · subst h
    simp [List.count_cons]
  · simp [List.count_cons, h, Ne.symm h]

/-- Characterization of the walk of one block table inside a swap: the
loop invariant is preserved, the rebuilt table is the image of the old one
under the final mapping, and references move block-wise from the old table
to the new one. -/
theorem swapTable_char (ctx : PoolCtx) : ∀ (bs : List PhysicalTokenBlock)
    (dstA srcA : BlockManager) (r : RefStore)
    (mp : List (PhysicalTokenBlock × PhysicalTokenBlock))
    (nt : List PhysicalTokenBlock) (dstA' srcA' : BlockManager) (r' : RefStore)
    (mp' : List (PhysicalTokenBlock × PhysicalTokenBlock)),
    SwapInv ctx ⟨dstA, srcA, r, mp⟩ →
    (∀ b ∈ bs, ctx.PS b) →
    swapTable dstA srcA r mp bs = some (nt, dstA', srcA', r', mp') →
    SwapInv ctx ⟨dstA', srcA', r', mp'⟩ ∧
    List.Forall₂ (fun b nb => blookup mp' b = some nb) bs nt ∧
    (∀ b ∈ nt, ctx.PD b) ∧
    (∀ k v, blookup mp k = some v → blookup mp' k = some v) ∧
    (∃ new, mp' = mp ++ new) ∧
    (∀ b', ctx.PD b' ∨ ctx.PS b' →
      r'.get b' + bs.count b' = r.get b' + nt.count b') ∧
    r'.gpu.length = r.gpu.length ∧ r'.cpu.length = r.cpu.length ∧
    dstA'.num_blocks = dstA.num_blocks ∧
    srcA'.num_blocks = srcA.num_blocks ∧
    (∀ p ∈ mp', p ∈ mp ∨ r.get p.2 = 0) := by
  intro bs
  induction bs with
  | nil =>
      intro dstA srcA r mp nt dstA' srcA' r' mp' hinv _ h
      simp only [swapTable, Option.some.injEq, Prod.mk.injEq] at h
      obtain ⟨he1, he2, he3, he4, he5⟩ := h
      subst he1; subst he2; subst he3; subst he4; subst he5
      refine ⟨hinv, List.Forall₂.nil, ?_, fun k v hv => hv, ⟨[], by simp⟩,
        ?_, rfl, rfl, rfl, rfl, fun p hp => Or.inl hp⟩
      · intro b hb
        exact absurd hb (List.not_mem_nil _)
      · intro b' _
        simp
  | cons b rest ih =>
      intro dstA srcA r mp nt dstA' srcA' r' mp' hinv hbs h
      unfold swapTable at h
      split at h
      next heq1 => exact absurd h (by simp)
      next nb dstA1 srcA1 r1 mp1 heq1 =>
        split at h
        next heq2 => exact absurd h (by simp)
        next nt2 dstA2 srcA2 r2 mp2 heq2 =>
          simp only [Option.some.injEq, Prod.mk.injEq] at h
          obtain ⟨he1, he2, he3, he4, he5⟩ := h
          subst he1; subst he2; subst he3; subst he4; subst he5
          have hbS : ctx.PS b := hbs b (List.mem_cons_self _ _)
          obtain ⟨hinv1, hPDnb, hlk1, hstab1, hmono1, hcnt1, hgl1, hcl1,
              hdn1, hsn1, hfr1⟩ :=
            swapBlock_char ctx ⟨dstA, srcA, r, mp⟩ b nb dstA1 srcA1 r1 mp1
              hinv hbS heq1
          obtain ⟨hinv2, hfa2, hPD2, hstab2, hmono2, hcnt2, hgl2, hcl2,
              hdn2, hsn2, hfr2⟩ :=
            ih dstA1 srcA1 r1 mp1 nt2 dstA2 srcA2 r2 mp2 hinv1
              (fun b' hb' => hbs b' (List.mem_cons_of_mem _ hb')) heq2
          refine ⟨hinv2, ?_, ?_, ?_, ?_, ?_, hgl2.trans hgl1, hcl2.trans hcl1,
            hdn2.trans hdn1, hsn2.trans hsn1, ?_⟩
          · exact List.Forall₂.cons (hstab2 _ _ hlk1) hfa2
          · intro b0 hb0
            rcases List.mem_cons.mp hb0 with h1 | h1
            · rw [h1]; exact hPDnb
            · exact hPD2 b0 h1
          · exact fun k v hv => hstab2 k v (hstab1 k v hv)
          · obtain ⟨n1, hn1⟩ := hmono1
            obtain ⟨n2, hn2⟩ := hmono2
            exact ⟨n1 ++ n2, by rw [hn2, hn1, List.append_assoc]⟩
          · intro b' hb'
            have hstep : r1.get b' + (if b' = b then 1 else 0) =
                r.get b' + (if b' = nb then 1 else 0) := hcnt1 b' hb'
            have hrest := hcnt2 b' hb'
            rw [count_cons_ite, count_cons_ite]
            split_ifs at hstep ⊢ <;> omega
          · intro p hp
            rcases hfr2 p hp with h1 | h1
            · rcases hfr1 p h1 with h2 | h2
              · exact Or.inl h2
              · exact Or.inr h2
            · right
              have hPDp : ctx.PD p.2 := (hinv2.mpTyped p hp).2
              have hnpb : p.2 ≠ b := by
                intro hc
                exact ctx.disj _ _ hPDp hbS ⟨by rw [hc], by rw [hc]⟩
              have hstep : r1.get p.2 + (if p.2 = b then 1 else 0) =
                  r.get p.2 + (if p.2 = nb then 1 else 0) :=
                hcnt1 p.2 (Or.inl hPDp)
              rw [if_neg hnpb] at hstep
              by_cases h2 : p.2 = nb
              · rw [if_pos h2] at hstep
                omega
              · rw [if_neg h2] at hstep
                omega

theorem alookup_aset_cases {α : Type} (l : List (Nat × α)) (k : Nat) (v : α)
    (id : Nat) (w : α) (h : alookup (aset l k v) id = some w) :
    (id = k ∧ w = v) ∨ alookup l id = some w := by
  by_cases hk : id = k
  · subst hk
    rw [alookup_aset_self] at h
    exact Or.inl ⟨rfl, (Option.some.injEq _ _).mp h |>.symm⟩
  · rw [alookup_aset_ne l k id v hk] at h
    exact Or.inr h

/-- Characterization of the per-sequence loop of `swap_in` / `swap_out`:
the loop invariant is preserved, the table dict keeps its keys, each live
sequence's table is replaced by its image under the final mapping, other
entries are untouched, and references move table-wise. -/
theorem swapSeqs_char (ctx : PoolCtx) : ∀ (seqs : List Sequence)
    (dstA srcA : BlockManager) (r : RefStore)
    (mp : List (PhysicalTokenBlock × PhysicalTokenBlock))
    (tabs : List (Nat × List PhysicalTokenBlock))
    (dstA' srcA' : BlockManager) (r' : RefStore)
    (mp' : List (PhysicalTokenBlock × PhysicalTokenBlock))
    (tabs' : List (Nat × List PhysicalTokenBlock)),
    SwapInv ctx ⟨dstA, srcA, r, mp⟩ →
    (tabs.map Prod.fst).Nodup →
    ((seqs.filter (fun s => s.status ≠ SequenceStatus.FINISHED)).map
        Sequence.seq_id).Nodup →
    (∀ s ∈ seqs, s.status ≠ SequenceStatus.FINISHED →
      ∀ bt, alookup tabs s.seq_id = some bt → ∀ b ∈ bt, ctx.PS b) →
    swapSeqs dstA srcA r mp tabs seqs = some (dstA', srcA', r', mp', tabs') →
    SwapInv ctx ⟨dstA', srcA', r', mp'⟩ ∧
    tabs'.map Prod.fst = tabs.map Prod.fst ∧
    (∀ b', ctx.PD b' ∨ ctx.PS b' →
      r'.get b' + tableOccs tabs b' = r.get b' + tableOccs tabs' b') ∧
    r'.gpu.length = r.gpu.length ∧ r'.cpu.length = r.cpu.length ∧
    dstA'.num_blocks = dstA.num_blocks ∧ srcA'.num_blocks = srcA.num_blocks ∧
    (∃ new, mp' = mp ++ new) ∧
    (∀ k v, blookup mp k = some v → blookup mp' k = some v) ∧
    (∀ id bt', alookup tabs' id = some bt' →
      alookup tabs id = some bt' ∨ ∀ b ∈ bt', ctx.PD b) ∧
    (∀ s ∈ seqs, s.status ≠ SequenceStatus.FINISHED →
      ∀ bt, alookup tabs s.seq_id = some bt →
      ∃ nt, alookup tabs' s.seq_id = some nt ∧
        List.Forall₂ (fun b nb => blookup mp' b = some nb) bt nt) ∧
    (∀ id, id ∉ (seqs.filter
        (fun s => s.status ≠ SequenceStatus.FINISHED)).map Sequence.seq_id →
      alookup tabs' id = alookup tabs id) ∧
    (∀ p ∈ mp', p ∈ mp ∨ r.get p.2 = 0) := by
  intro seqs
  induction seqs with
  | nil =>
      intro dstA srcA r mp tabs dstA' srcA' r' mp' tabs' hinv hknd hids htabs h
      simp only [swapSeqs, Option.some.injEq, Prod.mk.injEq] at h
      obtain ⟨he1, he2, he3, he4, he5⟩ := h
      subst he1; subst he2; subst he3; subst he4; subst he5
      refine ⟨hinv, rfl, fun b' _ => rfl, rfl, rfl, rfl, rfl, ⟨[], by simp⟩,
        fun k v hv => hv, fun id bt' hl => Or.inl hl, ?_, fun id _ => rfl,
        fun p hp => Or.inl hp⟩
      intro s hs
      exact absurd hs (List.not_mem_nil _)
  | cons s rest ih =>
      intro dstA srcA r mp tabs dstA' srcA' r' mp' tabs' hinv hknd hids htabs h
      unfold swapSeqs at h
      split at h
      next hfin =>
        have hfeq : (s :: rest).filter
            (fun s => s.status ≠ SequenceStatus.FINISHED) =
            rest.filter (fun s => s.status ≠ SequenceStatus.FINISHED) := by
          simp [List.filter_cons, hfin]
        rw [hfeq] at hids
        obtain ⟨c1, c2, c3, c4, c5, c6, c7, c8, c9, c10, c11, c12, c13⟩ :=
          ih dstA srcA r mp tabs dstA' srcA' r' mp' tabs' hinv hknd hids
            (fun s' hs' => htabs s' (List.mem_cons_of_mem _ hs')) h
        refine ⟨c1, c2, c3, c4, c5, c6, c7, c8, c9, c10, ?_, ?_, c13⟩
        · intro s' hs' hlive' bt hbt
          rcases List.mem_cons.mp hs' with h1 | h1
          · rw [h1] at hlive'
            exact absurd hfin hlive'
          · exact c11 s' h1 hlive' bt hbt
        · intro id hid
          rw [hfeq] at hid
          exact c12 id hid
      next hfin =>
        split at h
        next hbt0 => exact absurd h (by simp)
        next bt hbt =>
          split at h
          next heqT => exact absurd h (by simp)
          next nt dstA1 srcA1 r1 mp1 heqT =>
            have hsmem : s ∈ s :: rest := List.mem_cons_self _ _
            have hbtPS : ∀ b ∈ bt, ctx.PS b := htabs s hsmem hfin bt hbt
            obtain ⟨hinv1, hfa1, hPDnt, hstab1, hmono1, hcnt1, hgl1, hcl1,
                hdn1, hsn1, hfr1⟩ :=
              swapTable_char ctx bt dstA srcA r mp nt dstA1 srcA1 r1 mp1
                hinv hbtPS heqT
            have hfeq : (s :: rest).filter
                (fun s => s.status ≠ SequenceStatus.FINISHED) =
                s :: rest.filter
                  (fun s => s.status ≠ SequenceStatus.FINISHED) := by
              simp [List.filter_cons, hfin]
            rw [hfeq, List.map_cons, List.nodup_cons] at hids
            obtain ⟨hsid, hids'⟩ := hids
            have hkeymem : s.seq_id ∈ tabs.map Prod.fst :=
              mem_keys_of_alookup _ _ _ hbt
            have htabs' : ∀ s' ∈ rest, s'.status ≠ SequenceStatus.FINISHED →
                ∀ bt'', alookup (aset tabs s.seq_id nt) s'.seq_id = some bt'' →
                ∀ b ∈ bt'', ctx.PS b := by
              intro s' hs' hlive' bt'' hbt''
              have hne : s'.seq_id ≠ s.seq_id := by
                intro hc
                apply hsid
                rw [← hc]
                exact List.mem_map.mpr ⟨s',
                  List.mem_filter.mpr ⟨hs', by simpa using hlive'⟩, rfl⟩
              rw [alookup_aset_ne _ _ _ _ hne] at hbt''
              exact htabs s' (List.mem_cons_of_mem _ hs') hlive' bt'' hbt''
            obtain ⟨c1, c2, c3, c4, c5, c6, c7, c8, c9, c10, c11, c12, c13⟩ :=
              ih dstA1 srcA1 r1 mp1 (aset tabs s.seq_id nt) dstA' srcA' r'
                mp' tabs' hinv1 (keys_aset_nodup _ _ _ hknd) hids' htabs' h
            have hkeys : tabs'.map Prod.fst = tabs.map Prod.fst := by
              rw [c2, keys_aset_of_mem _ _ _ hkeymem]
            refine ⟨c1, hkeys, ?_, c4.trans hgl1, c5.trans hcl1,
              c6.trans hdn1, c7.trans hsn1, ?_, ?_, ?_, ?_, ?_, ?_⟩
            · -- occs
              intro b' hb'
              have h1 : r1.get b' + bt.count b' = r.get b' + nt.count b' :=
                hcnt1 b' hb'
              have h2 := c3 b' hb'
              have h3 := tableOccs_aset tabs s.seq_id nt bt b' hknd hbt
              omega
            · -- mono
              obtain ⟨n1, hn1⟩ := hmono1
              obtain ⟨n2, hn2⟩ := c8
              exact ⟨n1 ++ n2, by rw [hn2, hn1, List.append_assoc]⟩
            · -- stability
              exact fun k v hv => c9 k v (hstab1 k v hv)
            · -- entries
              intro id bt' hl
              rcases c10 id bt' hl with h1 | h1
              · rcases alookup_aset_cases _ _ _ _ _ h1 with ⟨hid, hw⟩ | h2
                · refine Or.inr ?_
                  rw [hw]
                  exact hPDnt
                · exact Or.inl h2
              · exact Or.inr h1
            · -- mapped
              intro s' hs' hlive' bt'' hbt''
              rcases List.mem_cons.mp hs' with h1 | h1
              · subst h1
                have hbteq : bt'' = bt := by
                  rw [hbt] at hbt''
                  exact ((Option.some.injEq _ _).mp hbt'').symm
                subst hbteq
                have hnt : alookup tabs' s'.seq_id = some nt := by
                  rw [c12 s'.seq_id hsid, alookup_aset_self]
                exact ⟨nt, hnt,
                  List.Forall₂.imp (fun a b hab => c9 a b hab) hfa1⟩
              · have hne : s'.seq_id ≠ s.seq_id := by
                  intro hc
                  apply hsid
                  rw [← hc]
                  exact List.mem_map.mpr ⟨s',
                    List.mem_filter.mpr ⟨h1, by simpa using hlive'⟩, rfl⟩
                have hbt2 : alookup (aset tabs s.seq_id nt) s'.seq_id =
                    some bt'' := by
                  rw [alookup_aset_ne _ _ _ _ hne]
                  exact hbt''
                exact c11 s' h1 hlive' bt'' hbt2
            · -- untouched
              intro id hid
              rw [hfeq, List.map_cons, List.mem_cons] at hid
              push_neg at hid
              rw [c12 id hid.2, alookup_aset_ne _ _ _ _ hid.1]
            · -- mpFresh
              intro p hp
              rcases c13 p hp with h1 | h1
              · exact hfr1 p h1
              · right
                have hPDp : ctx.PD p.2 := (c1.mpTyped p hp).2
                have hnotbt : p.2 ∉ bt := by
                  intro hc
                  exact ctx.disj p.2 p.2 hPDp (hbtPS p.2 hc) ⟨rfl, rfl⟩
                have hcnt0 : bt.count p.2 = 0 :=
                  List.count_eq_zero_of_not_mem hnotbt
                have hstep := hcnt1 p.2 (Or.inl hPDp)
                omega

theorem alookup_of_mem_of_nodup {α : Type} (l : List (Nat × α)) (p : Nat × α)
    (hnd : (l.map Prod.fst).Nodup) (hp : p ∈ l) : alookup l p.1 = some p.2 := by
  obtain ⟨pk, pv⟩ := p
  induction l with
  | nil => exact absurd hp (List.not_mem_nil _)
  | cons q rest ih =>
      rw [List.map_cons, List.nodup_cons] at hnd
      rcases List.mem_cons.mp hp with h1 | h1
      · rw [← h1]
        simp [alookup]
      · obtain ⟨qk, qv⟩ := q
        have hne : qk ≠ pk := by
          intro hc
          apply hnd.1
          rw [hc]
          exact List.mem_map.mpr ⟨(pk, pv), h1, rfl⟩
        simp only [alookup, if_neg hne]
        exact ih hnd.2 h1

/-- Rebuilding the block-space manager from new allocators, references and
tables that satisfy the invariant clauses relative to the old pools. -/
theorem valid_rebuild (m : BlockSpaceManager) (gA cA : BlockManager)
    (r : RefStore) (tabs : List (Nat × List PhysicalTokenBlock))
    (hlg : r.gpu.length = gA.num_blocks)
    (hlc : r.cpu.length = cA.num_blocks)
    (hgnum : gA.num_blocks = m.gpu_allocator.num_blocks)
    (hcnum : cA.num_blocks = m.cpu_allocator.num_blocks)
    (hgp : ∀ b ∈ gA.free_blocks, PoolG m b)
    (hcp : ∀ b ∈ cA.free_blocks, PoolC m b)
    (hgnd : gA.free_blocks.Nodup) (hcnd : cA.free_blocks.Nodup)
    (htp : ∀ p ∈ tabs, ∀ b ∈ p.2, PoolBlock m b)
    (hknd : (tabs.map Prod.fst).Nodup)
    (hro : ∀ b, PoolBlock m b → r.get b = tableOccs tabs b)
    (hfg : ∀ b, PoolG m b → (b ∈ gA.free_blocks ↔ r.get b = 0))
    (hfc : ∀ b, PoolC m b → (b ∈ cA.free_blocks ↔ r.get b = 0)) :
    Valid { m with
      gpu_allocator := gA
      cpu_allocator := cA
      refs := r
      block_tables := tabs } := by
  have hPG : ∀ b, PoolG { m with
      gpu_allocator := gA
      cpu_allocator := cA
      refs := r
      block_tables := tabs } b ↔ PoolG m b := by
    intro b
    simp [PoolG, hgnum]
  have hPC : ∀ b, PoolC { m with
      gpu_allocator := gA
      cpu_allocator := cA
      refs := r
      block_tables := tabs } b ↔ PoolC m b := by
    intro b
    simp [PoolC, hcnum]
  have hPB : ∀ b, PoolBlock { m with
      gpu_allocator := gA
      cpu_allocator := cA
      refs := r
      block_tables := tabs } b ↔ PoolBlock m b := by
    intro b
    unfold PoolBlock
    rw [hPG b, hPC b]
  refine ⟨hlg, hlc, ?_, ?_, hgnd, hcnd, ?_, hknd, ?_, ?_⟩
  · intro b hb
    exact (hPG b).mpr (hgp b hb)
  · intro b hb
    exact (hPC b).mpr (hcp b hb)
  · intro p hp b hb
    exact (hPB b).mpr (htp p hp b hb)
  · intro b hb
    exact hro b ((hPB b).mp hb)
  · intro b hb
    rcases (hPB b).mp hb with hg | hc
    · have h1 : onFreeList { m with
          gpu_allocator := gA
          cpu_allocator := cA
          refs := r
          block_tables := tabs } b ↔ b ∈ gA.free_blocks := by
        unfold onFreeList
        rw [hg.1]
      rw [h1]
      exact hfg b hg
    · have h1 : onFreeList { m with
          gpu_allocator := gA
          cpu_allocator := cA
          refs := r
          block_tables := tabs } b ↔ b ∈ cA.free_blocks := by
        unfold onFreeList
        rw [hc.1]
      rw [h1]
      exact hfc b hc

/-- C2, case `swap_in(seq_group)`: the invariant survives a successful
CPU → GPU swap of a group whose live tables are CPU-resident. -/
theorem valid_swapIn (m : BlockSpaceManager) (g : SequenceGroup)
    (v : Valid m)
    (hids : ((liveSeqs g).map Sequence.seq_id).Nodup)
    (hdev : ∀ s ∈ liveSeqs g, ∀ bt,
      alookup m.block_tables s.seq_id = some bt →
      ∀ b ∈ bt, b.device = Device.CPU)
    (mpret : List (Nat × Nat)) (m' : BlockSpaceManager)
    (h : m.swap_in g = some (mpret, m')) : Valid m' := by
  have hcellD : ∀ b b', PoolG m b → PoolG m b' → sameCell b b' → b = b' :=
    fun b b' hb hb' hc => poolBlock_cell_eq (Or.inl hb) (Or.inl hb') hc
  have hcellS : ∀ b b', PoolC m b → PoolC m b' → sameCell b b' → b = b' :=
    fun b b' hb hb' hc => poolBlock_cell_eq (Or.inr hb) (Or.inr hb') hc
  have hdisj : ∀ b b', PoolG m b → PoolC m b' → ¬ sameCell b b' :=
    fun b b' hb hb' hc =>
      Device.noConfusion (hb.1.symm.trans (hc.1.trans hb'.1))
  have honG : ∀ b, PoolG m b →
      (onFreeList m b ↔ b ∈ m.gpu_allocator.free_blocks) := by
    intro b hb
    unfold onFreeList
    rw [hb.1]
  have honC : ∀ b, PoolC m b →
      (onFreeList m b ↔ b ∈ m.cpu_allocator.free_blocks) := by
    intro b hb
    unfold onFreeList
    rw [hb.1]
  have hffD0 : ∀ b, PoolG m b →
      (b ∈ m.gpu_allocator.free_blocks ↔ m.refs.get b = 0) := by
    intro b hb
    rw [← honG b hb]
    exact v.freeIff b (Or.inl hb)
  have hffS0 : ∀ b, PoolC m b →
      (b ∈ m.cpu_allocator.free_blocks ↔ m.refs.get b = 0) := by
    intro b hb
    rw [← honC b hb]
    exact v.freeIff b (Or.inr hb)
  have hinv0 : SwapInv ⟨PoolG m, PoolC m, hcellD, hcellS, hdisj⟩
      ⟨m.gpu_allocator, m.cpu_allocator, m.refs, []⟩ :=
    ⟨v.gpuFreePool, v.cpuFreePool, v.gpuFreeNodup, v.cpuFreeNodup,
     hffD0, hffS0,
     fun p hp => absurd hp (List.not_mem_nil _),
     List.nodup_nil, List.nodup_nil,
     fun p hp => absurd hp (List.not_mem_nil _),
     fun b hb => v.inRange (Or.inl hb), fun b hb => v.inRange (Or.inr hb)⟩
  have htabsPS : ∀ s ∈ g.seqs, s.status ≠ SequenceStatus.FINISHED →
      ∀ bt, alookup m.block_tables s.seq_id = some bt →
      ∀ b ∈ bt, PoolC m b := by
    intro s hs hlive bt hbt b hb
    have hsl : s ∈ liveSeqs g :=
      List.mem_filter.mpr ⟨hs, by simpa using hlive⟩
    have hdev' : b.device = Device.CPU := hdev s hsl bt hbt b hb
    rcases v.tablesPool _ (alookup_mem _ _ _ hbt) b hb with hg | hc
    · exact absurd (hg.1.symm.trans hdev') (by decide)
    · exact hc
  unfold BlockSpaceManager.swap_in at h
  split at h
  next heqS => exact absurd h (by simp)
  next dstA srcA r2 mp2 tabs2 heqS =>
    simp only [Option.some.injEq, Prod.mk.injEq] at h
    obtain ⟨hret, hm'⟩ := h
    subst hm'
    obtain ⟨c1, c2, c3, c4, c5, c6, c7, c8, c9, c10, c11, c12⟩ :=
      swapSeqs_char ⟨PoolG m, PoolC m, hcellD, hcellS, hdisj⟩ g.seqs
        m.gpu_allocator m.cpu_allocator m.refs [] m.block_tables
        dstA srcA r2 mp2 tabs2 hinv0 v.keysNodup hids htabsPS heqS
    have hknd2 : (tabs2.map Prod.fst).Nodup := by
      rw [c2]
      exact v.keysNodup
    refine valid_rebuild m dstA srcA r2 tabs2 ?_ ?_ c6 c7 c1.dstPool
      c1.srcPool c1.dstNodup c1.srcNodup ?_ hknd2 ?_ c1.ffD c1.ffS
    · rw [c6, ← v.gpuRefLen]
      exact c4
    · rw [c7, ← v.cpuRefLen]
      exact c5
    · intro p hp b hb
      rcases c10 p.1 p.2 (alookup_of_mem_of_nodup tabs2 p hknd2 hp) with
        h1 | h1
      · exact v.tablesPool _ (alookup_mem _ _ _ h1) b hb
      · exact Or.inl (h1 b hb)
    · intro b hb
      have h1 := c3 b hb
      have h2 := v.refOcc b hb
      omega

/-- C2, case `swap_out(seq_group)`: the invariant survives a successful
GPU → CPU swap of a group whose live tables are GPU-resident. -/
theorem valid_swapOut (m : BlockSpaceManager) (g : SequenceGroup)
    (v : Valid m)
    (hids : ((liveSeqs g).map Sequence.seq_id).Nodup)
    (hdev : ∀ s ∈ liveSeqs g, ∀ bt,
      alookup m.block_tables s.seq_id = some bt →
      ∀ b ∈ bt, b.device = Device.GPU)
    (mpret : List (Nat × Nat)) (m' : BlockSpaceManager)
    (h : m.swap_out g = some (mpret, m')) : Valid m' := by
  have hcellD : ∀ b b', PoolC m b → PoolC m b' → sameCell b b' → b = b' :=
    fun b b' hb hb' hc => poolBlock_cell_eq (Or.inr hb) (Or.inr hb') hc
  have hcellS : ∀ b b', PoolG m b → PoolG m b' → sameCell b b' → b = b' :=
    fun b b' hb hb' hc => poolBlock_cell_eq (Or.inl hb) (Or.inl hb') hc
  have hdisj : ∀ b b', PoolC m b → PoolG m b' → ¬ sameCell b b' :=
    fun b b' hb hb' hc =>
      Device.noConfusion (hb.1.symm.trans (hc.1.trans hb'.1))
  have honG : ∀ b, PoolG m b →
      (onFreeList m b ↔ b ∈ m.gpu_allocator.free_blocks) := by
    intro b hb
    unfold onFreeList
    rw [hb.1]
  have honC : ∀ b, PoolC m b →
      (onFreeList m b ↔ b ∈ m.cpu_allocator.free_blocks) := by
    intro b hb
    unfold onFreeList
    rw [hb.1]
  have hffD0 : ∀ b, PoolC m b →
      (b ∈ m.cpu_allocator.free_blocks ↔ m.refs.get b = 0) := by
    intro b hb
    rw [← honC b hb]
    exact v.freeIff b (Or.inr hb)
  have hffS0 : ∀ b, PoolG m b →
      (b ∈ m.gpu_allocator.free_blocks ↔ m.refs.get b = 0) := by
    intro b hb
    rw [← honG b hb]
    exact v.freeIff b (Or.inl hb)
  have hinv0 : SwapInv ⟨PoolC m, PoolG m, hcellD, hcellS, hdisj⟩
      ⟨m.cpu_allocator, m.gpu_allocator, m.refs, []⟩ :=
    ⟨v.cpuFreePool, v.gpuFreePool, v.cpuFreeNodup, v.gpuFreeNodup,
     hffD0, hffS0,
     fun p hp => absurd hp (List.not_mem_nil _),
     List.nodup_nil, List.nodup_nil,
     fun p hp => absurd hp (List.not_mem_nil _),
     fun b hb => v.inRange (Or.inr hb), fun b hb => v.inRange (Or.inl hb)⟩
  have htabsPS : ∀ s ∈ g.seqs, s.status ≠ SequenceStatus.FINISHED →
      ∀ bt, alookup m.block_tables s.seq_id = some bt →
      ∀ b ∈ bt, PoolG m b := by
    intro s hs hlive bt hbt b hb
    have hsl : s ∈ liveSeqs g :=
      List.mem_filter.mpr ⟨hs, by simpa using hlive⟩
    have hdev' : b.device = Device.GPU := hdev s hsl bt hbt b hb
    rcases v.tablesPool _ (alookup_mem _ _ _ hbt) b hb with hg | hc
    · exact hg
    · exact absurd (hc.1.symm.trans hdev') (by decide)
  unfold BlockSpaceManager.swap_out at h
  split at h
  next heqS => exact absurd h (by simp)
  next dstA srcA r2 mp2 tabs2 heqS =>
    simp only [Option.some.injEq, Prod.mk.injEq] at h
    obtain ⟨hret, hm'⟩ := h
    subst hm'
    obtain ⟨c1, c2, c3, c4, c5, c6, c7, c8, c9, c10, c11, c12⟩ :=
      swapSeqs_char ⟨PoolC m, PoolG m, hcellD, hcellS, hdisj⟩ g.seqs
        m.cpu_allocator m.gpu_allocator m.refs [] m.block_tables
        dstA srcA r2 mp2 tabs2 hinv0 v.keysNodup hids htabsPS heqS
    have hknd2 : (tabs2.map Prod.fst).Nodup := by
      rw [c2]
      exact v.keysNodup
    refine valid_rebuild m srcA dstA r2 tabs2 ?_ ?_ c7 c6 c1.srcPool
      c1.dstPool c1.srcNodup c1.dstNodup ?_ hknd2 ?_ c1.ffS c1.ffD
    · rw [c7, ← v.gpuRefLen]
      exact c4
    · rw [c6, ← v.cpuRefLen]
      exact c5
    · intro p hp b hb
      rcases c10 p.1 p.2 (alookup_of_mem_of_nodup tabs2 p hknd2 hp) with
        h1 | h1
      · exact v.tablesPool _ (alookup_mem _ _ _ h1) b hb
      · exact Or.inr (h1 b hb)
    · intro b hb
      have h1 := c3 b ?_
      · have h2 := v.refOcc b hb
        omega
      · exact hb.symm

theorem valid_example_state : Valid
    { block_size := 4, num_total_gpu_blocks := 1, num_total_cpu_blocks := 1,
      gpu_allocator := ⟨Device.GPU, 4, 1, [⟨Device.GPU, 0, 4⟩]⟩,
      cpu_allocator := ⟨Device.CPU, 4, 1, [⟨Device.CPU, 0, 4⟩]⟩,
      refs := ⟨[0], [0]⟩, block_tables := [] } := by
  refine ⟨rfl, rfl, ?_, ?_, by decide, by decide, ?_, List.nodup_nil, ?_, ?_⟩
  · intro b hb
    rw [List.mem_singleton] at hb
    subst hb
    exact ⟨rfl, by decide, rfl⟩
  · intro b hb
    rw [List.mem_singleton] at hb
    subst hb
    exact ⟨rfl, by decide, rfl⟩
  · intro p hp
    exact absurd hp (List.not_mem_nil _)
  · intro b hb
    obtain ⟨d, n, s⟩ := b
    rcases hb with ⟨hd, hn, hs⟩ | ⟨hd, hn, hs⟩
    · simp only at hd hn hs
      subst hd
      subst hs
      have hn0 : n = 0 := by omega
      subst hn0
      rfl
    · simp only at hd hn hs
      subst hd
      subst hs
      have hn0 : n = 0 := by omega
      subst hn0
      rfl
  · intro b hb
    obtain ⟨d, n, s⟩ := b
    rcases hb with ⟨hd, hn, hs⟩ | ⟨hd, hn, hs⟩
    · simp only at hd hn hs
      subst hd
      subst hs
      have hn0 : n = 0 := by omega
      subst hn0
      exact iff_of_true (by simp [onFreeList]) rfl
    · simp only at hd hn hs
      subst hd
      subst hs
      have hn0 : n = 0 := by omega
      subst hn0
      exact iff_of_true (by simp [onFreeList]) rfl

/-- C2: after every successful `BlockSpaceManager` operation (`allocate`,
`append`, `fork`, `swap_in`, `swap_out`, `free`, `reset`), run under its
caller obligations (`OpOk`), the state invariant `Valid` is preserved:
every pool block's `ref_count` equals the number of block-table entries
referencing it across all stored tables, and a block sits on its tier
allocator's free list iff its `ref_count` is zero. -/
theorem bsm_ops_preserve_invariant (m m' : BlockSpaceManager) (op : BsmOp)
    (v : Valid m) (hok : OpOk m op) (h : applyOp m op = some m') :
    Valid m' := by
  cases op with
  | alloc g => exact valid_alloc m m' g v hok.1 hok.2.1 hok.2.2 h
  | app s =>
      simp only [applyOp] at h
      cases happ : m.append s with
      | none =>
          rw [happ] at h
          simp at h
      | some p =>
          obtain ⟨ret, m2⟩ := p
          rw [happ] at h
          have hm2 : m2 = m' := by simpa using h
          subst hm2
          exact valid_append m m2 s ret v happ
  | fork pSeq c => exact valid_fork m m' pSeq c v hok h
  | swapIn g =>
      simp only [applyOp] at h
      cases hsw : m.swap_in g with
      | none =>
          rw [hsw] at h
          simp at h
      | some p =>
          obtain ⟨mpret, m2⟩ := p
          rw [hsw] at h
          have hm2 : m2 = m' := by simpa using h
          subst hm2
          exact valid_swapIn m g v hok.1 hok.2 mpret m2 hsw
  | swapOut g =>
      simp only [applyOp] at h
      cases hsw : m.swap_out g with
      | none =>
          rw [hsw] at h
          simp at h
      | some p =>
          obtain ⟨mpret, m2⟩ := p
          rw [hsw] at h
          have hm2 : m2 = m' := by simpa using h
          subst hm2
          exact valid_swapOut m g v hok.1 hok.2 mpret m2 hsw
  | freeSeq s => exact valid_free_seq m m' s v h
  | reset => exact valid_reset m m' v h

theorem bsm_ops_preserve_invariant_witness : Valid
    { block_size := 4, num_total_gpu_blocks := 1, num_total_cpu_blocks := 1,
      gpu_allocator := ⟨Device.GPU, 4, 1, [⟨Device.GPU, 0, 4⟩]⟩,
      cpu_allocator := ⟨Device.CPU, 4, 1, [⟨Device.CPU, 0, 4⟩]⟩,
      refs := ⟨[0], [0]⟩, block_tables := [] } :=
  bsm_ops_preserve_invariant _ _ BsmOp.reset valid_example_state
    trivial (by rfl)

theorem forall₂_mem_left {α β : Type} {R : α → β → Prop}
    {l1 : List α} {l2 : List β} (h : List.Forall₂ R l1 l2) :
    ∀ {a}, a ∈ l1 → ∃ b ∈ l2, R a b := by
  induction h with
  | nil =>
      intro a ha
      exact absurd ha (List.not_mem_nil _)
  | cons hR hrest ih =>
      intro a ha
      rcases List.mem_cons.mp ha with h1 | h1
      · subst h1
        exact ⟨_, List.mem_cons_self _ _, hR⟩
      · obtain ⟨b, hb, hRb⟩ := ih h1
        exact ⟨b, List.mem_cons_of_mem _ hb, hRb⟩


theorem forall₂_mem_right {α β : Type} {R : α → β → Prop}
    {l1 : List α} {l2 : List β} (h : List.Forall₂ R l1 l2) :
    ∀ {b}, b ∈ l2 → ∃ a ∈ l1, R a b := by
  induction h with
  | nil =>
      intro b hb
      exact absurd hb (List.not_mem_nil _)
  | cons hR hrest ih =>
      intro b hb
      rcases List.mem_cons.mp hb with h1 | h1
      · subst h1
        exact ⟨_, List.mem_cons_self _ _, hR⟩
      · obtain ⟨a, ha, hRa⟩ := ih h1
        exact ⟨a, List.mem_cons_of_mem _ ha, hRa⟩

theorem forall₂_comp {α : Type} {R1 R2 : α → α → Prop} :
    ∀ {l1 l2 l3 : List α}, List.Forall₂ R1 l1 l2 → List.Forall₂ R2 l2 l3 →
      List.Forall₂ (fun a c => ∃ b, R1 a b ∧ R2 b c) l1 l3 := by
  intro l1 l2 l3 h1
  induction h1 generalizing l3 with
  | nil =>
      intro h2
      cases h2
      exact List.Forall₂.nil
  | cons hR hrest ih =>
      intro h2
      cases h2 with
      | cons hR2 hrest2 =>
          exact List.Forall₂.cons ⟨_, hR, hR2⟩ (ih hrest2)

theorem forall₂_eq_map {α : Type} {f : α → α} :
    ∀ {l l' : List α}, List.Forall₂ (fun a b => f a = b) l l' → l' = l.map f := by
  intro l l' h
  induction h with
  | nil => rfl
  | cons hR hrest ih =>
      rw [List.map_cons, ← hR, ih]

theorem blookup_inj_of_vals_nodup
    (mp : List (PhysicalTokenBlock × PhysicalTokenBlock))
    (hnd : (mp.map Prod.snd).Nodup) (k1 k2 v : PhysicalTokenBlock)
    (h1 : blookup mp k1 = some v) (h2 : blookup mp k2 = some v) : k1 = k2 := by
  induction mp with
  | nil => simp [blookup] at h1
  | cons p rest ih =>
      obtain ⟨pk, pv⟩ := p
      rw [List.map_cons, List.nodup_cons] at hnd
      by_cases e1 : pk = k1 <;> by_cases e2 : pk = k2
      · rw [← e1, ← e2]
      · simp only [blookup, if_pos e1, Option.some.injEq] at h1
        simp only [blookup, if_neg e2] at h2
        have hv : v ∈ rest.map Prod.snd :=
          List.mem_map_of_mem Prod.snd (blookup_mem _ _ _ h2)
        rw [h1] at hnd
        exact absurd hv hnd.1
      · simp only [blookup, if_pos e2, Option.some.injEq] at h2
        simp only [blookup, if_neg e1] at h1
        have hv : v ∈ rest.map Prod.snd :=
          List.mem_map_of_mem Prod.snd (blookup_mem _ _ _ h1)
        rw [h2] at hnd
        exact absurd hv hnd.1
      · simp only [blookup, if_neg e1] at h1
        simp only [blookup, if_neg e2] at h2
        exact ih hnd.2 h1 h2

theorem count_map_local (f : PhysicalTokenBlock → PhysicalTokenBlock)
    (b : PhysicalTokenBlock) :
    ∀ (l : List PhysicalTokenBlock), (∀ x ∈ l, f x = f b → x = b) →
      (l.map f).count (f b) = l.count b := by
  intro l
  induction l with
  | nil => intro _; rfl
  | cons x rest ih =>
      intro hinj
      rw [List.map_cons, count_cons_ite, count_cons_ite,
        ih (fun y hy => hinj y (List.mem_cons_of_mem _ hy))]
      by_cases hbx : b = x
      · subst hbx
        rw [if_pos rfl, if_pos rfl]
      · have hfne : ¬ (f b = f x) := by
          intro hc
          exact hbx ((hinj x (List.mem_cons_self _ _) hc.symm).symm)
        rw [if_neg hfne, if_neg hbx]

theorem alookup_some_of_mem_keys {α : Type} (l : List (Nat × α)) (id : Nat)
    (h : id ∈ l.map Prod.fst) : ∃ v, alookup l id = some v := by
  cases hl : alookup l id with
  | none => exact absurd h ((alookup_eq_none_iff l id).mp hl)
  | some v => exact ⟨v, rfl⟩

theorem tableOccs_eq_of_counts :
    ∀ (l l' : List (Nat × List PhysicalTokenBlock)),
    l'.map Prod.fst = l.map Prod.fst →
    (l.map Prod.fst).Nodup →
    ∀ (x y : PhysicalTokenBlock),
    (∀ id bt bt', alookup l id = some bt → alookup l' id = some bt' →
      bt'.count y = bt.count x) →
    tableOccs l' y = tableOccs l x := by
  intro l
  induction l with
  | nil =>
      intro l' hk _ x y _
      have hnil : l' = [] := by
        cases l' with
        | nil => rfl
        | cons p rest => simp at hk
      rw [hnil]
      rfl
  | cons p rest ih =>
      intro l' hk hnd x y hc
      obtain ⟨k, bt⟩ := p
      cases l' with
      | nil => simp at hk
      | cons p' rest' =>
          obtain ⟨k', bt'⟩ := p'
          simp only [List.map_cons, List.cons.injEq] at hk
          obtain ⟨hk1, hk2⟩ := hk
          subst hk1
          rw [List.map_cons, List.nodup_cons] at hnd
          have hhead : bt'.count y = bt.count x := by
            apply hc k'
            · simp [alookup]
            · simp [alookup]
          have htail : tableOccs rest' y = tableOccs rest x := by
            apply ih rest' hk2 hnd.2 x y
            intro id bt0 bt0' h0 h0'
            have hne : k' ≠ id := by
              intro hc2
              apply hnd.1
              rw [hc2]
              exact mem_keys_of_alookup _ _ _ h0
            apply hc id
            · simp only [alookup, if_neg hne]
              exact h0
            · simp only [alookup, if_neg hne]
              exact h0'
          rw [tableOccs_cons, tableOccs_cons, hhead, htail]

/-- The pool context of `swap_in`: GPU is the destination pool, CPU the
source pool. -/
def swapCtxIn (m : BlockSpaceManager) : PoolCtx where
  PD := PoolG m
  PS := PoolC m
  cellD := fun _ _ hb hb' hc => poolBlock_cell_eq (Or.inl hb) (Or.inl hb') hc
  cellS := fun _ _ hb hb' hc => poolBlock_cell_eq (Or.inr hb) (Or.inr hb') hc
  disj := fun _ _ hb hb' hc =>
    Device.noConfusion (hb.1.symm.trans (hc.1.trans hb'.1))

/-- The pool context of `swap_out`: CPU is the destination pool, GPU the
source pool. -/
def swapCtxOut (m : BlockSpaceManager) : PoolCtx where
  PD := PoolC m
  PS := PoolG m
  cellD := fun _ _ hb hb' hc => poolBlock_cell_eq (Or.inr hb) (Or.inr hb') hc
  cellS := fun _ _ hb hb' hc => poolBlock_cell_eq (Or.inl hb) (Or.inl hb') hc
  disj := fun _ _ hb hb' hc =>
    Device.noConfusion (hb.1.symm.trans (hc.1.trans hb'.1))

theorem swapInvInit_in (m : BlockSpaceManager) (v : Valid m) :
    SwapInv (swapCtxIn m) ⟨m.gpu_allocator, m.cpu_allocator, m.refs, []⟩ := by
  have honG : ∀ b, PoolG m b →
      (onFreeList m b ↔ b ∈ m.gpu_allocator.free_blocks) := by
    intro b hb
    unfold onFreeList
    rw [hb.1]
  have honC : ∀ b, PoolC m b →
      (onFreeList m b ↔ b ∈ m.cpu_allocator.free_blocks) := by
    intro b hb
    unfold onFreeList
    rw [hb.1]
  refine ⟨v.gpuFreePool, v.cpuFreePool, v.gpuFreeNodup, v.cpuFreeNodup,
    ?_, ?_,
    fun p hp => absurd hp (List.not_mem_nil _),
    List.nodup_nil, List.nodup_nil,
    fun p hp => absurd hp (List.not_mem_nil _),
    fun b hb => v.inRange (Or.inl hb), fun b hb => v.inRange (Or.inr hb)⟩
  · intro b hb
    rw [← honG b hb]
    exact v.freeIff b (Or.inl hb)
  · intro b hb
    rw [← honC b hb]
    exact v.freeIff b (Or.inr hb)

theorem swapInvInit_out (m : BlockSpaceManager) (v : Valid m) :
    SwapInv (swapCtxOut m) ⟨m.cpu_allocator, m.gpu_allocator, m.refs, []⟩ := by
  have honG : ∀ b, PoolG m b →
      (onFreeList m b ↔ b ∈ m.gpu_allocator.free_blocks) := by
    intro b hb
    unfold onFreeList
    rw [hb.1]
  have honC : ∀ b, PoolC m b →
      (onFreeList m b ↔ b ∈ m.cpu_allocator.free_blocks) := by
    intro b hb
    unfold onFreeList
    rw [hb.1]
  refine ⟨v.cpuFreePool, v.gpuFreePool, v.cpuFreeNodup, v.gpuFreeNodup,
    ?_, ?_,
    fun p hp => absurd hp (List.not_mem_nil _),
    List.nodup_nil, List.nodup_nil,
    fun p hp => absurd hp (List.not_mem_nil _),
    fun b hb => v.inRange (Or.inr hb), fun b hb => v.inRange (Or.inl hb)⟩
  · intro b hb
    rw [← honC b hb]
    exact v.freeIff b (Or.inr hb)
  · intro b hb
    rw [← honG b hb]
    exact v.freeIff b (Or.inl hb)

/-- `b` occurs in the block table of some live sequence of the group. -/
def inGroupBlocks (m : BlockSpaceManager) (g : SequenceGroup)
    (b : PhysicalTokenBlock) : Prop :=
  ∃ s ∈ liveSeqs g, ∃ bt,
    alookup m.block_tables s.seq_id = some bt ∧ b ∈ bt

/-- C5: `swap_out(group)` followed by `swap_in(group)` restores every live
sibling's block table up to one injective block map `φ` applied pointwise
(so lengths, entry order, and the sharing pattern among siblings are
preserved), leaves all other table entries untouched, and transports every
group block's `ref_count` to its image (`ref_count` of `φ b` afterwards
equals the prior `ref_count` of `b`), under the residency obligation that
the group's live tables are GPU-resident and share no block with tables
outside the group. -/
theorem swap_out_then_swap_in_roundtrip (m : BlockSpaceManager)
    (g : SequenceGroup) (v : Valid m)
    (hids : ((liveSeqs g).map Sequence.seq_id).Nodup)
    (hdev : ∀ s ∈ liveSeqs g, ∀ bt,
      alookup m.block_tables s.seq_id = some bt →
      ∀ b ∈ bt, b.device = Device.GPU)
    (hown : ∀ b, inGroupBlocks m g b → ∀ id bt',
      id ∉ (liveSeqs g).map Sequence.seq_id →
      alookup m.block_tables id = some bt' → b ∉ bt')
    (mp1 mp2 : List (Nat × Nat)) (m1 m2 : BlockSpaceManager)
    (h1 : m.swap_out g = some (mp1, m1))
    (h2 : m1.swap_in g = some (mp2, m2)) :
    ∃ φ : PhysicalTokenBlock → PhysicalTokenBlock,
      (∀ s ∈ liveSeqs g, ∀ bt, alookup m.block_tables s.seq_id = some bt →
        alookup m2.block_tables s.seq_id = some (bt.map φ)) ∧
      (∀ b b', inGroupBlocks m g b → inGroupBlocks m g b' →
        φ b = φ b' → b = b') ∧
      (∀ id, id ∉ (liveSeqs g).map Sequence.seq_id →
        alookup m2.block_tables id = alookup m.block_tables id) ∧
      (∀ b, inGroupBlocks m g b → m2.refs.get (φ b) = m.refs.get b) := by
  have hlive_of : ∀ s ∈ liveSeqs g,
      s ∈ g.seqs ∧ s.status ≠ SequenceStatus.FINISHED := by
    intro s hs
    have h := List.mem_filter.mp hs
    exact ⟨h.1, by simpa using h.2⟩
  have v1 : Valid m1 := valid_swapOut m g v hids hdev mp1 m1 h1
  unfold BlockSpaceManager.swap_out at h1
  split at h1
  next heqS1 => exact absurd h1 (by simp)
  next dstA1 srcA1 r1x mpx1 tabs1 heqS1 =>
  simp only [Option.some.injEq, Prod.mk.injEq] at h1
  obtain ⟨hret1, hm1⟩ := h1
  subst hm1
  set M1 : BlockSpaceManager := { m with
    cpu_allocator := dstA1
    gpu_allocator := srcA1
    refs := r1x
    block_tables := tabs1 } with hM1
  have hM1g : M1.gpu_allocator = srcA1 := by rw [hM1]
  have hM1c : M1.cpu_allocator = dstA1 := by rw [hM1]
  have hM1r : M1.refs = r1x := by rw [hM1]
  have hM1t : M1.block_tables = tabs1 := by rw [hM1]
  have hM1bs : M1.block_size = m.block_size := by rw [hM1]
  have htabsOut : ∀ s ∈ g.seqs, s.status ≠ SequenceStatus.FINISHED →
      ∀ bt, alookup m.block_tables s.seq_id = some bt →
      ∀ b ∈ bt, PoolG m b := by
    intro s hs hlive bt hbt b hb
    have hsl : s ∈ liveSeqs g :=
      List.mem_filter.mpr ⟨hs, by simpa using hlive⟩
    have hdev' := hdev s hsl bt hbt b hb
    rcases v.tablesPool _ (alookup_mem _ _ _ hbt) b hb with hg | hc
    · exact hg
    · exact absurd (hc.1.symm.trans hdev') (by decide)
  obtain ⟨o1, o2, o3, o4, o5, o6, o7, o8, o9, o10, o11, o12, o13⟩ :=
    swapSeqs_char (swapCtxOut m) g.seqs
      m.cpu_allocator m.gpu_allocator m.refs [] m.block_tables
      dstA1 srcA1 r1x mpx1 tabs1 (swapInvInit_out m v) v.keysNodup hids
      htabsOut heqS1
  have htabs1C : ∀ s ∈ liveSeqs g, ∀ bt,
      alookup tabs1 s.seq_id = some bt → ∀ b ∈ bt, PoolC m b := by
    intro s hs bt1 hbt1 b hb
    obtain ⟨hsg, hst⟩ := hlive_of s hs
    cases hbt0 : alookup m.block_tables s.seq_id with
    | none =>
        have hn : alookup tabs1 s.seq_id = none := by
          rw [alookup_eq_none_iff, o2]
          exact (alookup_eq_none_iff _ _).mp hbt0
        rw [hn] at hbt1
        exact absurd hbt1 (by simp)
    | some bt0 =>
        obtain ⟨nt1, hnt1, F1⟩ := o11 s hsg hst bt0 hbt0
        rw [hnt1, Option.some.injEq] at hbt1
        subst hbt1
        obtain ⟨x, hxmem, hx⟩ := forall₂_mem_right F1 hb
        exact (o1.mpTyped (x, b) (blookup_mem _ _ _ hx)).2
  have hPC1 : ∀ b, PoolC m b → PoolC M1 b := by
    intro b hb
    refine ⟨hb.1, ?_, ?_⟩
    · rw [hM1c, o6]
      exact hb.2.1
    · rw [hM1bs]
      exact hb.2.2
  have hdev1 : ∀ s ∈ liveSeqs g, ∀ bt,
      alookup M1.block_tables s.seq_id = some bt →
      ∀ b ∈ bt, b.device = Device.CPU := by
    intro s hs bt hbt b hb
    rw [hM1t] at hbt
    exact (htabs1C s hs bt hbt b hb).1
  have htabsIn : ∀ s ∈ g.seqs, s.status ≠ SequenceStatus.FINISHED →
      ∀ bt, alookup M1.block_tables s.seq_id = some bt →
      ∀ b ∈ bt, PoolC M1 b := by
    intro s hs hlive bt hbt b hb
    rw [hM1t] at hbt
    have hsl : s ∈ liveSeqs g :=
      List.mem_filter.mpr ⟨hs, by simpa using hlive⟩
    exact hPC1 b (htabs1C s hsl bt hbt b hb)
  have v2 : Valid m2 := valid_swapIn M1 g v1 hids hdev1 mp2 m2 h2
  unfold BlockSpaceManager.swap_in at h2
  split at h2
  next heqS2 => exact absurd h2 (by simp)
  next dstA2 srcA2 r2x mpx2 tabs2 heqS2 =>
  simp only [Option.some.injEq, Prod.mk.injEq] at h2
  obtain ⟨hret2, hm2⟩ := h2
  subst hm2
  set M2 : BlockSpaceManager := { M1 with
    gpu_allocator := dstA2
    cpu_allocator := srcA2
    refs := r2x
    block_tables := tabs2 } with hM2
  have hM2g : M2.gpu_allocator = dstA2 := by rw [hM2]
  have hM2r : M2.refs = r2x := by rw [hM2]
  have hM2t : M2.block_tables = tabs2 := by rw [hM2]
  have hM2bs : M2.block_size = M1.block_size := by rw [hM2]
  obtain ⟨i1, i2, i3, i4, i5, i6, i7, i8, i9, i10, i11, i12, i13⟩ :=
    swapSeqs_char (swapCtxIn M1) g.seqs
      M1.gpu_allocator M1.cpu_allocator M1.refs [] M1.block_tables
      dstA2 srcA2 r2x mpx2 tabs2 (swapInvInit_in M1 v1) v1.keysNodup hids
      htabsIn heqS2
  have hφeq : ∀ b c d, blookup mpx1 b = some c → blookup mpx2 c = some d →
      ((blookup mpx1 b).bind (fun c => blookup mpx2 c)).getD b = d := by
    intro b c d hc hd
    rw [hc]
    simp [hd]
  have hchain : ∀ b, inGroupBlocks m g b →
      ∃ c d, blookup mpx1 b = some c ∧ blookup mpx2 c = some d := by
    intro b hb
    obtain ⟨s, hs, bt, hbt, hbm⟩ := hb
    obtain ⟨hsg, hst⟩ := hlive_of s hs
    obtain ⟨nt1, hnt1, F1⟩ := o11 s hsg hst bt hbt
    obtain ⟨c, hcmem, hc⟩ := forall₂_mem_left F1 hbm
    obtain ⟨nt2, hnt2, F2⟩ := i11 s hsg hst nt1 (by rw [hM1t]; exact hnt1)
    obtain ⟨d, hdmem, hd⟩ := forall₂_mem_left F2 hcmem
    exact ⟨c, d, hc, hd⟩
  have hinj : ∀ b b', inGroupBlocks m g b → inGroupBlocks m g b' →
      ((blookup mpx1 b).bind (fun c => blookup mpx2 c)).getD b =
      ((blookup mpx1 b').bind (fun c => blookup mpx2 c)).getD b' →
      b = b' := by
    intro b b' hb hb' he
    obtain ⟨c, d, hc, hd⟩ := hchain b hb
    obtain ⟨c', d', hc', hd'⟩ := hchain b' hb'
    rw [hφeq b c d hc hd, hφeq b' c' d' hc' hd'] at he
    subst he
    have hcc : c = c' :=
      blookup_inj_of_vals_nodup mpx2 i1.mpValsNodup c c' d hd hd'
    subst hcc
    exact blookup_inj_of_vals_nodup mpx1 o1.mpValsNodup b b' c hc hc'
  have hmap : ∀ s ∈ liveSeqs g, ∀ bt,
      alookup m.block_tables s.seq_id = some bt →
      alookup tabs2 s.seq_id = some (bt.map (fun b =>
        ((blookup mpx1 b).bind (fun c => blookup mpx2 c)).getD b)) := by
    intro s hs bt hbt
    obtain ⟨hsg, hst⟩ := hlive_of s hs
    obtain ⟨nt1, hnt1, F1⟩ := o11 s hsg hst bt hbt
    obtain ⟨nt2, hnt2, F2⟩ := i11 s hsg hst nt1 (by rw [hM1t]; exact hnt1)
    have F12 := forall₂_comp F1 F2
    have hnt2eq : nt2 = bt.map (fun b =>
        ((blookup mpx1 b).bind (fun c => blookup mpx2 c)).getD b) := by
      apply forall₂_eq_map
      apply List.Forall₂.imp ?_ F12
      intro a cc hac
      obtain ⟨bmid, hb1, hb2⟩ := hac
      exact hφeq a bmid cc hb1 hb2
    rw [hnt2, hnt2eq]
  have hrefs : ∀ b, inGroupBlocks m g b →
      r2x.get (((blookup mpx1 b).bind (fun c => blookup mpx2 c)).getD b) =
      m.refs.get b := by
    intro b hb
    obtain ⟨c, d, hc, hd⟩ := hchain b hb
    rw [hφeq b c d hc hd]
    obtain ⟨s0, hs0, bt0g, hbt0g, hbm0⟩ := hb
    have hpbm : PoolBlock m b :=
      v.tablesPool _ (alookup_mem _ _ _ hbt0g) b hbm0
    have hb' : inGroupBlocks m g b := ⟨s0, hs0, bt0g, hbt0g, hbm0⟩
    have hcd_mem : (c, d) ∈ mpx2 := blookup_mem _ _ _ hd
    have hPG1d : PoolG M1 d := (i1.mpTyped (c, d) hcd_mem).2
    have hfr : M1.refs.get d = 0 := by
      rcases i13 (c, d) hcd_mem with h0 | h0
      · exact absurd h0 (List.not_mem_nil _)
      · exact h0
    have hocc1d : tableOccs tabs1 d = 0 := by
      have hx := v1.refOcc d (Or.inl hPG1d)
      rw [hM1t] at hx
      omega
    have hPG2d : PoolG M2 d := by
      refine ⟨hPG1d.1, ?_, ?_⟩
      · rw [hM2g, i6]
        exact hPG1d.2.1
      · rw [hM2bs]
        exact hPG1d.2.2
    have h2occ := v2.refOcc d (Or.inl hPG2d)
    rw [hM2t, hM2r] at h2occ
    have h0occ := v.refOcc b hpbm
    have hkeys20 : tabs2.map Prod.fst = m.block_tables.map Prod.fst := by
      rw [i2, hM1t, o2]
    have hcnt : ∀ id bt0 bt0', alookup m.block_tables id = some bt0 →
        alookup tabs2 id = some bt0' → bt0'.count d = bt0.count b := by
      intro id bt0 bt0' h0 h0'
      by_cases hidlive : id ∈ (liveSeqs g).map Sequence.seq_id
      · obtain ⟨s1, hs1, hid1⟩ := List.mem_map.mp hidlive
        subst hid1
        have hmapped := hmap s1 hs1 bt0 h0
        rw [hmapped, Option.some.injEq] at h0'
        subst h0'
        rw [← hφeq b c d hc hd]
        exact count_map_local
          (fun b => ((blookup mpx1 b).bind (fun c => blookup mpx2 c)).getD b)
          b bt0 (fun x hx hfx => hinj x b ⟨s1, hs1, bt0, h0, hx⟩ hb' hfx)
      · have hu2 : alookup tabs2 id = alookup M1.block_tables id :=
          i12 id hidlive
        have hu1 : alookup tabs1 id = alookup m.block_tables id :=
          o12 id hidlive
        rw [hu2, hM1t, hu1, h0, Option.some.injEq] at h0'
        subst h0'
        have hbnot : b ∉ bt0 := hown b hb' id bt0 hidlive h0
        have hdnot : d ∉ bt0 := by
          intro hdin
          have hmem1 : (id, bt0) ∈ tabs1 := by
            apply alookup_mem
            rw [hu1]
            exact h0
          have hle := count_le_tableOccs tabs1 id bt0 d hmem1
          have hpos : 0 < bt0.count d := List.count_pos_iff.mpr hdin
          omega
        rw [List.count_eq_zero_of_not_mem hdnot,
          List.count_eq_zero_of_not_mem hbnot]
    have hocceq : tableOccs tabs2 d = tableOccs m.block_tables b :=
      tableOccs_eq_of_counts m.block_tables tabs2 hkeys20 v.keysNodup b d hcnt
    omega
  refine ⟨fun b => ((blookup mpx1 b).bind (fun c => blookup mpx2 c)).getD b,
    ?_, hinj, ?_, ?_⟩
  · intro s hs bt hbt
    rw [hM2t]
    exact hmap s hs bt hbt
  · intro id hid
    rw [hM2t, i12 id hid, hM1t, o12 id hid]
  · intro b hb
    rw [hM2r]
    exact hrefs b hb

theorem swap_out_then_swap_in_roundtrip_witness :
    ∃ φ : PhysicalTokenBlock → PhysicalTokenBlock,
      (∀ s ∈ liveSeqs ⟨9, [⟨1, 4, [⟨0, 4, [5]⟩], SequenceStatus.RUNNING⟩]⟩,
        ∀ bt, alookup (BlockSpaceManager.mk 4 1 1
            ⟨Device.GPU, 4, 1, []⟩
            ⟨Device.CPU, 4, 1, [⟨Device.CPU, 0, 4⟩]⟩
            ⟨[1], [0]⟩
            [(1, [⟨Device.GPU, 0, 4⟩])]).block_tables s.seq_id = some bt →
        alookup (BlockSpaceManager.mk 4 1 1
            ⟨Device.GPU, 4, 1, []⟩
            ⟨Device.CPU, 4, 1, [⟨Device.CPU, 0, 4⟩]⟩
            ⟨[1], [0]⟩
            [(1, [⟨Device.GPU, 0, 4⟩])]).block_tables s.seq_id =
          some (bt.map φ)) ∧
      (∀ b b', inGroupBlocks (BlockSpaceManager.mk 4 1 1
            ⟨Device.GPU, 4, 1, []⟩
            ⟨Device.CPU, 4, 1, [⟨Device.CPU, 0, 4⟩]⟩
            ⟨[1], [0]⟩
            [(1, [⟨Device.GPU, 0, 4⟩])])
          ⟨9, [⟨1, 4, [⟨0, 4, [5]⟩], SequenceStatus.RUNNING⟩]⟩ b →
        inGroupBlocks (BlockSpaceManager.mk 4 1 1
            ⟨Device.GPU, 4, 1, []⟩
            ⟨Device.CPU, 4, 1, [⟨Device.CPU, 0, 4⟩]⟩
            ⟨[1], [0]⟩
            [(1, [⟨Device.GPU, 0, 4⟩])])
          ⟨9, [⟨1, 4, [⟨0, 4, [5]⟩], SequenceStatus.RUNNING⟩]⟩ b' →
        φ b = φ b' → b = b') ∧
      (∀ id, id ∉ (liveSeqs
          ⟨9, [⟨1, 4, [⟨0, 4, [5]⟩], SequenceStatus.RUNNING⟩]⟩).map
            Sequence.seq_id →
        alookup (BlockSpaceManager.mk 4 1 1
            ⟨Device.GPU, 4, 1, []⟩
            ⟨Device.CPU, 4, 1, [⟨Device.CPU, 0, 4⟩]⟩
            ⟨[1], [0]⟩
            [(1, [⟨Device.GPU, 0, 4⟩])]).block_tables id =
        alookup (BlockSpaceManager.mk 4 1 1
            ⟨Device.GPU, 4, 1, []⟩
            ⟨Device.CPU, 4, 1, [⟨Device.CPU, 0, 4⟩]⟩
            ⟨[1], [0]⟩
            [(1, [⟨Device.GPU, 0, 4⟩])]).block_tables id) ∧
      (∀ b, inGroupBlocks (BlockSpaceManager.mk 4 1 1
            ⟨Device.GPU, 4, 1, []⟩
            ⟨Device.CPU, 4, 1, [⟨Device.CPU, 0, 4⟩]⟩
            ⟨[1], [0]⟩
            [(1, [⟨Device.GPU, 0, 4⟩])])
          ⟨9, [⟨1, 4, [⟨0, 4, [5]⟩], SequenceStatus.RUNNING⟩]⟩ b →
        (BlockSpaceManager.mk 4 1 1
            ⟨Device.GPU, 4, 1, []⟩
            ⟨Device.CPU, 4, 1, [⟨Device.CPU, 0, 4⟩]⟩
            ⟨[1], [0]⟩
            [(1, [⟨Device.GPU, 0, 4⟩])]).refs.get (φ b) =
        (BlockSpaceManager.mk 4 1 1
            ⟨Device.GPU, 4, 1, []⟩
            ⟨Device.CPU, 4, 1, [⟨Device.CPU, 0, 4⟩]⟩
            ⟨[1], [0]⟩
            [(1, [⟨Device.GPU, 0, 4⟩])]).refs.get b) := by
  refine swap_out_then_swap_in_roundtrip
    (BlockSpaceManager.mk 4 1 1
      ⟨Device.GPU, 4, 1, []⟩
      ⟨Device.CPU, 4, 1, [⟨Device.CPU, 0, 4⟩]⟩
      ⟨[1], [0]⟩
      [(1, [⟨Device.GPU, 0, 4⟩])])
    ⟨9, [⟨1, 4, [⟨0, 4, [5]⟩], SequenceStatus.RUNNING⟩]⟩
    ?_ (by decide) ?_ ?_ [(0, 0)] [(0, 0)]
    (BlockSpaceManager.mk 4 1 1
      ⟨Device.GPU, 4, 1, [⟨Device.GPU, 0, 4⟩]⟩
      ⟨Device.CPU, 4, 1, []⟩
      ⟨[0], [1]⟩
      [(1, [⟨Device.CPU, 0, 4⟩])])
    (BlockSpaceManager.mk 4 1 1
      ⟨Device.GPU, 4, 1, []⟩
      ⟨Device.CPU, 4, 1, [⟨Device.CPU, 0, 4⟩]⟩
      ⟨[1], [0]⟩
      [(1, [⟨Device.GPU, 0, 4⟩])])
    (by decide) (by decide)
  · -- Valid
    refine ⟨rfl, rfl, ?_, ?_, by decide, by decide, ?_, by decide, ?_, ?_⟩
    · intro b hb
      exact absurd hb (List.not_mem_nil _)
    · intro b hb
      rw [List.mem_singleton] at hb
      subst hb
      exact ⟨rfl, by decide, rfl⟩
    · intro p hp b hb
      rw [List.mem_singleton] at hp
      subst hp
      rw [List.mem_singleton] at hb
      subst hb
      exact Or.inl ⟨rfl, by decide, rfl⟩
    · intro b hb
      obtain ⟨d, n, sz⟩ := b
      rcases hb with ⟨hd, hn, hs⟩ | ⟨hd, hn, hs⟩
      · simp only at hd hn hs
        subst hd
        subst hs
        have hn0 : n = 0 := by omega
        subst hn0
        decide
      · simp only at hd hn hs
        subst hd
        subst hs
        have hn0 : n = 0 := by omega
        subst hn0
        decide
    · intro b hb
      obtain ⟨d, n, sz⟩ := b
      rcases hb with ⟨hd, hn, hs⟩ | ⟨hd, hn, hs⟩
      · simp only at hd hn hs
        subst hd
        subst hs
        have hn0 : n = 0 := by omega
        subst hn0
        exact iff_of_false (by simp [onFreeList]) (by decide)
      · simp only at hd hn hs
        subst hd
        subst hs
        have hn0 : n = 0 := by omega
        subst hn0
        exact iff_of_true (by simp [onFreeList]) rfl
  · -- hdev
    intro s hs bt hbt b hb
    have hs' : s = ⟨1, 4, [⟨0, 4, [5]⟩], SequenceStatus.RUNNING⟩ := by
      have hL : liveSeqs ⟨9, [⟨1, 4, [⟨0, 4, [5]⟩],
          SequenceStatus.RUNNING⟩]⟩ =
          [⟨1, 4, [⟨0, 4, [5]⟩], SequenceStatus.RUNNING⟩] := rfl
      rw [hL, List.mem_singleton] at hs
      exact hs
    subst hs'
    have hbt' : some [(⟨Device.GPU, 0, 4⟩ : PhysicalTokenBlock)] =
        some bt := hbt
    rw [Option.some.injEq] at hbt'
    subst hbt'
    rw [List.mem_singleton] at hb
    subst hb
    rfl
  · -- hown
    intro b _ id bt' hid hlk
    exfalso
    have hne : (1 : Nat) ≠ id := by
      intro hc
      apply hid
      rw [← hc]
      decide
    have hnone : alookup [(1, [(⟨Device.GPU, 0, 4⟩ :
        PhysicalTokenBlock)])] id = none := by
      simp [alookup, hne]
    have hlk' : alookup [(1, [(⟨Device.GPU, 0, 4⟩ :
        PhysicalTokenBlock)])] id = some bt' := hlk
    rw [hnone] at hlk'
    exact absurd hlk' (by simp)

/-- C1: in every successful `Scheduler.step`, the plan handed to
`execute_stage` never has both `blocks_to_swap_in` and
`blocks_to_swap_out` non-empty: a single step never swaps blocks in and
out at the same time (the code's `assert not blocks_to_swap_out` guard,
modelled as a `none`-producing check, enforces it). -/
theorem step_no_simultaneous_swap (st : SchedulerState)
    (inputs : List SequenceGroup) (plan : Scheduler.StepPlan) (st' : SchedulerState)
    (h : Scheduler.step st inputs = some (plan, st')) :
    ¬ (plan.blocks_to_swap_in ≠ [] ∧ plan.blocks_to_swap_out ≠ []) := by
  unfold Scheduler.step at h
  split at h
  next => exact absurd h (by simp)
  next st1 b2so b2c1 heq1 =>
    split at h
    next => exact absurd h (by simp)
    next st2 b2si b2c2 heq2 =>
      simp only [] at h
      split at h
      next => exact absurd h (by simp)
      next st3 heq3 =>
        split at h
        next hcond => exact absurd h (by simp)
        next hcond =>
          split at h
          next => exact absurd h (by simp)
          next pt gt ct bts heq4 =>
            simp only [Option.some.injEq, Prod.mk.injEq] at h
            obtain ⟨hplan, hst⟩ := h
            rw [← hplan]
            exact hcond

theorem step_no_simultaneous_swap_witness :
    ¬ ((Scheduler.StepPlan.mk [] [] [] [] [] [] []).blocks_to_swap_in ≠ [] ∧
       (Scheduler.StepPlan.mk [] [] [] [] [] [] []).blocks_to_swap_out ≠ []) :=
  step_no_simultaneous_swap
    ⟨BlockSpaceManager.mk 4 1 1
        ⟨Device.GPU, 4, 1, [⟨Device.GPU, 0, 4⟩]⟩
        ⟨Device.CPU, 4, 1, [⟨Device.CPU, 0, 4⟩]⟩
        ⟨[0], [0]⟩ [], [], [], [], []⟩
    [] (Scheduler.StepPlan.mk [] [] [] [] [] [] [])
    ⟨BlockSpaceManager.mk 4 1 1
        ⟨Device.GPU, 4, 1, [⟨Device.GPU, 0, 4⟩]⟩
        ⟨Device.CPU, 4, 1, [⟨Device.CPU, 0, 4⟩]⟩
        ⟨[0], [0]⟩ [], [], [], [], []⟩
    (by decide)

/-- The copy-on-write pairs emitted by one `Scheduler._append` walk, in
walk order (an observer of `appendGroup`). -/
def appendGroupEmits (bm : BlockSpaceManager) :
    List Sequence → Option (List (Nat × Nat))
  | [] => some []
  | s :: rest =>
      if s.status = SequenceStatus.FINISHED then appendGroupEmits bm rest
      else
        match bm.append s with
        | none => none
        | some (ret, bm1) =>
            match ret with
            | none => appendGroupEmits bm1 rest
            | some p => (appendGroupEmits bm1 rest).map (fun ps => p :: ps)

theorem alookup_dictUpdate (ps : List (Nat × Nat)) :
    ∀ (d : List (Nat × Nat)) (k : Nat),
    alookup (dictUpdate d ps) k =
      match (ps.filter (fun p => p.1 = k)).getLast? with
      | some p => some p.2
      | none => alookup d k := by
  induction ps with
  | nil =>
      intro d k
      rfl
  | cons p rest ih =>
      intro d k
      have h1 : dictUpdate d (p :: rest) =
          dictUpdate (aset d p.1 p.2) rest := rfl
      rw [h1, ih]
      by_cases hk : p.1 = k
      · have h2 : (p :: rest).filter (fun q => q.1 = k) =
            p :: rest.filter (fun q => q.1 = k) := by
          simp [List.filter_cons, hk]
        rw [h2]
        cases hl : (rest.filter (fun q => q.1 = k)).getLast? with
        | some q =>
            have hgl : (p :: rest.filter (fun q => q.1 = k)).getLast? =
                some q := by
              cases hfe : rest.filter (fun q => q.1 = k) with
              | nil =>
                  rw [hfe] at hl
                  exact absurd hl (by simp)
              | cons b t =>
                  rw [hfe] at hl
                  rw [List.getLast?_cons_cons]
                  exact hl
            rw [hgl]
        | none =>
            have hfe : rest.filter (fun q => q.1 = k) = [] :=
              List.getLast?_eq_none_iff.mp hl
            rw [hfe]
            show alookup (aset d p.1 p.2) k = some p.2
            rw [← hk]
            exact alookup_aset_self d p.1 p.2
      · have h2 : (p :: rest).filter (fun q => q.1 = k) =
            rest.filter (fun q => q.1 = k) := by
          simp [List.filter_cons, hk]
        rw [h2]
        cases hl : (rest.filter (fun q => q.1 = k)).getLast? with
        | some q => rfl
        | none =>
            show alookup (aset d p.1 p.2) k = alookup d k
            exact alookup_aset_ne d p.1 k p.2 (fun hc => hk hc.symm)

theorem dictUpdate_keys_nodup (ps : List (Nat × Nat)) :
    ∀ (d : List (Nat × Nat)), (d.map Prod.fst).Nodup →
      ((dictUpdate d ps).map Prod.fst).Nodup := by
  induction ps with
  | nil =>
      intro d hd
      exact hd
  | cons p rest ih =>
      intro d hd
      exact ih (aset d p.1 p.2) (keys_aset_nodup d p.1 p.2 hd)

theorem appendGroup_emits_dictUpdate : ∀ (seqs : List Sequence)
    (bm : BlockSpaceManager) (b2c : List (Nat × Nat))
    (bm' : BlockSpaceManager) (b2c' : List (Nat × Nat)),
    Scheduler.appendGroup bm b2c seqs = some (bm', b2c') →
    ∃ ps, appendGroupEmits bm seqs = some ps ∧
      b2c' = dictUpdate b2c ps := by
  intro seqs
  induction seqs with
  | nil =>
      intro bm b2c bm' b2c' h
      simp only [Scheduler.appendGroup, Option.some.injEq,
        Prod.mk.injEq] at h
      exact ⟨[], rfl, h.2.symm⟩
  | cons s rest ih =>
      intro bm b2c bm' b2c' h
      unfold Scheduler.appendGroup at h
      split at h
      next hfin =>
        obtain ⟨ps, hps, hd⟩ := ih bm b2c bm' b2c' h
        refine ⟨ps, ?_, hd⟩
        have e : appendGroupEmits bm (s :: rest) =
            appendGroupEmits bm rest := by
          conv_lhs => rw [appendGroupEmits]
          rw [if_pos hfin]
        rw [e]
        exact hps
      next hfin =>
        split at h
        next happ => exact absurd h (by simp)
        next ret bm1 happ =>
          cases ret with
          | none =>
              have h' : Scheduler.appendGroup bm1 b2c rest =
                  some (bm', b2c') := h
              obtain ⟨ps, hps, hd⟩ := ih bm1 b2c bm' b2c' h'
              refine ⟨ps, ?_, hd⟩
              have e : appendGroupEmits bm (s :: rest) =
                  appendGroupEmits bm1 rest := by
                conv_lhs => rw [appendGroupEmits]
                rw [if_neg hfin, happ]
              rw [e]
              exact hps
          | some pr =>
              obtain ⟨src, dst⟩ := pr
              have h' : Scheduler.appendGroup bm1 (aset b2c src dst) rest =
                  some (bm', b2c') := h
              obtain ⟨ps, hps, hd⟩ := ih bm1 (aset b2c src dst) bm' b2c' h'
              refine ⟨(src, dst) :: ps, ?_, hd⟩
              have e : appendGroupEmits bm (s :: rest) =
                  (appendGroupEmits bm1 rest).map
                    (fun ps => (src, dst) :: ps) := by
                conv_lhs => rw [appendGroupEmits]
                rw [if_neg hfin, happ]
              rw [e, hps]
              rfl

/-- C10: within one `Scheduler._append` walk, the `blocks_to_copy` dict
delivered to the worker keeps at most one destination per source block
number: the emitted copy-on-write pairs are folded in with
`d[src] = dst`, so for each source only the pair emitted last survives
(a later sibling's entry overwrites an earlier sibling's), and the dict's
keys stay duplicate-free. -/
theorem appendGroup_copy_overwrite (bm : BlockSpaceManager)
    (b2c : List (Nat × Nat)) (seqs : List Sequence)
    (bm' : BlockSpaceManager) (b2c' : List (Nat × Nat))
    (h : Scheduler.appendGroup bm b2c seqs = some (bm', b2c')) :
    ∃ ps, appendGroupEmits bm seqs = some ps ∧
      b2c' = dictUpdate b2c ps ∧
      (∀ src, alookup b2c' src =
        match (ps.filter (fun p => p.1 = src)).getLast? with
        | some p => some p.2
        | none => alookup b2c src) ∧
      ((b2c.map Prod.fst).Nodup → (b2c'.map Prod.fst).Nodup) := by
  obtain ⟨ps, hps, hd⟩ := appendGroup_emits_dictUpdate seqs bm b2c bm' b2c' h
  refine ⟨ps, hps, hd, ?_, ?_⟩
  · intro src
    rw [hd]
    exact alookup_dictUpdate ps b2c src
  · intro hnd
    rw [hd]
    exact dictUpdate_keys_nodup ps b2c hnd

theorem appendGroup_copy_overwrite_witness :
    ∃ ps, appendGroupEmits (BlockSpaceManager.mk 4 4 1
        ⟨Device.GPU, 4, 4, [⟨Device.GPU, 0, 4⟩, ⟨Device.GPU, 1, 4⟩,
          ⟨Device.GPU, 2, 4⟩]⟩
        ⟨Device.CPU, 4, 1, [⟨Device.CPU, 0, 4⟩]⟩
        ⟨[0, 0, 0, 3], [0]⟩
        [(1, [⟨Device.GPU, 3, 4⟩]), (2, [⟨Device.GPU, 3, 4⟩]),
         (3, [⟨Device.GPU, 3, 4⟩])])
      [⟨1, 4, [⟨0, 4, [5]⟩], SequenceStatus.RUNNING⟩,
       ⟨2, 4, [⟨0, 4, [6]⟩], SequenceStatus.RUNNING⟩,
       ⟨3, 4, [⟨0, 4, [7]⟩], SequenceStatus.RUNNING⟩] = some ps ∧
      ([(3, 1)] : List (Nat × Nat)) = dictUpdate [] ps ∧
      (∀ src, alookup ([(3, 1)] : List (Nat × Nat)) src =
        match (ps.filter (fun p => p.1 = src)).getLast? with
        | some p => some p.2
        | none => alookup ([] : List (Nat × Nat)) src) ∧
      ((([] : List (Nat × Nat)).map Prod.fst).Nodup →
        (([(3, 1)] : List (Nat × Nat)).map Prod.fst).Nodup) :=
  appendGroup_copy_overwrite
    (BlockSpaceManager.mk 4 4 1
      ⟨Device.GPU, 4, 4, [⟨Device.GPU, 0, 4⟩, ⟨Device.GPU, 1, 4⟩,
        ⟨Device.GPU, 2, 4⟩]⟩
      ⟨Device.CPU, 4, 1, [⟨Device.CPU, 0, 4⟩]⟩
      ⟨[0, 0, 0, 3], [0]⟩
      [(1, [⟨Device.GPU, 3, 4⟩]), (2, [⟨Device.GPU, 3, 4⟩]),
       (3, [⟨Device.GPU, 3, 4⟩])])
    []
    [⟨1, 4, [⟨0, 4, [5]⟩], SequenceStatus.RUNNING⟩,
     ⟨2, 4, [⟨0, 4, [6]⟩], SequenceStatus.RUNNING⟩,
     ⟨3, 4, [⟨0, 4, [7]⟩], SequenceStatus.RUNNING⟩]
    (BlockSpaceManager.mk 4 4 1
      ⟨Device.GPU, 4, 4, [⟨Device.GPU, 0, 4⟩]⟩
      ⟨Device.CPU, 4, 1, [⟨Device.CPU, 0, 4⟩]⟩
      ⟨[0, 1, 1, 1], [0]⟩
      [(1, [⟨Device.GPU, 2, 4⟩]), (2, [⟨Device.GPU, 1, 4⟩]),
       (3, [⟨Device.GPU, 3, 4⟩])])
    [(3, 1)]
    (by decide)

/-- The prompt length `step` charges against the token budget when
admitting a group: the token count of the group's first sequence. -/
def promptLen (g : SequenceGroup) : Nat :=
  (g.seqs.head?.map Sequence.get_len).getD 0

/-- Characterization of the admission loop: some prefix of the pending
queue is admitted in FIFO order, each admission staying within the token
budget and crediting its prompt length, the queue is truncated to the
unconsumed tail, and when the walk stops early the first unconsumed group
fails one of the two admission tests in the final state. -/
theorem admitLoop_spec : ∀ (pend : List SequenceGroup) (nbt : Nat)
    (st : SchedulerState) (st' : SchedulerState) (nbt' : Nat),
    Scheduler.admitLoop pend nbt st = some (st', nbt') →
    ∃ k, k ≤ pend.length ∧
      st'.pending = pend.drop k ∧
      st'.running = st.running ++ ((pend.take k).map markAllRunning) ∧
      st'.swapped = st.swapped ∧
      nbt' = nbt + ((pend.take k).map promptLen).sum ∧
      (∀ i, i < k →
        nbt + ((pend.take (i + 1)).map promptLen).sum ≤
          MAX_NUM_BATCHED_TOKENS) ∧
      (∀ i, i < k → ∀ (hik : i < pend.length), ∃ stA stB,
        stA.block_manager.can_allocate pend[i] = some true ∧
        Scheduler.allocateGroup stA pend[i] = some stB) ∧
      (∀ (hk : k < pend.length),
        st'.block_manager.can_allocate pend[k] = some false ∨
        MAX_NUM_BATCHED_TOKENS < nbt' + promptLen pend[k]) := by
  intro pend
  induction pend with
  | nil =>
      intro nbt st st' nbt' h
      simp only [Scheduler.admitLoop, Option.some.injEq, Prod.mk.injEq] at h
      obtain ⟨h1, h2⟩ := h
      subst h1
      subst h2
      refine ⟨0, by omega, rfl, by simp, rfl, by simp, ?_, ?_, ?_⟩
      · intro i hi
        omega
      · intro i hi
        omega
      · intro hk
        simp at hk
  | cons g rest ih =>
      intro nbt st st' nbt' h
      unfold Scheduler.admitLoop at h
      split at h
      next hhd => exact absurd h (by simp)
      next s0 hhd =>
        simp only [] at h
        split at h
        next hca => exact absurd h (by simp)
        next ca hca =>
          have hpl : promptLen g = s0.get_len := by
            unfold promptLen
            rw [hhd]
            rfl
          split at h
          next hcond =>
            split at h
            next halloc => exact absurd h (by simp)
            next st1 halloc =>
              obtain ⟨bm1, hal, hst1⟩ : ∃ bm1,
                  st.block_manager.allocate g = some bm1 ∧
                  st1 = { st with
                    block_manager := bm1
                    running := st.running ++ [markAllRunning g]
                    num_steps := aset st.num_steps g.group_id 0 } := by
                unfold Scheduler.allocateGroup at halloc
                cases hal : st.block_manager.allocate g with
                | none =>
                    rw [hal] at halloc
                    exact absurd halloc (by simp)
                | some bm1 =>
                    rw [hal] at halloc
                    simp only [Option.some.injEq] at halloc
                    exact ⟨bm1, rfl, halloc.symm⟩
              obtain ⟨k, hk, c1, c2, c3, c4, c5, c6, c7⟩ :=
                ih (nbt + s0.get_len) st1 st' nbt' h
              refine ⟨k + 1, by simp only [List.length_cons]; omega,
                ?_, ?_, ?_, ?_, ?_, ?_, ?_⟩
              · rw [c1]
                rfl
              · rw [c2, hst1]
                simp [List.take_succ_cons, List.append_assoc]
              · rw [c3, hst1]
              · rw [c4]
                simp only [List.take_succ_cons, List.map_cons,
                  List.sum_cons]
                rw [hpl]
                omega
              · intro i hi
                cases i with
                | zero =>
                    simp only [List.take_succ_cons, List.take_zero,
                      List.map_cons, List.map_nil, List.sum_cons,
                      List.sum_nil]
                    rw [hpl]
                    omega
                | succ j =>
                    have hc := c5 j (by omega)
                    simp only [List.take_succ_cons, List.map_cons,
                      List.sum_cons]
                    rw [hpl]
                    omega
              · intro i hi hik
                cases i with
                | zero =>
                    refine ⟨st, st1, ?_, halloc⟩
                    show st.block_manager.can_allocate g = some true
                    rw [hca, hcond.1]
                | succ j =>
                    have hik' : j < rest.length := by
                      simp only [List.length_cons] at hik
                      omega
                    have hc := c6 j (by omega) hik'
                    simpa using hc
              · intro hkk
                have hkk' : k < rest.length := by
                  simp only [List.length_cons] at hkk
                  omega
                have hc := c7 hkk'
                simpa using hc
          next hcond =>
            simp only [Option.some.injEq, Prod.mk.injEq] at h
            obtain ⟨h1, h2⟩ := h
            subst h1
            subst h2
            refine ⟨0, by omega, rfl, by simp, rfl, by simp, ?_, ?_, ?_⟩
            · intro i hi
              omega
            · intro i hi
              omega
            · intro hk0
              push_neg at hcond
              by_cases hcat : ca = true
              · right
                show MAX_NUM_BATCHED_TOKENS < nbt + promptLen g
                rw [hpl]
                exact hcond hcat
              · left
                show st.block_manager.can_allocate g = some false
                rw [hca]
                cases ca with
                | true => exact absurd rfl hcat
                | false => rfl

/-- C8: admission in `step` runs only when the swapped queue is empty
(otherwise phase 3 returns the state untouched); when it runs, the
pending groups (old queue then the freshly fetched inputs) are examined
in FIFO order: a prefix of `k` groups is admitted into `running` in
order, each admission passing `can_allocate` and keeping the cumulative
batched-token total within `MAX_NUM_BATCHED_TOKENS = 2048` as it credits
its prompt length; `pending` is truncated to the unconsumed tail, and if
the walk stopped early, the first unconsumed group fails one of the two
admission tests. -/
theorem step_admission_spec (st : SchedulerState)
    (inputs : List SequenceGroup) (nbt0 : Nat) (st' : SchedulerState)
    (h : Scheduler.phase3 st inputs nbt0 = some st') :
    (st.swapped ≠ [] → st' = st) ∧
    (st.swapped = [] → MAX_NUM_BATCHED_TOKENS = 2048 ∧
      ∃ k, k ≤ (st.pending ++ inputs).length ∧
        st'.pending = (st.pending ++ inputs).drop k ∧
        st'.running = st.running ++
          (((st.pending ++ inputs).take k).map markAllRunning) ∧
        (∀ i, i < k →
          nbt0 + (((st.pending ++ inputs).take (i + 1)).map promptLen).sum ≤
            MAX_NUM_BATCHED_TOKENS) ∧
        (∀ i, i < k → ∀ (hik : i < (st.pending ++ inputs).length),
          ∃ stA stB,
          stA.block_manager.can_allocate (st.pending ++ inputs)[i] =
            some true ∧
          Scheduler.allocateGroup stA (st.pending ++ inputs)[i] =
            some stB) ∧
        (∀ (hk : k < (st.pending ++ inputs).length),
          st'.block_manager.can_allocate (st.pending ++ inputs)[k] =
            some false ∨
          MAX_NUM_BATCHED_TOKENS <
            nbt0 + (((st.pending ++ inputs).take k).map promptLen).sum +
              promptLen (st.pending ++ inputs)[k])) := by
  unfold Scheduler.phase3 at h
  split at h
  next hsw =>
    simp only [] at h
    split at h
    next heqA => exact absurd h (by simp)
    next st2 nbtf heqA =>
      simp only [Option.some.injEq] at h
      subst h
      constructor
      · intro hne
        exact absurd hsw hne
      · intro _
        refine ⟨rfl, ?_⟩
        obtain ⟨k, hk, c1, c2, c3, c4, c5, c6, c7⟩ :=
          admitLoop_spec (st.pending ++ inputs) nbt0
            { st with pending := st.pending ++ inputs } st2 nbtf heqA
        refine ⟨k, hk, c1, c2, c5, c6, ?_⟩
        intro hkk
        have hc := c7 hkk
        rw [c4] at hc
        exact hc
  next hsw =>
    simp only [Option.some.injEq] at h
    subst h
    constructor
    · intro _
      rfl
    · intro hc
      exact absurd hc hsw

theorem step_admission_spec_witness :
    ((([] : List SequenceGroup) ≠ []) →
      SchedulerState.mk (BlockSpaceManager.mk 4 1 1
          ⟨Device.GPU, 4, 1, []⟩
          ⟨Device.CPU, 4, 1, [⟨Device.CPU, 0, 4⟩]⟩
          ⟨[1], [0]⟩ [(1, [⟨Device.GPU, 0, 4⟩])])
        [⟨7, [⟨1, 4, [⟨0, 4, [5]⟩], SequenceStatus.RUNNING⟩]⟩] [] []
        [(7, 0)] =
      SchedulerState.mk (BlockSpaceManager.mk 4 1 1
          ⟨Device.GPU, 4, 1, [⟨Device.GPU, 0, 4⟩]⟩
          ⟨Device.CPU, 4, 1, [⟨Device.CPU, 0, 4⟩]⟩
          ⟨[0], [0]⟩ [])
        [] [] [] []) ∧
    ((([] : List SequenceGroup) = []) → MAX_NUM_BATCHED_TOKENS = 2048 ∧
      ∃ k, k ≤ ([⟨7, [⟨1, 4, [⟨0, 4, [5]⟩], SequenceStatus.PENDING⟩]⟩] :
          List SequenceGroup).length ∧
        ([] : List SequenceGroup) =
          ([⟨7, [⟨1, 4, [⟨0, 4, [5]⟩], SequenceStatus.PENDING⟩]⟩] :
            List SequenceGroup).drop k ∧
        ([⟨7, [⟨1, 4, [⟨0, 4, [5]⟩], SequenceStatus.RUNNING⟩]⟩] :
            List SequenceGroup) = [] ++
          ((([⟨7, [⟨1, 4, [⟨0, 4, [5]⟩], SequenceStatus.PENDING⟩]⟩] :
            List SequenceGroup).take k).map markAllRunning) ∧
        (∀ i, i < k →
          0 + ((([⟨7, [⟨1, 4, [⟨0, 4, [5]⟩], SequenceStatus.PENDING⟩]⟩] :
            List SequenceGroup).take (i + 1)).map promptLen).sum ≤
            MAX_NUM_BATCHED_TOKENS) ∧
        (∀ i, i < k → ∀ (hik : i <
            ([⟨7, [⟨1, 4, [⟨0, 4, [5]⟩], SequenceStatus.PENDING⟩]⟩] :
              List SequenceGroup).length),
          ∃ stA stB,
          stA.block_manager.can_allocate
            ([⟨7, [⟨1, 4, [⟨0, 4, [5]⟩], SequenceStatus.PENDING⟩]⟩] :
              List SequenceGroup)[i] = some true ∧
          Scheduler.allocateGroup stA
            ([⟨7, [⟨1, 4, [⟨0, 4, [5]⟩], SequenceStatus.PENDING⟩]⟩] :
              List SequenceGroup)[i] = some stB) ∧
        (∀ (hk : k <
            ([⟨7, [⟨1, 4, [⟨0, 4, [5]⟩], SequenceStatus.PENDING⟩]⟩] :
              List SequenceGroup).length),
          (BlockSpaceManager.mk 4 1 1
            ⟨Device.GPU, 4, 1, []⟩
            ⟨Device.CPU, 4, 1, [⟨Device.CPU, 0, 4⟩]⟩
            ⟨[1], [0]⟩ [(1, [⟨Device.GPU, 0, 4⟩])]).can_allocate
              ([⟨7, [⟨1, 4, [⟨0, 4, [5]⟩], SequenceStatus.PENDING⟩]⟩] :
                List SequenceGroup)[k] = some false ∨
          MAX_NUM_BATCHED_TOKENS <
            0 + ((([⟨7, [⟨1, 4, [⟨0, 4, [5]⟩], SequenceStatus.PENDING⟩]⟩] :
              List SequenceGroup).take k).map promptLen).sum +
              promptLen ([⟨7, [⟨1, 4, [⟨0, 4, [5]⟩],
                SequenceStatus.PENDING⟩]⟩] :
                List SequenceGroup)[k])) :=
  step_admission_spec
    (SchedulerState.mk (BlockSpaceManager.mk 4 1 1
        ⟨Device.GPU, 4, 1, [⟨Device.GPU, 0, 4⟩]⟩
        ⟨Device.CPU, 4, 1, [⟨Device.CPU, 0, 4⟩]⟩
        ⟨[0], [0]⟩ [])
      [] [] [] [])
    [⟨7, [⟨1, 4, [⟨0, 4, [5]⟩], SequenceStatus.PENDING⟩]⟩] 0
    (SchedulerState.mk (BlockSpaceManager.mk 4 1 1
        ⟨Device.GPU, 4, 1, []⟩
        ⟨Device.CPU, 4, 1, [⟨Device.CPU, 0, 4⟩]⟩
        ⟨[1], [0]⟩ [(1, [⟨Device.GPU, 0, 4⟩])])
      [⟨7, [⟨1, 4, [⟨0, 4, [5]⟩], SequenceStatus.RUNNING⟩]⟩] [] []
      [(7, 0)])
    (by decide)

theorem seg_split (l : List SequenceGroup) (a b c : Nat) (hab : a ≤ b)
    (hbc : b ≤ c) :
    (l.drop a).take (c - a) =
      (l.drop a).take (b - a) ++ (l.drop b).take (c - b) := by
  have h1 : c - a = (b - a) + (c - b) := by omega
  have h2 : (l.drop a).drop (b - a) = l.drop b := by
    rw [List.drop_drop]
    congr 1
    omega
  rw [h1, List.take_add, h2]

theorem swapOutGroup_state (st : SchedulerState) (v : SequenceGroup)
    (b2so : List (Nat × Nat)) (st1 : SchedulerState)
    (b2so1 : List (Nat × Nat))
    (h : Scheduler.swapOutGroup st v b2so = some (st1, b2so1)) :
    st1.running = st.running ∧ st1.pending = st.pending ∧
    st1.swapped = st.swapped ++ [markSwapped v] := by
  unfold Scheduler.swapOutGroup at h
  split at h
  next =>
    split at h
    next => exact absurd h (by simp)
    next mapping bm1 heq =>
      simp only [Option.some.injEq, Prod.mk.injEq] at h
      obtain ⟨h1, h2⟩ := h
      rw [← h1]
      exact ⟨rfl, rfl, rfl⟩
  next => exact absurd h (by simp)

/-- Characterization of the inner preemption loop of phase 1: the cursor
only moves down, `running` and `pending` are untouched, and exactly the
groups at indices `[n1, n)` of the phase's original running list (the
youngest first) are appended to `swapped`. -/
theorem reserveInner_spec (running0 : List SequenceGroup)
    (g : SequenceGroup) (i : Nat) :
    ∀ (n : Nat) (st : SchedulerState) (b2so : List (Nat × Nat))
      (st1 : SchedulerState) (b2so1 : List (Nat × Nat)) (n1 : Nat)
      (flag : Bool),
    Scheduler.reserveInner running0 g i n st b2so =
      some (st1, b2so1, n1, flag) →
    n1 ≤ n ∧ st1.running = st.running ∧ st1.pending = st.pending ∧
    st1.swapped = st.swapped ++
      (((running0.drop n1).take (n - n1)).reverse.map markSwapped) := by
  intro n
  induction n with
  | zero =>
      intro st b2so st1 b2so1 n1 flag h
      unfold Scheduler.reserveInner at h
      split at h
      next hca =>
        simp only [Option.some.injEq, Prod.mk.injEq] at h
        obtain ⟨h1, h2, h3, h4⟩ := h
        rw [← h1, ← h3]
        refine ⟨Nat.le_refl _, rfl, rfl, ?_⟩
        simp
      next hca =>
        split at h
        next => exact absurd h (by simp)
        next n0' hn0 => exact absurd hn0 (by omega)
  | succ n0 ih =>
      intro st b2so st1 b2so1 n1 flag h
      unfold Scheduler.reserveInner at h
      split at h
      next hca =>
        simp only [Option.some.injEq, Prod.mk.injEq] at h
        obtain ⟨h1, h2, h3, h4⟩ := h
        rw [← h1, ← h3]
        refine ⟨Nat.le_refl _, rfl, rfl, ?_⟩
        simp
      next hca =>
        split at h
        next hn0 => exact absurd hn0 (by omega)
        next n0' hn0 =>
          have hn0e : n0 = n0' := by omega
          subst hn0e
          split at h
          next hvic => exact absurd h (by simp)
          next victim hvic =>
            split at h
            next hswo => exact absurd h (by simp)
            next stA b2soA hswo =>
              obtain ⟨hrun, hpend, hswp⟩ :=
                swapOutGroup_state st victim b2so stA b2soA hswo
              have hlt : n0 < running0.length :=
                (List.getElem?_eq_some_iff.mp hvic).1
              have hseg1 : (running0.drop n0).take 1 = [victim] := by
                rw [List.drop_eq_getElem_cons hlt]
                simp only [List.take_succ_cons, List.take_zero]
                rw [(List.getElem?_eq_some_iff.mp hvic).2]
              split at h
              next hge =>
                simp only [Option.some.injEq, Prod.mk.injEq] at h
                obtain ⟨h1, h2, h3, h4⟩ := h
                rw [← h1, ← h3]
                refine ⟨by omega, hrun, hpend, ?_⟩
                rw [hswp]
                have : n0 + 1 - n0 = 1 := by omega
                rw [this, hseg1]
                simp
              next hge =>
                obtain ⟨hle, hrun2, hpend2, hswp2⟩ :=
                  ih stA b2soA st1 b2so1 n1 flag h
                refine ⟨by omega, hrun2.trans hrun, hpend2.trans hpend, ?_⟩
                rw [hswp2, hswp]
                have hsplit := seg_split running0 n1 n0 (n0 + 1) hle
                  (by omega)
                rw [hsplit]
                have hone : n0 + 1 - n0 = 1 := by omega
                rw [hone, hseg1]
                simp [List.append_assoc]
  
/-- Characterization of the outer walk of phase 1: the final cursor only
moves down, `running` and `pending` are untouched, and exactly the groups
at indices `[nf, n)` of the original running list are moved to `swapped`,
youngest first. -/
theorem reserveOuter_spec (running0 : List SequenceGroup) :
    ∀ (suffix : List SequenceGroup) (i n : Nat) (st : SchedulerState)
      (b2so b2c : List (Nat × Nat)) (st1 : SchedulerState)
      (b2so1 b2c1 : List (Nat × Nat)) (nf : Nat),
    Scheduler.reserveOuter running0 suffix i n st b2so b2c =
      some (st1, b2so1, b2c1, nf) →
    nf ≤ n ∧ st1.running = st.running ∧ st1.pending = st.pending ∧
    st1.swapped = st.swapped ++
      (((running0.drop nf).take (n - nf)).reverse.map markSwapped) := by
  intro suffix
  induction suffix with
  | nil =>
      intro i n st b2so b2c st1 b2so1 b2c1 nf h
      simp only [Scheduler.reserveOuter, Option.some.injEq,
        Prod.mk.injEq] at h
      obtain ⟨h1, h2, h3, h4⟩ := h
      rw [← h1, ← h4]
      refine ⟨Nat.le_refl _, rfl, rfl, ?_⟩
      simp
  | cons gg rest ih =>
      intro i n st b2so b2c st1 b2so1 b2c1 nf h
      unfold Scheduler.reserveOuter at h
      split at h
      next hge =>
        simp only [Option.some.injEq, Prod.mk.injEq] at h
        obtain ⟨h1, h2, h3, h4⟩ := h
        rw [← h1, ← h4]
        refine ⟨Nat.le_refl _, rfl, rfl, ?_⟩
        simp
      next hge =>
        split at h
        next hinner => exact absurd h (by simp)
        next stA b2soA nA flag hinner =>
          obtain ⟨hleA, hrunA, hpendA, hswpA⟩ :=
            reserveInner_spec running0 gg i n st b2so stA b2soA nA flag
              hinner
          split at h
          next hflag =>
            split at h
            next happ => exact absurd h (by simp)
            next bm2 b2c2 happ =>
              obtain ⟨hle, hrun2, hpend2, hswp2⟩ :=
                ih (i + 1) nA { stA with block_manager := bm2 } b2soA b2c2
                  st1 b2so1 b2c1 nf h
              have hrun2a : st1.running = stA.running := hrun2
              have hpend2a : st1.pending = stA.pending := hpend2
              have hswp2a : st1.swapped = stA.swapped ++
                  (((running0.drop nf).take (nA - nf)).reverse.map
                    markSwapped) := hswp2
              refine ⟨by omega, hrun2a.trans hrunA,
                hpend2a.trans hpendA, ?_⟩
              rw [hswp2a, hswpA]
              have hsplit := seg_split running0 nf nA n hle hleA
              rw [hsplit]
              simp [List.append_assoc]
          next hflag =>
            obtain ⟨hle, hrun2, hpend2, hswp2⟩ :=
              ih (i + 1) nA stA b2soA b2c st1 b2so1 b2c1 nf h
            refine ⟨by omega, hrun2.trans hrunA, hpend2.trans hpendA, ?_⟩
            rw [hswp2, hswpA]
            have hsplit := seg_split running0 nf nA n hle hleA
            rw [hsplit]
            simp [List.append_assoc]

/-- C9: when phase 1 of `step` preempts, the victims are taken from the
tail of the running queue (youngest first) and moved to `swapped`: the
surviving running queue is a prefix (`take n`) of the old one and the
preempted suffix lands on `swapped` in reverse (youngest-first) order,
marked SWAPPED; in particular when not even the head survives (`n = 0`),
the phase ends with `running` empty and every former running group
deferred to `swapped`. -/
theorem phase1_preemption (st : SchedulerState) (b2so b2c : List (Nat × Nat))
    (st1 : SchedulerState) (b2so1 b2c1 : List (Nat × Nat))
    (h : Scheduler.phase1 st b2so b2c = some (st1, b2so1, b2c1)) :
    ∃ n, n ≤ st.running.length ∧
      st1.running = st.running.take n ∧
      st1.swapped = st.swapped ++
        ((st.running.drop n).reverse.map markSwapped) ∧
      st1.pending = st.pending ∧
      (n = 0 → st1.running = [] ∧
        st1.swapped = st.swapped ++ (st.running.reverse.map markSwapped)) := by
  unfold Scheduler.phase1 at h
  split at h
  next heq => exact absurd h (by simp)
  next stA b2soA b2cA nf heq =>
    simp only [Option.some.injEq, Prod.mk.injEq] at h
    obtain ⟨h1, h2, h3⟩ := h
    obtain ⟨hle, hrun, hpend, hswp⟩ :=
      reserveOuter_spec st.running st.running 0 st.running.length st
        b2so b2c stA b2soA b2cA nf heq
    have hseg : (st.running.drop nf).take (st.running.length - nf) =
        st.running.drop nf := by
      have hlen : (st.running.drop nf).length = st.running.length - nf := by
        simp
      rw [← hlen, List.take_length]
    refine ⟨nf, hle, ?_, ?_, ?_, ?_⟩
    · rw [← h1, hrun]
    · rw [← h1]
      show stA.swapped = _
      rw [hswp, hseg]
    · rw [← h1]
      show stA.pending = _
      exact hpend
    · intro hnf
      subst hnf
      constructor
      · rw [← h1, hrun]
        rfl
      · rw [← h1]
        show stA.swapped = _
        rw [hswp, hseg]
        rfl

theorem phase1_preemption_witness :
    ∃ n, n ≤ ([⟨7, [⟨1, 4, [⟨0, 4, [5]⟩], SequenceStatus.RUNNING⟩]⟩] :
        List SequenceGroup).length ∧
      ([] : List SequenceGroup) =
        ([⟨7, [⟨1, 4, [⟨0, 4, [5]⟩], SequenceStatus.RUNNING⟩]⟩] :
          List SequenceGroup).take n ∧
      ([⟨7, [⟨1, 4, [⟨0, 4, [5]⟩], SequenceStatus.SWAPPED⟩]⟩] :
          List SequenceGroup) = [] ++
        ((([⟨7, [⟨1, 4, [⟨0, 4, [5]⟩], SequenceStatus.RUNNING⟩]⟩] :
          List SequenceGroup).drop n).reverse.map markSwapped) ∧
      ([] : List SequenceGroup) = ([] : List SequenceGroup) ∧
      (n = 0 → ([] : List SequenceGroup) = [] ∧
        ([⟨7, [⟨1, 4, [⟨0, 4, [5]⟩], SequenceStatus.SWAPPED⟩]⟩] :
            List SequenceGroup) = [] ++
          (([⟨7, [⟨1, 4, [⟨0, 4, [5]⟩],
            SequenceStatus.RUNNING⟩]⟩] :
            List SequenceGroup).reverse.map markSwapped)) :=
  phase1_preemption
    (SchedulerState.mk (BlockSpaceManager.mk 4 1 1
        ⟨Device.GPU, 4, 1, []⟩
        ⟨Device.CPU, 4, 1, [⟨Device.CPU, 0, 4⟩]⟩
        ⟨[1], [0]⟩ [(1, [⟨Device.GPU, 0, 4⟩])])
      [⟨7, [⟨1, 4, [⟨0, 4, [5]⟩], SequenceStatus.RUNNING⟩]⟩] [] [] [(7, 0)])
    [] []
    (SchedulerState.mk (BlockSpaceManager.mk 4 1 1
        ⟨Device.GPU, 4, 1, [⟨Device.GPU, 0, 4⟩]⟩
        ⟨Device.CPU, 4, 1, []⟩
        ⟨[0], [1]⟩ [(1, [⟨Device.CPU, 0, 4⟩])])
      [] [⟨7, [⟨1, 4, [⟨0, 4, [5]⟩], SequenceStatus.SWAPPED⟩]⟩] []
      [(7, 0)])
    [(0, 0)] []
    (by decide)

end CacheFlow
